import Mathlib

/-!
# Deck: load-balancer transformer and GCE server-group command builder

A shallow embedding of

* `app/scripts/modules/amazon/src/loadBalancer/loadBalancer.transformer.js`
* `app/scripts/modules/amazon/src/serverGroup/details/scalingPolicy/scalingPolicy.write.service.js`
* `app/scripts/modules/google/src/serverGroup/configure/serverGroupCommandBuilder.service.js`

JavaScript values are modelled by the tree type `JVal`; a JavaScript `TypeError`
(property access on `undefined`/`null`, calling a method the receiver does not have,
assigning a property on a primitive in strict mode) is modelled by `none`.
Objects that the source mutates in place are threaded through the model explicitly:
a function that mutates its argument returns the argument's state after the call.
Strings are Lean strings; the source only searches for and splits at ASCII delimiters.
-/

namespace Deck

/-! ## JavaScript values -/

/-- A JavaScript value. Objects keep their properties in insertion order; an array
carries its elements and the extra named properties assigned on it. -/
inductive JVal where
  | undefined : JVal
  | null : JVal
  | bool (b : Bool) : JVal
  | num (n : Int) : JVal
  | str (s : String) : JVal
  | arr (elems : List JVal) (props : List (String × JVal)) : JVal
  | obj (fields : List (String × JVal)) : JVal
  deriving Inhabited

/-- Property list of an object. -/
abbrev Fields := List (String × JVal)

namespace JVal

/-- Value stored under `k` in a property list, `undefined` when there is none. -/
def lookup (k : String) : Fields → JVal
  | [] => undefined
  | (k', v) :: rest => if k' = k then v else lookup k rest

/-- Property list after `o[k] = v`: an existing property keeps its place, a new one is appended. -/
def assign (k : String) (v : JVal) : Fields → Fields
  | [] => [(k, v)]
  | (k', v') :: rest => if k' = k then (k, v) :: rest else (k', v') :: assign k v rest

/-- The property list has a property named `k`. -/
def hasField (k : String) (fields : Fields) : Bool :=
  fields.any fun p => p.1 == k

/-- JavaScript truthiness (`ToBoolean`). -/
def truthy : JVal → Bool
  | undefined => false
  | null => false
  | bool b => b
  | num n => n != 0
  | str s => s != ""
  | arr _ _ => true
  | obj _ => true

/-- Result of `a || b`. -/
def or (a b : JVal) : JVal := if a.truthy then a else b

/-- Properties of a value: the fields of an object, the named properties of an array,
none for a primitive. -/
def props : JVal → Fields
  | obj fields => fields
  | arr _ ps => ps
  | _ => []

/-- Property read `o.k` on a value that is not `undefined` or `null` (for a name that is
not a built-in property of the receiver): `undefined` on a primitive. -/
def prop (o : JVal) (k : String) : JVal := lookup k o.props

/-- Property read `o.k`: throws on `undefined` and `null`. -/
def get? (o : JVal) (k : String) : Option JVal :=
  match o with
  | undefined => none
  | null => none
  | _ => some (o.prop k)

/-- State of an object or array `o` after the assignment `o.k = v`. -/
def put (o : JVal) (k : String) (v : JVal) : JVal :=
  match o with
  | obj fields => obj (assign k v fields)
  | arr elems ps => arr elems (assign k v ps)
  | _ => o

/-- State of `o` after the strict-mode assignment `o.k = v`: throws unless `o` is an
object or an array. -/
def set? (o : JVal) (k : String) (v : JVal) : Option JVal :=
  match o with
  | obj _ => some (o.put k v)
  | arr _ _ => some (o.put k v)
  | _ => none

/-- The value is an object or an array. -/
def isObject : JVal → Bool
  | obj _ => true
  | arr _ _ => true
  | _ => false

/-- The value has an own property named `k` (`k in o` for an object of the tree model). -/
def hasKey (o : JVal) (k : String) : Bool := hasField k o.props

/-- Strict equality `v === s` against a string. -/
def isStr (v : JVal) (s : String) : Bool :=
  match v with
  | str t => t == s
  | _ => false

/-- Strict equality `v === b` against a boolean. -/
def isBool (v : JVal) (b : Bool) : Bool :=
  match v with
  | bool c => c == b
  | _ => false

/-- Element `xs[i]` of a list of strings as a value, `undefined` past the end. -/
def ofStr? : Option String → JVal
  | some s => str s
  | none => undefined

end JVal

open JVal

/-! ## JavaScript string operations -/

/-- Index of the first occurrence of `c`, if any. -/
def indexOfChars (c : Char) : List Char → Option Nat
  | [] => none
  | x :: xs => if x = c then some 0 else (indexOfChars c xs).map (· + 1)

/-- The call `s.indexOf(c)` for a one-character string `c`: -1 when `c` does not occur. -/
def indexOf (s : String) (c : Char) : Int :=
  match indexOfChars c s.data with
  | some i => (i : Int)
  | none => -1

/-- Clamping of a `substring` argument to `[0, len]`. -/
def clampIndex (i : Int) (len : Nat) : Nat := min i.toNat len

/-- The call `s.substring(start, end)`: both arguments are clamped to `[0, s.length]` and
swapped when `start > end`. -/
def substring (s : String) (start stop : Int) : String :=
  let a := clampIndex start s.data.length
  let b := clampIndex stop s.data.length
  ⟨(s.data.drop (min a b)).take (max a b - min a b)⟩

/-- The call `s.substring(start)`. -/
def substringFrom (s : String) (start : Int) : String :=
  substring s start s.data.length

/-- Pieces of a character list between the separators selected by `p`. -/
def splitChars (p : Char → Bool) : List Char → List (List Char)
  | [] => [[]]
  | c :: cs =>
    if p c then [] :: splitChars p cs
    else
      match splitChars p cs with
      | [] => [[c]]
      | w :: ws => (c :: w) :: ws

/-- The call `s.split(c)` for a one-character separator `c`. -/
def split (s : String) (c : Char) : List String :=
  (splitChars (fun x => x == c) s.data).map String.mk

/-- The built-in numeric conversions that the source calls: `Number(v)` and `isNaN(v)`
(which is "`Number(v)` is `NaN`"). -/
structure Builtins where
  toNumber : JVal → JVal
  isNaN : JVal → Bool

/-- `Array.prototype.map` with a callback that may throw: the first throw aborts the call. -/
def mapOpt {α β : Type} (f : α → Option β) : List α → Option (List β)
  | [] => some []
  | x :: xs =>
    match f x with
    | none => none
    | some y =>
      match mapOpt f xs with
      | none => none
      | some ys => some (y :: ys)

/-- Indexed read `v[i]`: throws on `undefined` and `null`. -/
def getIndex? (v : JVal) (i : Nat) : Option JVal :=
  match v with
  | undefined => none
  | null => none
  | arr elems _ => some (elems.getD i undefined)
  | obj fields => some (lookup (toString i) fields)
  | str s => some (ofStr? ((s.data.get? i).map String.singleton))
  | _ => some undefined

/-- Strict equality `a === b` of two values. Two objects or arrays of the tree model are
distinct objects. -/
def strictEq (a b : JVal) : Bool :=
  match a, b with
  | JVal.undefined, JVal.undefined => true
  | JVal.null, JVal.null => true
  | JVal.bool x, JVal.bool y => x == y
  | JVal.num x, JVal.num y => x == y
  | JVal.str x, JVal.str y => x == y
  | _, _ => false

/-- The lodash property shorthand `_.property(k)`: `undefined` on `undefined` and `null`. -/
def safeGet (o : JVal) (k : String) : JVal := o.prop k

/-- The lodash call `_.flatten(xs)`: one level of arrays is spliced. -/
def flatten (xs : List JVal) : List JVal :=
  xs.flatMap fun x =>
    match x with
    | arr elems _ => elems
    | v => [v]

/-- The lodash call `_.filter(xs, {isDisabled: false})`. -/
def filterNotDisabled (xs : List JVal) : List JVal :=
  xs.filter fun x => (safeGet x "isDisabled").isBool false

/-- The call `xs.filter(p).length` for a predicate that may throw. -/
def countWhere (p : JVal → Option Bool) : List JVal → Option Nat
  | [] => some 0
  | x :: xs =>
    match p x with
    | none => none
    | some b =>
      match countWhere p xs with
      | none => none
      | some n => some (if b then n + 1 else n)

/-! ## loadBalancer.transformer.js: normalisation

In the functions below the first read of a property of a possibly missing receiver is
written with `get?` and the first assignment on a possibly primitive receiver with `set?`;
once one of them has succeeded, further reads and assignments on that receiver cannot throw
and are written with `prop` and `put`. -/

/-- The elements of a value on which an array method is called: throws unless the value is
an array. -/
def elems? (v : JVal) : Option (List JVal) :=
  match v with
  | arr elems _ => some elems
  | _ => none

/-- The predicate `instance.health[0].state === state` of `updateHealthCounts`. -/
def healthStateIs (state : String) (inst : JVal) : Option Bool := do
  let health ← inst.get? "health"
  let first ← getIndex? health 0
  let current ← first.get? "state"
  pure (current.isStr state)

/-- The predicate `instance.healthState === 'OutOfService'` of `updateHealthCounts`. -/
def isOutOfService (inst : JVal) : Option Bool := do
  let healthState ← inst.get? "healthState"
  pure (healthState.isStr "OutOfService")

/-- The `reduce` of `updateHealthCounts` (source lines 24-28): the number of instances with
`healthState === 'OutOfService'`, summed over the server groups. -/
def outOfServiceCount : List JVal → Option Nat
  | [] => some 0
  | serverGroup :: rest =>
    match outOfServiceCount rest, (serverGroup.get? "instances").bind elems? with
    | some acc, some instances => (countWhere isOutOfService instances).map (· + acc)
    | _, _ => none

/-- The value of `container.serverGroups || [container]` as a list (source line 16). -/
def ownServerGroups (container : JVal) : Option (List JVal) :=
  if (container.prop "serverGroups").truthy then elems? (container.prop "serverGroups")
  else some [container]

/-- The function `updateHealthCounts` (source lines 14-30): the state of `container`
afterwards. -/
def updateHealthCounts (container : JVal) : Option JVal := do
  let instances ← elems? (container.prop "instances")
  let serverGroups ← ownServerGroups container
  let up ← countWhere (healthStateIs "InService") instances
  let down ← countWhere (healthStateIs "OutOfService") instances
  let outOfService ← outOfServiceCount serverGroups
  pure (container.put "instanceCounts"
    (obj [("up", num up), ("down", num down), ("outOfService", num outOfService)]))

/-- The assignment `instance.health.state = 'InService'` made when the state is `healthy`
(source lines 34-39): the state of the health record afterwards. -/
def renameHealthy (health : JVal) : JVal :=
  if (health.prop "state").isStr "healthy" then health.put "state" (str "InService")
  else health

/-- The value of `instance.healthState` for a health state (source line 43). -/
def healthStateOf (state : JVal) : JVal :=
  if state.truthy then (if state.isStr "InService" then str "Up" else str "Down")
  else str "OutOfService"

/-- The function `transformInstance` (source lines 32-45): the state of `instance`
afterwards. -/
def transformInstance (inst provider account region : JVal) : Option JVal := do
  let health := renameHealthy ((← inst.get? "health").or (obj []))
  let inst ← inst.set? "health" health
  let inst := inst.put "provider" provider
  let inst := inst.put "account" account
  let inst := inst.put "region" region
  let inst := inst.put "healthState" (healthStateOf (health.prop "state"))
  pure (inst.put "health" (arr [health] []))

/-- The callback of `serverGroup.instances.forEach` in `normalizeServerGroups`
(source lines 68-72): the state of `instance` afterwards. -/
def normalizeInstance (container : JVal) (containerType healthType : String) (inst : JVal) :
    Option JVal := do
  let inst ← transformInstance inst (container.prop "type") (container.prop "account")
    (container.prop "region")
  let inst := inst.put containerType (arr [container.prop "name"] [])
  pure (inst.put "health" ((inst.prop "health").put "type" (str healthType)))

/-- The branch on `serverGroup.detachedInstances` in `normalizeServerGroups`
(source lines 59-66): the state of `serverGroup` afterwards. The objects made for the
detached instance ids are appended to `serverGroup.instances`. -/
def attachDetachedInstances (serverGroup : JVal) : Option JVal :=
  if (serverGroup.prop "detachedInstances").truthy then do
    let ids ← elems? (serverGroup.prop "detachedInstances")
    let detachedInstances := ids.map fun instanceId => obj [("id", instanceId)]
    let instances ← elems? (serverGroup.prop "instances")
    pure ((serverGroup.put "detachedInstances" (arr detachedInstances [])).put "instances"
      (arr (instances ++ detachedInstances) []))
  else some (serverGroup.put "detachedInstances" (arr [] []))

/-- The state of `serverGroup` after the loop over `serverGroup.instances`
(source lines 68-72), given the states of the instances after it. The objects in
`serverGroup.detachedInstances` are the last elements of `serverGroup.instances`, so the
loop transforms them too. -/
def withNormalizedInstances (serverGroup : JVal) (normalized : List JVal) : JVal :=
  let detachedCount := ((elems? (serverGroup.prop "detachedInstances")).getD []).length
  (serverGroup.put "instances" (arr normalized (serverGroup.prop "instances").props)).put
    "detachedInstances" (arr (normalized.drop (normalized.length - detachedCount)) [])

/-- The callback of `serverGroups.forEach` in `normalizeServerGroups` (source lines 56-74):
the state of `serverGroup` afterwards. -/
def normalizeServerGroup (container : JVal) (containerType healthType : String)
    (serverGroup : JVal) : Option JVal := do
  let account ← container.get? "account"
  let serverGroup ← serverGroup.set? "account" account
  let serverGroup ← attachDetachedInstances (serverGroup.put "region" (container.prop "region"))
  let instances ← elems? (serverGroup.prop "instances")
  let normalized ← mapOpt (normalizeInstance container containerType healthType) instances
  updateHealthCounts (withNormalizedInstances serverGroup normalized)

/-- The function `normalizeServerGroups` (source lines 55-75): the state of the array
`serverGroups` afterwards. -/
def normalizeServerGroups (serverGroups container : JVal) (containerType healthType : String) :
    Option JVal := do
  let elements ← elems? serverGroups
  let normalized ← mapOpt (normalizeServerGroup container containerType healthType) elements
  pure (arr normalized serverGroups.props)

/-- The call `vpcs.find(test => test.id === vpcId)`: the first match, if any. -/
def findVpc (vpcId : JVal) : List JVal → Option (Option JVal)
  | [] => some none
  | test :: rest =>
    match test.get? "id" with
    | none => none
    | some id => if strictEq id vpcId then some (some test) else findVpc vpcId rest

/-- The callback returned by `addVpcNameToContainer` (source lines 47-53), applied to the
list of VPCs: the state of `container` afterwards. -/
def addVpcNameToContainer (vpcs : List JVal) (container : JVal) : Option JVal := do
  let vpcId ← container.get? "vpcId"
  let found ← findVpc vpcId vpcs
  match found with
  | some vpc => container.set? "vpcName" (if vpc.truthy then vpc.prop "name" else str "")
  | none => container.set? "vpcName" (str "")

/-- The chain `_.chain(serverGroups).map(property).flatten().value()`. -/
def flatMapProperty (serverGroups : List JVal) (property : String) : List JVal :=
  flatten (serverGroups.map fun serverGroup => safeGet serverGroup property)

/-- The assignments of `provider`, `instances` and `detachedInstances` on a target group or
load balancer (source lines 80-83 and 98-101), given the list `serverGroups` that is
filtered for the active server groups: the state of `container` afterwards. -/
def withActiveInstances (container : JVal) (serverGroups : List JVal) : JVal :=
  let activeServerGroups := filterNotDisabled serverGroups
  ((container.put "provider" (container.prop "type")).put "instances"
    (arr (flatMapProperty activeServerGroups "instances") [])).put "detachedInstances"
    (arr (flatMapProperty activeServerGroups "detachedInstances") [])

/-- The function `normalizeTargetGroup` (source lines 77-87): the state of `targetGroup`
once the promise it returns has settled. Nothing handles a rejection of that promise in
`normalizeLoadBalancer`, so a throw in the VPC callback leaves the target group as it was
before the callback. -/
def normalizeTargetGroup (vpcs : List JVal) (targetGroup : JVal) : Option JVal := do
  let serverGroups ← targetGroup.get? "serverGroups"
  let serverGroups ← normalizeServerGroups serverGroups targetGroup "targetGroups" "TargetGroup"
  let elements ← elems? serverGroups
  let targetGroup ← updateHealthCounts
    (withActiveInstances (targetGroup.put "serverGroups" serverGroups) elements)
  pure ((addVpcNameToContainer vpcs targetGroup).getD targetGroup)

/-- The block `if (loadBalancer.targetGroups) { ... }` of `normalizeLoadBalancer`
(source lines 92-96): the state of `loadBalancer` afterwards and the value of the local
variable `serverGroups`. -/
def normalizeTargetGroups (vpcs : List JVal) (loadBalancer : JVal) (serverGroups : List JVal) :
    Option (JVal × List JVal) :=
  if (loadBalancer.prop "targetGroups").truthy then do
    let targetGroups ← elems? (loadBalancer.prop "targetGroups")
    let normalized ← mapOpt (normalizeTargetGroup vpcs) targetGroups
    pure (loadBalancer.put "targetGroups"
        (arr normalized (loadBalancer.prop "targetGroups").props),
      flatten (normalized.map fun targetGroup => safeGet targetGroup "serverGroups"))
  else some (loadBalancer, serverGroups)

/-- The function `normalizeLoadBalancer` (source lines 89-104), given the list of VPCs that
`vpcReader.listVpcs()` resolves to: the state of `loadBalancer` once the returned promise
has resolved. -/
def normalizeLoadBalancer (vpcs : List JVal) (loadBalancer : JVal) : Option JVal := do
  let serverGroups ← loadBalancer.get? "serverGroups"
  let serverGroups ← normalizeServerGroups serverGroups loadBalancer "loadBalancers"
    "LoadBalancer"
  let elements ← elems? serverGroups
  let state ← normalizeTargetGroups vpcs (loadBalancer.put "serverGroups" serverGroups) elements
  let loadBalancer ← updateHealthCounts (withActiveInstances state.1 state.2)
  addVpcNameToContainer vpcs loadBalancer

/-! ## loadBalancer.transformer.js: conversion for editing -/

/-- The assignments made on `listener` when `listener.sslcertificateId` is truthy
(source lines 126-128): the state of `listener` afterwards. A truthy value that is not a
string has no `split`. -/
def splitSslCertificateId (listener sslcertificateId : JVal) : Option JVal :=
  match sslcertificateId with
  | str s =>
    let splitCertificateId := split s '/'
    match splitCertificateId[0]? with
    | some first =>
      some ((listener.put "sslcertificateId" (ofStr? splitCertificateId[1]?)).put
        "sslCertificateType" (ofStr? (split first ':')[2]?))
    | none => none
  | _ => none

/-- The object returned by the listener callback (source lines 130-138). -/
def classicListenerForEditing (listener : JVal) : JVal :=
  obj [
    ("internalProtocol", listener.prop "instanceProtocol"),
    ("internalPort", listener.prop "instancePort"),
    ("externalProtocol", listener.prop "protocol"),
    ("externalPort", listener.prop "loadBalancerPort"),
    ("sslCertificateId", listener.prop "sslcertificateId"),
    ("sslCertificateName", listener.prop "sslcertificateId"),
    ("sslCertificateType", listener.prop "sslCertificateType")]

/-- The callback of `elb.listenerDescriptions.map` in `convertClassicLoadBalancerForEditing`
(source lines 123-139). Returns the listener for editing and the state of `description`
after the call: the callback assigns `sslcertificateId` and `sslCertificateType` on
`description.listener` itself. -/
def convertClassicListener (description : JVal) : Option (JVal × JVal) := do
  let listener ← description.get? "listener"
  let sslcertificateId ← listener.get? "sslcertificateId"
  if sslcertificateId.truthy then
    let listener ← splitSslCertificateId listener sslcertificateId
    pure (classicListenerForEditing listener, description.put "listener" listener)
  else
    pure (classicListenerForEditing listener, description)

/-- The block `if (elb.listenerDescriptions) { toEdit.listeners = ... }` (source lines 122-140)
for a truthy `elb`: the fields of `toEdit` and the state of `elb` afterwards. -/
def convertClassicListeners (elb : JVal) (toEdit : Fields) : Option (Fields × JVal) :=
  if (elb.prop "listenerDescriptions").truthy then do
    let descriptions ← elems? (elb.prop "listenerDescriptions")
    let results ← mapOpt convertClassicListener descriptions
    pure (assign "listeners" (arr (results.map Prod.fst) []) toEdit,
      elb.put "listenerDescriptions"
        (arr (results.map Prod.snd) (elb.prop "listenerDescriptions").props))
  else some (toEdit, elb)

/-- The three substrings taken from the health-check target (source lines 149-159), when the
target has a colon: `healthCheckProtocol`, the text first stored in `healthCheckPort`, and
`healthCheckPath`. -/
def splitHealthCheckTarget (healthCheck : String) : Option (String × String × String) :=
  let protocolIndex := indexOf healthCheck ':'
  let pathIndex := indexOf healthCheck '/'
  let pathIndex := if pathIndex = -1 then (healthCheck.data.length : Int) else pathIndex
  if protocolIndex ≠ -1 then
    some (substring healthCheck 0 protocolIndex,
      substring healthCheck (protocolIndex + 1) pathIndex,
      substringFrom healthCheck pathIndex)
  else none

/-- The part of the health-check block that reads the target (source lines 148-163).
A target that is not a string has no `substring`; an array has `indexOf`, so it only
throws when it holds a colon. -/
def assignHealthCheckTarget (js : Builtins) (target : JVal) (toEdit : Fields) : Option Fields :=
  match target with
  | str s =>
    match splitHealthCheckTarget s with
    | some (protocol, port, path) =>
      let toEdit := assign "healthCheckProtocol" (str protocol) toEdit
      let toEdit := assign "healthCheckPort" (str port) toEdit
      let toEdit := assign "healthCheckPath" (str path) toEdit
      if !js.isNaN (str port) then
        some (assign "healthCheckPort" (js.toNumber (str port)) toEdit)
      else some toEdit
    | none => some toEdit
  | arr elems _ => if elems.any (fun e => e.isStr ":") then none else some toEdit
  | _ => none

/-- The block `if (elb.healthCheck && elb.healthCheck.target) { ... }` (source lines 142-164)
for a truthy `elb`. -/
def convertClassicHealthCheck (js : Builtins) (elb : JVal) (toEdit : Fields) : Option Fields :=
  let healthCheck := elb.prop "healthCheck"
  if healthCheck.truthy && (healthCheck.prop "target").truthy then
    let toEdit := assign "healthTimeout" (healthCheck.prop "timeout") toEdit
    let toEdit := assign "healthInterval" (healthCheck.prop "interval") toEdit
    let toEdit := assign "healthyThreshold" (healthCheck.prop "healthyThreshold") toEdit
    let toEdit := assign "unhealthyThreshold" (healthCheck.prop "unhealthyThreshold") toEdit
    assignHealthCheckTarget js (healthCheck.prop "target") toEdit
  else some toEdit

/-- The object literal that `convertClassicLoadBalancerForEditing` starts from
(source lines 107-115). -/
def classicToEdit (loadBalancer : JVal) : Fields :=
  [("editMode", bool true),
    ("loadBalancerType", str "classic"),
    ("region", loadBalancer.prop "region"),
    ("credentials", loadBalancer.prop "account"),
    ("listeners", arr [] []),
    ("name", loadBalancer.prop "name"),
    ("regionZones", loadBalancer.prop "availabilityZones")]

/-- The assignments of `securityGroups` and `vpcId` (source lines 119-120 and 183-184). -/
def withSecurityGroupsAndVpc (elb : JVal) (toEdit : Fields) : Fields :=
  assign "vpcId" ((elb.prop "vpcid").or (elb.prop "vpcId"))
    (assign "securityGroups" (elb.prop "securityGroups") toEdit)

/-- The function `convertClassicLoadBalancerForEditing` (source lines 106-167). Returns
`toEdit` and the state of the argument `loadBalancer` after the call. -/
def convertClassicLoadBalancerForEditing (js : Builtins) (loadBalancer : JVal) :
    Option (JVal × JVal) := do
  let elb ← loadBalancer.get? "elb"
  let toEdit := classicToEdit loadBalancer
  if elb.truthy then
    let listeners ← convertClassicListeners elb (withSecurityGroupsAndVpc elb toEdit)
    let toEdit ← convertClassicHealthCheck js listeners.2 listeners.1
    pure (obj toEdit,
      if (elb.prop "listenerDescriptions").truthy then loadBalancer.put "elb" listeners.2
      else loadBalancer)
  else pure (obj toEdit, loadBalancer)

/-- The callback of `listener.certificates.forEach` in
`convertApplicationLoadBalancerForEditing` (source lines 191-198): the entry pushed onto
`certificates`. The call `certArnParts[5].split` throws when the ARN has fewer than six
fields. -/
def convertCertificate (cert : JVal) : Option JVal := do
  let certificateArn ← cert.get? "certificateArn"
  match certificateArn with
  | str s =>
    let certArnParts := split s ':'
    match certArnParts[5]? with
    | some sixth =>
      some (obj [("type", ofStr? certArnParts[2]?), ("name", ofStr? (split sixth '/')[1]?)])
    | none => none
  | _ => none

/-- The list `certificates` built for one listener (source lines 189-199). -/
def convertCertificates (certificates : JVal) : Option (List JVal) :=
  if certificates.truthy then
    match certificates with
    | arr certs _ => mapOpt convertCertificate certs
    | _ => none
  else some []

/-- The callback of `elb.listeners.map` (source lines 188-208). -/
def convertApplicationListener (listener : JVal) : Option JVal := do
  let certificates ← listener.get? "certificates"
  let certificates ← convertCertificates certificates
  pure (obj [
    ("protocol", listener.prop "protocol"),
    ("port", listener.prop "port"),
    ("defaultActions", listener.prop "defaultActions"),
    ("certificates", arr certificates []),
    ("sslPolicy", listener.prop "sslPolicy")])

/-- The block `if (elb.listeners) { toEdit.listeners = ... }` (source lines 187-209) for a
truthy `elb`. -/
def convertApplicationListeners (elb : JVal) (toEdit : Fields) : Option Fields :=
  if (elb.prop "listeners").truthy then do
    let listeners ← elems? (elb.prop "listeners")
    let converted ← mapOpt convertApplicationListener listeners
    pure (assign "listeners" (arr converted []) toEdit)
  else some toEdit

/-- The object `attributes` of a converted target group (source lines 225-230). -/
def targetGroupAttributes (js : Builtins) (attributes : JVal) : JVal :=
  obj [
    ("deregistrationDelay",
      js.toNumber (attributes.prop "deregistration_delay.timeout_seconds")),
    ("stickinessEnabled", bool ((attributes.prop "stickiness.enabled").isStr "true")),
    ("stickinessType", attributes.prop "stickiness.type"),
    ("stickinessDuration",
      js.toNumber (attributes.prop "stickiness.lb_cookie.duration_seconds"))]

/-- The callback of `elb.targetGroups.map` (source lines 213-232). -/
def convertApplicationTargetGroup (js : Builtins) (targetGroup : JVal) : Option JVal := do
  let attributes ← targetGroup.get? "attributes"
  let _ ← attributes.get? "deregistration_delay.timeout_seconds"
  pure (obj [
    ("name", targetGroup.prop "targetGroupName"),
    ("protocol", targetGroup.prop "protocol"),
    ("port", targetGroup.prop "port"),
    ("healthCheckProtocol", targetGroup.prop "healthCheckProtocol"),
    ("healthCheckPort", targetGroup.prop "healthCheckPort"),
    ("healthCheckPath", targetGroup.prop "healthCheckPath"),
    ("healthTimeout", targetGroup.prop "healthCheckTimeoutSeconds"),
    ("healthInterval", targetGroup.prop "healthCheckIntervalSeconds"),
    ("healthyThreshold", targetGroup.prop "healthyThresholdCount"),
    ("unhealthyThreshold", targetGroup.prop "unhealthyThresholdCount"),
    ("attributes", targetGroupAttributes js attributes)])

/-- The block `if (elb.targetGroups) { toEdit.targetGroups = ... }` (source lines 212-233)
for a truthy `elb`. -/
def convertApplicationTargetGroups (js : Builtins) (elb : JVal) (toEdit : Fields) :
    Option Fields :=
  if (elb.prop "targetGroups").truthy then do
    let targetGroups ← elems? (elb.prop "targetGroups")
    let converted ← mapOpt (convertApplicationTargetGroup js) targetGroups
    pure (assign "targetGroups" (arr converted []) toEdit)
  else some toEdit

/-- The object literal that `convertApplicationLoadBalancerForEditing` starts from
(source lines 170-179). -/
def applicationToEdit (loadBalancer : JVal) : Fields :=
  [("editMode", bool true),
    ("region", loadBalancer.prop "region"),
    ("credentials", loadBalancer.prop "account"),
    ("loadBalancerType", str "application"),
    ("listeners", arr [] []),
    ("targetGroups", arr [] []),
    ("name", loadBalancer.prop "name"),
    ("regionZones", loadBalancer.prop "availabilityZones")]

/-- The function `convertApplicationLoadBalancerForEditing` (source lines 169-236). It
assigns nothing on its argument. -/
def convertApplicationLoadBalancerForEditing (js : Builtins) (loadBalancer : JVal) :
    Option JVal := do
  let elb ← loadBalancer.get? "elb"
  let toEdit := applicationToEdit loadBalancer
  if elb.truthy then
    let toEdit ← convertApplicationListeners elb (withSecurityGroupsAndVpc elb toEdit)
    let toEdit ← convertApplicationTargetGroups js elb toEdit
    pure (obj toEdit)
  else pure (obj toEdit)

/-- Value that `convertClassicLoadBalancerForEditing` leaves in `toEdit.healthCheckPort` when
the substring first stored there is `port` (source lines 158-162). -/
def healthCheckPortOf (js : Builtins) (port : String) : JVal :=
  if js.isNaN (str port) then str port else js.toNumber (str port)

/-! ### Wording of the specification, for comparison with the code -/

/-- The text of `s` before the first `c`. -/
def textBeforeFirst (c : Char) (s : String) : String :=
  ⟨s.data.takeWhile (fun x => x != c)⟩

/-- The text of `s` from the first `c` to the end, empty when there is no `c`. -/
def textFromFirst (c : Char) (s : String) : String :=
  ⟨s.data.dropWhile (fun x => x != c)⟩

/-- The text of `s` between the first `c` and the first `d`: what stands after the first `c`
within the part of `s` before the first `d` (the whole of `s` when there is no `d`). -/
def textBetweenFirst (c d : Char) (s : String) : String :=
  ⟨(s.data.takeWhile (fun x => x != d)).drop ((s.data.takeWhile (fun x => x != c)).length + 1)⟩

/-- The certificate ARN `arn:<partition>:<service>:<region>:<account>:<resource>/<name>`. -/
def certificateArn (partition service region account resource name : String) : String :=
  "arn:" ++ partition ++ ":" ++ service ++ ":" ++ region ++ ":" ++ account ++ ":" ++ resource
    ++ "/" ++ name

/-- The listener description carries a certificate ARN of the form
`arn:<partition>:<service>:<region>:<account>:<resource>/<name>`: the fields before the
resource hold no slash, the partition and service hold no colon, and neither the resource
nor the name holds a slash. -/
def HasCertificateArn (description : JVal) (service name : String) : Prop :=
  ∃ listener partition region account resource,
    description.get? "listener" = some listener ∧
    listener.get? "sslcertificateId"
      = some (str (certificateArn partition service region account resource name)) ∧
    '/' ∉ partition.data ∧ '/' ∉ service.data ∧ '/' ∉ region.data ∧ '/' ∉ account.data ∧
    '/' ∉ resource.data ∧ '/' ∉ name.data ∧ ':' ∉ partition.data ∧ ':' ∉ service.data

/-- The listener of the description has no `sslcertificateId`. -/
def HasNoCertificate (description : JVal) : Prop :=
  ∃ listener,
    description.get? "listener" = some listener ∧
    listener.get? "sslcertificateId" = some undefined

/-- The description has the type of a listener description: its `listener` is an object
whose `sslcertificateId`, when there is one, is a string. -/
def isListenerDescription (description : JVal) : Bool :=
  match description.prop "listener" with
  | JVal.obj fields =>
    match lookup "sslcertificateId" fields with
    | JVal.str _ => true
    | JVal.undefined => true
    | _ => false
  | _ => false

/-- The certificate has a string `certificateArn`. -/
def HasCertificateArnString (cert : JVal) : Prop :=
  ∃ s, cert.get? "certificateArn" = some (str s)

/-- The `certificateArn` of the certificate has at least six fields separated by colons,
of which `third` is the third and `sixth` the sixth. -/
def HasArnFields (cert : JVal) (third sixth : String) : Prop :=
  ∃ f1 f2 f4 f5 more,
    cert.get? "certificateArn" = some (str
      (f1 ++ ":" ++ f2 ++ ":" ++ third ++ ":" ++ f4 ++ ":" ++ f5 ++ ":" ++ sixth ++ more)) ∧
    ':' ∉ f1.data ∧ ':' ∉ f2.data ∧ ':' ∉ third.data ∧ ':' ∉ f4.data ∧ ':' ∉ f5.data ∧
    ':' ∉ sixth.data ∧ (more = "" ∨ more.data.head? = some ':')

/-- The listener has no certificates, or a list of certificates that each satisfy `P`. -/
def CertificatesAll (P : JVal → Prop) (listener : JVal) : Prop :=
  listener.get? "certificates" = some undefined ∨
    ∃ certs props, listener.get? "certificates" = some (arr certs props) ∧ ∀ c ∈ certs, P c

/-- What the specification says of the entry `entry` made for the certificate `cert`: when
the ARN has at least six fields and the sixth holds a slash, `type` is the third field and
`name` is the part of the sixth field between its first and its second slash (to the end
when there is only one). -/
def CertificateEntry (cert entry : JVal) : Prop :=
  ∀ third sixth, HasArnFields cert third sixth →
    ∀ before name rest, sixth = before ++ "/" ++ name ++ rest →
      '/' ∉ before.data → '/' ∉ name.data → (rest = "" ∨ rest.data.head? = some '/') →
      entry.get? "type" = some (str third) ∧ entry.get? "name" = some (str name)

/-- What the specification says of the listener `edited` made for `listener`: one
certificate entry per certificate, in order, and an empty list when the listener has no
certificates. -/
def ListenerCertificates (listener edited : JVal) : Prop :=
  ∃ entries, edited.get? "certificates" = some (arr entries []) ∧
    (listener.get? "certificates" = some undefined → entries = []) ∧
    ∀ certs props, listener.get? "certificates" = some (arr certs props) →
      List.Forall₂ CertificateEntry certs entries

/-! ### Wording of the claims about normalisation -/

/-- The elements of an array, and no elements for a value that is not an array. -/
def elemsOf (v : JVal) : List JVal := (elems? v).getD []

/-- The health record of an instance before normalisation: `instance.health`, and an empty
record when the instance has none. -/
def originalHealth (inst : JVal) : JVal :=
  if (inst.prop "health").truthy then inst.prop "health" else obj []

/-- The health state of an instance before normalisation: `instance.health.state`, and
`undefined` when the instance has no health record. -/
def originalState (inst : JVal) : JVal := (originalHealth inst).prop "state"

/-- The value is a string, or it is missing (`undefined` or `null`). -/
def isTextOrAbsent : JVal → Bool
  | JVal.undefined => true
  | JVal.null => true
  | JVal.str _ => true
  | _ => false

/-- The state is `InService` or `healthy`. -/
def isUpState (state : JVal) : Bool := state.isStr "InService" || state.isStr "healthy"

/-- There is no health state: the state is missing or empty. -/
def hasNoState : JVal → Bool
  | JVal.undefined => true
  | JVal.null => true
  | JVal.str s => s == ""
  | _ => false

/-- The state is some other state than `InService`, `healthy` and `OutOfService`. -/
def isOtherState (state : JVal) : Bool :=
  !isUpState state && !state.isStr "OutOfService" && !hasNoState state

/-- The objects that `normalizeServerGroups` makes for the detached instance ids of a server
group. -/
def detachedObjects (serverGroup : JVal) : List JVal :=
  (elemsOf (serverGroup.prop "detachedInstances")).map fun instanceId => obj [("id", instanceId)]

/-- The server group has the shape that the provider returns: `instances` is a list of
objects, `detachedInstances` is missing or a list, and there is no field `serverGroups`. -/
def wellFormedServerGroup (serverGroup : JVal) : Bool :=
  (match serverGroup.prop "instances" with
    | JVal.arr instances _ => instances.all fun inst => inst.isObject
    | _ => false) &&
  (match serverGroup.prop "detachedInstances" with
    | JVal.arr _ _ => true
    | detached => !detached.truthy) &&
  !(serverGroup.prop "serverGroups").truthy

/-- Every instance of the server group has a health state that is a string or missing. -/
def statesAreText (serverGroup : JVal) : Bool :=
  (elemsOf (serverGroup.prop "instances")).all fun inst => isTextOrAbsent (originalState inst)

/-- The instance is counted in `instanceCounts.up`: `instance.health[0].state` is
`InService`. -/
def countsAsUp (inst : JVal) : Bool := healthStateIs "InService" inst == some true

/-- The instance is counted in `instanceCounts.down`: `instance.health[0].state` is
`OutOfService`. -/
def countsAsDown (inst : JVal) : Bool := healthStateIs "OutOfService" inst == some true

/-- The instance is counted in `instanceCounts.outOfService`: `instance.healthState` is
`OutOfService`. -/
def countsAsOutOfService (inst : JVal) : Bool := isOutOfService inst == some true

/-- The counts of `updateHealthCounts` can be taken on the instance: reading
`instance.health[0].state` and `instance.healthState` does not throw. -/
def Counted (inst : JVal) : Prop :=
  (∀ state, (healthStateIs state inst).isSome) ∧ (isOutOfService inst).isSome

/-- A server group after normalisation: `instances` and `detachedInstances` are lists, and
the counts of `updateHealthCounts` can be taken on every instance. -/
def NormalizedGroup (serverGroup : JVal) : Prop :=
  ∃ instances ps detached, serverGroup.prop "instances" = arr instances ps ∧
    serverGroup.prop "detachedInstances" = arr detached [] ∧ ∀ i ∈ instances, Counted i

/-- The container (a load balancer or a target group) has a list `serverGroups` of
well-formed server groups. -/
def hasWellFormedServerGroups (container : JVal) : Bool :=
  match container.prop "serverGroups" with
  | JVal.arr serverGroups _ => serverGroups.all wellFormedServerGroup
  | _ => false

/-- The load balancer has the shape that the provider returns: a list of well-formed server
groups, and either no target groups or a list of target groups that each have a list of
well-formed server groups. -/
def wellFormedLoadBalancer (loadBalancer : JVal) : Bool :=
  hasWellFormedServerGroups loadBalancer &&
  (match loadBalancer.prop "targetGroups" with
    | JVal.arr targetGroups _ => targetGroups.all hasWellFormedServerGroups
    | targetGroups => !targetGroups.truthy)

/-- The in-order concatenation of the lists stored under `property` in those server groups
whose `isDisabled` is the boolean `false`. -/
def concatOfActive (serverGroups : List JVal) (property : String) : List JVal :=
  (serverGroups.filter fun serverGroup => (serverGroup.prop "isDisabled").isBool false).flatMap
    fun serverGroup => elemsOf (serverGroup.prop property)

/-! ### Decimal numerals -/

/-- Value of a string of decimal digits, `none` when another character occurs. The empty
string has the value 0. -/
def parseDigits (acc : Nat) : List Char → Option Nat
  | [] => some acc
  | c :: cs => if c.isDigit then parseDigits (acc * 10 + (c.toNat - 48)) cs else none

/-- Decimal digits of `n` without leading zeros, most significant first; `fuel` bounds the
number of digits. -/
def decimalDigits : Nat → Nat → List Char
  | 0, _ => []
  | fuel + 1, n =>
    if n < 10 then [Nat.digitChar n]
    else decimalDigits fuel (n / 10) ++ [Nat.digitChar (n % 10)]

/-- The natural number `n` written in decimal without leading zeros. -/
def decimal (n : Nat) : String := ⟨decimalDigits (n + 1) n⟩

/-- The conversion `ToString(v)` that string concatenation with `+` applies to its operand,
for integers and the other primitives; `objectText` is the conversion of objects and arrays,
which calls their own `toString`. -/
def toText (objectText : JVal → String) : JVal → String
  | JVal.str s => s
  | JVal.undefined => "undefined"
  | JVal.null => "null"
  | JVal.bool b => if b then "true" else "false"
  | JVal.num n => if n < 0 then "-" ++ decimal n.natAbs else decimal n.toNat
  | v => objectText v

/-- Number of times `n` is halved until it is below `2 ^ 53`: the binary exponent of the
double nearest to `n`. -/
def halvings : Nat → Nat → Nat
  | 0, _ => 0
  | fuel + 1, n => if n < 2 ^ 53 then 0 else halvings fuel (n / 2) + 1

/-- The double-precision number nearest to the natural number `n` (round to nearest, ties to
even), for `n` in the range of the finite doubles. A JavaScript number is a double: an
integer is represented exactly only when it has at most 53 significant bits. -/
def nearestDouble (n : Nat) : Nat :=
  let e := halvings n n
  let q := n / 2 ^ e
  let r := n % 2 ^ e
  if 2 ^ e < 2 * r ∨ (2 * r = 2 ^ e ∧ q % 2 = 1) then (q + 1) * 2 ^ e else q * 2 ^ e

/-- What the theorems assume of the built-in conversions, as ECMAScript defines them: a
string of decimal digits that denotes an integer below `2 ^ 53` is not `NaN` and converts to
that integer. This includes the empty string, which converts to 0. -/
def StandardNumber (js : Builtins) : Prop :=
  ∀ digits n, parseDigits 0 digits = some n → n < 2 ^ 53 →
    js.isNaN (str ⟨digits⟩) = false ∧ js.toNumber (str ⟨digits⟩) = num n

/-! ## scalingPolicy.write.service.js

The task executor is a parameter: `executeTask` maps the task it is given to the value that
`taskExecutor.executeTask` returns. -/

/-- The function `upsertScalingPolicy` (source lines 13-20): the value returned and the state
of `command` after the call. -/
def upsertScalingPolicy {Result : Type} (objectText : JVal → String)
    (executeTask : JVal → Result) (application command : JVal) : Option (Result × JVal) := do
  let command ← command.set? "type" (str "upsertScalingPolicy")
  pure (executeTask (obj [
      ("application", application),
      ("description", str ("Upsert scaling policy " ++ toText objectText (command.prop "name"))),
      ("job", arr [command] [])]),
    command)

/-- The function `deleteScalingPolicy` (source lines 22-37): the value returned. -/
def deleteScalingPolicy {Result : Type} (objectText : JVal → String)
    (executeTask : JVal → Result) (application serverGroup scalingPolicy : JVal) :
    Option Result := do
  let name ← scalingPolicy.get? "name"
  let provider ← serverGroup.get? "type"
  pure (executeTask (obj [
    ("application", application),
    ("description", str ("Delete scaling policy " ++ toText objectText name)),
    ("job", arr [obj [
      ("type", str "deleteScalingPolicy"),
      ("provider", provider),
      ("credentials", serverGroup.prop "account"),
      ("region", serverGroup.prop "region"),
      ("policyName", scalingPolicy.prop "policyName"),
      ("serverGroupName", serverGroup.prop "name")]] [])]))

/-! ## serverGroupCommandBuilder.service.js

The services that the factory is given are parameters of the model: what their promises
resolve to, and the synchronous functions among them. A promise is modelled by the value it
resolves to; a callback that throws rejects the promise, which is `none` here too. -/

/-- The injected services and values of `gceServerGroupCommandBuilder`. -/
structure GceServices where
  /-- The value of `GCEProviderSettings`. -/
  settings : JVal
  /-- The value of `gceServerGroupHiddenMetadataKeys`. -/
  hiddenMetadataKeys : JVal
  /-- What `instanceTypeService.getCategories('gce')` resolves to. -/
  categories : JVal
  /-- What `instanceTypeService.getCategoryForInstanceType('gce', instanceType)` resolves
  to. -/
  categoryForInstanceType : JVal → JVal
  /-- What `instanceTypeService.getInstanceTypeDetails(provider, instanceType)` resolves
  to. -/
  instanceTypeDetails : JVal → JVal → JVal
  /-- What `accountService.listAccounts('gce')` resolves to. -/
  gceAccounts : JVal
  /-- The function `namingService.parseServerGroupName`. -/
  parseServerGroupName : JVal → JVal
  /-- The function `gceCustomInstanceBuilderService.parseInstanceTypeString`. -/
  parseInstanceTypeString : JVal → JVal
  /-- The conversion to a string of an object or array (its own `toString`). -/
  objectText : JVal → String

/-- A `forEach` whose callback changes a state and may throw. -/
def forEachOpt {α σ : Type} (f : σ → α → Option σ) : σ → List α → Option σ
  | s, [] => some s
  | s, x :: xs =>
    match f s x with
    | none => none
    | some s' => forEachOpt f s' xs

/-- The call `_.find(xs, p)` for a predicate that may throw: the first element on which the
predicate holds, if any. -/
def findOpt (p : JVal → Option Bool) : List JVal → Option (Option JVal)
  | [] => some none
  | x :: xs =>
    match p x with
    | none => none
    | some true => some (some x)
    | some false => findOpt p xs

/-- The elements that lodash iterates over in a collection: the elements of an array, the
values of an object, the characters of a string, and nothing for any other value. -/
def collection (v : JVal) : List JVal :=
  match v with
  | JVal.arr elems _ => elems
  | JVal.obj fields => fields.map Prod.snd
  | JVal.str s => s.data.map fun c => JVal.str (String.singleton c)
  | _ => []

/-- The call `xs.concat(v)` on an array with elements `xs`: an array argument is spliced,
any other value is appended. -/
def concatValue (xs : List JVal) (v : JVal) : List JVal :=
  match v with
  | JVal.arr elems _ => xs ++ elems
  | v => xs ++ [v]

/-- The call `v.split(c)` for a one-character separator: throws unless `v` is a string. -/
def splitValue (v : JVal) (c : Char) : Option (List JVal) :=
  match v with
  | JVal.str s => some ((split s c).map JVal.str)
  | _ => none

/-- The text that lodash makes of the first argument of `_.startsWith`: empty for `undefined`
and `null`. -/
def lodashText (objectText : JVal → String) (v : JVal) : String :=
  match v with
  | JVal.undefined => ""
  | JVal.null => ""
  | v => toText objectText v

/-- The call `_.startsWith(v, prefix)`. -/
def lodashStartsWith (objectText : JVal → String) (v : JVal) (pre : String) : Bool :=
  pre.data.isPrefixOf (lodashText objectText v).data

/-- The call `v.startsWith(prefix)`: throws unless `v` is a string. -/
def startsWith? (v : JVal) (pre : String) : Option Bool :=
  match v with
  | JVal.str s => some (pre.data.isPrefixOf s.data)
  | _ => none

/-- The expression `url ? _.last(url.split('/')) : null` of `extractNetworkName`,
`extractSubnetName` and `populateAutoHealingPolicy`. -/
def lastSegment (url : JVal) : Option JVal :=
  if url.truthy then
    match url with
    | JVal.str s => some (ofStr? (split s '/').getLast?)
    | _ => none
  else some JVal.null

/-- The callback of the `reduce` in `extractLoadBalancers` (source lines 53-58). -/
def addLoadBalancers (asg : JVal) (loadBalancers : List JVal) (property : String) :
    Option (List JVal) := do
  let names ← asg.get? property
  pure (if names.truthy then concatValue loadBalancers names else loadBalancers)

/-- The function `extractLoadBalancers` (source lines 51-59). -/
def extractLoadBalancers (asg : JVal) : Option JVal :=
  (forEachOpt (addLoadBalancers asg) []
    ["load-balancer-names", "global-load-balancer-names"]).map fun names => arr names []

/-- The callback of the `reduce` in `extractLoadBalancersFromMetadata`
(source lines 63-68). -/
def addLoadBalancersFromMetadata (metadata : JVal) (loadBalancers : List JVal)
    (property : String) : Option (List JVal) := do
  let names ← metadata.get? property
  if names.truthy then
    let pieces ← splitValue names ','
    pure (loadBalancers ++ pieces)
  else pure loadBalancers

/-- The function `extractLoadBalancersFromMetadata` (source lines 61-69). -/
def extractLoadBalancersFromMetadata (metadata : JVal) : Option JVal :=
  (forEachOpt (addLoadBalancersFromMetadata metadata) []
    ["load-balancer-names", "global-load-balancer-names"]).map fun names => arr names []

/-- The call `names.join(sep)` on an array of strings. -/
def joinWith (sep : String) : List String → String
  | [] => ""
  | [name] => name
  | name :: next :: rest => name ++ sep ++ joinWith sep (next :: rest)

/-- The callback of the innermost `forEach` of `determineInstanceCategoryFromInstanceType`
(source lines 27-31): the state of `command` afterwards. -/
def visitInstanceType (category command instanceType : JVal) : Option JVal := do
  let name ← instanceType.get? "name"
  let wanted ← command.get? "instanceType"
  if strictEq name wanted then
    let viewState ← (command.prop "viewState").set? "instanceProfile" (category.prop "type")
    pure (command.put "viewState" viewState)
  else pure command

/-- The callback of `category.families.forEach` (source lines 26-32). -/
def visitFamily (category command family : JVal) : Option JVal := do
  let instanceTypes ← family.get? "instanceTypes"
  let instanceTypes ← elems? instanceTypes
  forEachOpt (visitInstanceType category) command instanceTypes

/-- The callback of `categories.forEach` (source lines 25-33). -/
def visitCategory (command category : JVal) : Option JVal := do
  let families ← category.get? "families"
  let families ← elems? families
  forEachOpt (visitFamily category) command families

/-- The function `determineInstanceCategoryFromInstanceType` (source lines 23-35), given the
categories that `instanceTypeService.getCategories('gce')` resolves to: the state of
`command` once the returned promise has resolved. -/
def determineInstanceCategoryFromInstanceType (categories command : JVal) : Option JVal := do
  let categories ← elems? categories
  forEachOpt visitCategory command categories

/-- The predicate `disk.initializeParams.diskType === 'local-ssd'` of
`populateDisksFromExisting`. -/
def isLocalSSDExisting (disk : JVal) : Option Bool := do
  let initializeParams ← disk.get? "initializeParams"
  let diskType ← initializeParams.get? "diskType"
  pure (diskType.isStr "local-ssd")

/-- The predicate `disk.initializeParams.diskType.startsWith('pd-')` of
`populateDisksFromExisting`. -/
def isPersistentExisting (disk : JVal) : Option Bool := do
  let initializeParams ← disk.get? "initializeParams"
  let diskType ← initializeParams.get? "diskType"
  startsWith? diskType "pd-"

/-- The predicate `disk.type === 'local-ssd'` of `populateDisksFromPipeline`. -/
def isLocalSSDPipeline (disk : JVal) : Option Bool := do
  let diskType ← disk.get? "type"
  pure (diskType.isStr "local-ssd")

/-- The predicate `disk.type.startsWith('pd-')` of `populateDisksFromPipeline`. -/
def isPersistentPipeline (disk : JVal) : Option Bool := do
  let diskType ← disk.get? "type"
  startsWith? diskType "pd-"

/-- The function `calculateOverriddenStorageDescription` (source lines 131-141): the state of
`command` afterwards. -/
def calculateOverriddenStorageDescription (objectText : JVal → String)
    (instanceTypeDetails command : JVal) : Option JVal := do
  let storage ← instanceTypeDetails.get? "storage"
  let localSSDSupported ← storage.get? "localSSDSupported"
  if localSSDSupported.truthy then
    if !strictEq (command.prop "localSSDCount") (storage.prop "count") then
      let viewState ← (command.prop "viewState").set? "overriddenStorageDescription"
        (str (toText objectText (command.prop "localSSDCount") ++ "×375"))
      pure (command.put "viewState" viewState)
    else pure command
  else
    if !strictEq (command.prop "persistentDiskSizeGb") (storage.prop "size") then
      let viewState ← (command.prop "viewState").set? "overriddenStorageDescription"
        (str ("1×" ++ toText objectText (command.prop "persistentDiskSizeGb")))
      pure (command.put "viewState" viewState)
    else pure command

/-- The `then` callback of `populateDisksFromExisting` and `populateDisksFromPipeline`
(source lines 88-92 and 118-122), on the details that the instance-type service resolves
to. -/
def storeInstanceTypeDetails (services : GceServices) (command : JVal) : Option JVal := do
  let instanceTypeDetails := services.instanceTypeDetails (command.prop "selectedProvider")
    (if lodashStartsWith services.objectText (command.prop "instanceType") "custom"
      then str "buildCustom" else command.prop "instanceType")
  let viewState ← (command.prop "viewState").set? "instanceTypeDetails" instanceTypeDetails
  calculateOverriddenStorageDescription services.objectText instanceTypeDetails
    (command.put "viewState" viewState)

/-- The part of `populateDisksFromExisting` and `populateDisksFromPipeline` after the search
for the persistent disk (source lines 82-98 and 112-128), given the type and the size of the
disk that was found. -/
def storePersistentDisk (services : GceServices) (command : JVal)
    (found : Option (JVal × JVal)) : Option JVal :=
  match found with
  | some (diskType, diskSizeGb) =>
    storeInstanceTypeDetails services
      ((command.put "persistentDiskType" diskType).put "persistentDiskSizeGb" diskSizeGb)
  | none =>
    some ((command.put "persistentDiskType" (str "pd-ssd")).put "persistentDiskSizeGb" (num 10))

/-- The function `populateDisksFromExisting` (source lines 71-99): the state of `command` once
the returned promise has resolved. -/
def populateDisksFromExisting (services : GceServices) (disks command : JVal) :
    Option JVal := do
  let localSSDCount ← countWhere isLocalSSDExisting (collection disks)
  let command ← command.set? "localSSDCount" (num localSSDCount)
  let persistentDisk ← findOpt isPersistentExisting (collection disks)
  match persistentDisk with
  | some disk =>
    if disk.truthy then
      storePersistentDisk services command
        (some ((disk.prop "initializeParams").prop "diskType",
          (disk.prop "initializeParams").prop "diskSizeGb"))
    else storePersistentDisk services command none
  | none => storePersistentDisk services command none

/-- The function `populateDisksFromPipeline` (source lines 101-129): the state of `command`
once the returned promise has resolved. -/
def populateDisksFromPipeline (services : GceServices) (disks command : JVal) :
    Option JVal := do
  let localSSDCount ← countWhere isLocalSSDPipeline (collection disks)
  let command ← command.set? "localSSDCount" (num localSSDCount)
  let persistentDisk ← findOpt isPersistentPipeline (collection disks)
  match persistentDisk with
  | some disk =>
    if disk.truthy then
      storePersistentDisk services command (some (disk.prop "type", disk.prop "sizeGb"))
    else storePersistentDisk services command none
  | none => storePersistentDisk services command none

/-- The value is a number (`typeof v === 'number'`). -/
def isNumber (v : JVal) : Bool :=
  match v with
  | JVal.num _ => true
  | _ => false

/-- The block `if (maxUnavailable) { ... }` of `populateAutoHealingPolicy`
(source lines 168-172). -/
def storeMaxUnavailable (maxUnavailable command : JVal) : Option JVal :=
  if maxUnavailable.truthy then do
    let policy ← command.get? "autoHealingPolicy"
    let policy ← policy.set? "maxUnavailable" maxUnavailable
    let viewState ← (command.prop "viewState").set? "maxUnavailableMetric"
      (if isNumber (maxUnavailable.prop "percent") then str "percent" else str "fixed")
    pure ((command.put "autoHealingPolicy" policy).put "viewState" viewState)
  else some command

/-- The function `populateAutoHealingPolicy` (source lines 155-174): the state of `command`
afterwards. -/
def populateAutoHealingPolicy (serverGroup command : JVal) : Option JVal := do
  let autoHealingPolicy ← serverGroup.get? "autoHealingPolicy"
  if autoHealingPolicy.truthy then
    let healthCheck ← lastSegment (autoHealingPolicy.prop "healthCheck")
    if healthCheck.truthy then
      let command ← command.set? "autoHealingPolicy" (obj [("healthCheck", healthCheck),
        ("initialDelaySec", autoHealingPolicy.prop "initialDelaySec")])
      storeMaxUnavailable (autoHealingPolicy.prop "maxUnavailable") command
    else storeMaxUnavailable (autoHealingPolicy.prop "maxUnavailable") command
  else pure command

/-- The disk type of a disk of an existing server group. -/
def existingDiskType (disk : JVal) : JVal := (disk.prop "initializeParams").prop "diskType"

/-- The size of a disk of an existing server group. -/
def existingDiskSize (disk : JVal) : JVal := (disk.prop "initializeParams").prop "diskSizeGb"

/-- The value is a string that starts with `pre`. -/
def isTextWithPrefix (pre : String) (v : JVal) : Bool :=
  match v with
  | JVal.str s => pre.data.isPrefixOf s.data
  | _ => false

/-- The value is a string. -/
def isText (v : JVal) : Bool :=
  match v with
  | JVal.str _ => true
  | _ => false

/-- The instance-type service resolves to details that have a `storage` object. -/
def HasStorage (services : GceServices) : Prop :=
  ∀ provider instanceType,
    ((services.instanceTypeDetails provider instanceType).prop "storage").isObject = true

/-- The category has a family that lists an instance type whose name equals `wanted`. -/
def categoryLists (wanted category : JVal) : Bool :=
  (elemsOf (category.prop "families")).any fun family =>
    (elemsOf (family.prop "instanceTypes")).any fun instanceType =>
      strictEq (instanceType.prop "name") wanted

/-- The category has the shape that the instance-type service returns: a list of families
that each have a list of instance types, which are objects. -/
def wellFormedCategory (category : JVal) : Bool :=
  match category.prop "families" with
  | JVal.arr families _ =>
    families.all fun family =>
      match family.prop "instanceTypes" with
      | JVal.arr instanceTypes _ => instanceTypes.all fun instanceType => instanceType.isObject
      | _ => false
  | _ => false

/-- The command with `viewState.instanceProfile` set to `profile`. -/
def withInstanceProfile (command profile : JVal) : JVal :=
  command.put "viewState" ((command.prop "viewState").put "instanceProfile" profile)

/-- A value of the heap model: a tree value (a primitive, or data that is only read), or a
reference to an object of the heap. -/
inductive HVal where
  | val (v : JVal) : HVal
  | ref (address : Nat) : HVal
  deriving Inhabited

/-- An object of the heap: an array has elements, and arrays and plain objects alike have
named properties, in insertion order. -/
structure HObj where
  isArray : Bool
  elems : List HVal
  props : List (String × HVal)
  deriving Inhabited

/-- The heap: the object at address `a` is its entry number `a`. -/
abbrev Heap := List HObj

namespace HVal

/-- JavaScript truthiness: every object is truthy. -/
def truthy : HVal → Bool
  | val v => v.truthy
  | ref _ => true

/-- The value as a service or a string operation sees it: of a heap object only that it is
an object. -/
def shallow : HVal → JVal
  | val v => v
  | ref _ => JVal.obj []

/-- Strict equality `a === b`: two references are equal when they are the same object. -/
def strictEq : HVal → HVal → Bool
  | val a, val b => Deck.strictEq a b
  | ref a, ref b => a == b
  | _, _ => false

/-- Result of `a || b`. -/
def or (a b : HVal) : HVal := if a.truthy then a else b

/-- The test `angular.isObject(v)`. -/
def isObject : HVal → Bool
  | val v => v.isObject
  | ref _ => true

end HVal

namespace HObj

/-- Value stored under `k` in a property list, `undefined` when there is none. -/
def lookup (k : String) : List (String × HVal) → HVal
  | [] => HVal.val JVal.undefined
  | (k', v) :: rest => if k' = k then v else lookup k rest

/-- Property list after `o[k] = v`. -/
def assign (k : String) (v : HVal) : List (String × HVal) → List (String × HVal)
  | [] => [(k, v)]
  | (k', v') :: rest => if k' = k then (k, v) :: rest else (k', v') :: assign k v rest

/-- Property read `o.k` for a named property. -/
def get (o : HObj) (k : String) : HVal := lookup k o.props

/-- The object after `o.k = v`. -/
def put (o : HObj) (k : String) (v : HVal) : HObj :=
  { o with props := assign k v o.props }

/-- The array after `o.push(v)`. -/
def push (o : HObj) (v : HVal) : HObj :=
  { o with elems := o.elems ++ [v] }

/-- The object literal `{k1: v1, ...}`. -/
def literal (props : List (String × HVal)) : HObj :=
  { isArray := false, elems := [], props := props }

/-- The array literal `[v1, ...]`. -/
def array (elems : List HVal) : HObj :=
  { isArray := true, elems := elems, props := [] }

end HObj

namespace Heap

/-- Property read `v.k`: throws on `undefined` and `null`. -/
def read (h : Heap) (v : HVal) (k : String) : Option HVal :=
  match v with
  | HVal.val x => (x.get? k).map HVal.val
  | HVal.ref a => (h[a]?).map fun o => o.get k

/-- The heap after the strict-mode assignment `v.k = x`: throws unless `v` is an object of
the heap. Tree values are data that the function only reads. -/
def write (h : Heap) (v : HVal) (k : String) (x : HVal) : Option Heap :=
  match v with
  | HVal.val _ => none
  | HVal.ref a => (h[a]?).map fun o => h.set a (o.put k x)

/-- The heap after `v.push(x)`: throws unless `v` is an array of the heap. -/
def push (h : Heap) (v x : HVal) : Option Heap :=
  match v with
  | HVal.val _ => none
  | HVal.ref a =>
    match h[a]? with
    | some o => if o.isArray then some (h.set a (o.push x)) else none
    | none => none

/-- A new object: the heap with the object, and the reference to it. -/
def alloc (h : Heap) (o : HObj) : Heap × HVal := (h ++ [o], HVal.ref h.length)

/-- The elements that lodash iterates over in a collection. -/
def collection (h : Heap) (v : HVal) : List HVal :=
  match v with
  | HVal.val x => (Deck.collection x).map HVal.val
  | HVal.ref a =>
    match h[a]? with
    | some o => if o.isArray then o.elems else o.props.map Prod.snd
    | none => []

/-- The test `angular.isArray(v)`. -/
def isArray (h : Heap) (v : HVal) : Bool :=
  match v with
  | HVal.val (JVal.arr _ _) => true
  | HVal.val _ => false
  | HVal.ref a =>
    match h[a]? with
    | some o => o.isArray
    | none => false

end Heap

namespace Heap

/-- The number of elements on which the predicate holds (`_.size(_.filter(xs, p))`), for a
predicate that may throw. -/
def countWhere (p : HVal → Option Bool) : List HVal → Option Nat
  | [] => some 0
  | x :: xs =>
    match p x with
    | none => none
    | some b =>
      match countWhere p xs with
      | none => none
      | some n => some (if b then n + 1 else n)

/-- The call `_.find(xs, p)` for a predicate that may throw. -/
def findOpt (p : HVal → Option Bool) : List HVal → Option (Option HVal)
  | [] => some none
  | x :: xs =>
    match p x with
    | none => none
    | some true => some (some x)
    | some false => findOpt p xs

/-- The predicate `disk.type === 'local-ssd'` of `populateDisksFromPipeline`. -/
def isLocalSSDPipeline (h : Heap) (disk : HVal) : Option Bool := do
  let diskType ← read h disk "type"
  pure (diskType.shallow.isStr "local-ssd")

/-- The predicate `disk.type.startsWith('pd-')` of `populateDisksFromPipeline`. -/
def isPersistentPipeline (h : Heap) (disk : HVal) : Option Bool := do
  let diskType ← read h disk "type"
  startsWith? diskType.shallow "pd-"

/-- The assignment `command.viewState.k = v`. -/
def writeViewState (h : Heap) (command : HVal) (k : String) (v : HVal) : Option Heap := do
  let viewState ← read h command "viewState"
  write h viewState k v

/-- The function `calculateOverriddenStorageDescription` (source lines 131-141). -/
def calculateOverriddenStorageDescription (objectText : JVal → String)
    (instanceTypeDetails : JVal) (h : Heap) (command : HVal) : Option Heap := do
  let storage ← instanceTypeDetails.get? "storage"
  let localSSDSupported ← storage.get? "localSSDSupported"
  if localSSDSupported.truthy then
    let localSSDCount ← read h command "localSSDCount"
    if !localSSDCount.strictEq (HVal.val (storage.prop "count")) then
      writeViewState h command "overriddenStorageDescription"
        (HVal.val (JVal.str (toText objectText localSSDCount.shallow ++ "×375")))
    else pure h
  else
    let persistentDiskSizeGb ← read h command "persistentDiskSizeGb"
    if !persistentDiskSizeGb.strictEq (HVal.val (storage.prop "size")) then
      writeViewState h command "overriddenStorageDescription"
        (HVal.val (JVal.str ("1×" ++ toText objectText persistentDiskSizeGb.shallow)))
    else pure h

/-- The `then` callback of `populateDisksFromPipeline` (source lines 118-122), on the details
that the instance-type service resolves to. -/
def storeInstanceTypeDetails (services : GceServices) (h : Heap) (command : HVal) :
    Option Heap := do
  let selectedProvider ← read h command "selectedProvider"
  let instanceType ← read h command "instanceType"
  let instanceTypeDetails := services.instanceTypeDetails selectedProvider.shallow
    (if lodashStartsWith services.objectText instanceType.shallow "custom"
      then JVal.str "buildCustom" else instanceType.shallow)
  let h ← writeViewState h command "instanceTypeDetails" (HVal.val instanceTypeDetails)
  calculateOverriddenStorageDescription services.objectText instanceTypeDetails h command

/-- The part of `populateDisksFromPipeline` after the search for the persistent disk
(source lines 112-128). -/
def storePersistentDisk (services : GceServices) (h : Heap) (command : HVal)
    (persistentDisk : Option HVal) : Option Heap :=
  match persistentDisk with
  | some disk => do
    let diskType ← read h disk "type"
    let h ← write h command "persistentDiskType" diskType
    let sizeGb ← read h disk "sizeGb"
    let h ← write h command "persistentDiskSizeGb" sizeGb
    storeInstanceTypeDetails services h command
  | none => do
    let h ← write h command "persistentDiskType" (HVal.val (JVal.str "pd-ssd"))
    write h command "persistentDiskSizeGb" (HVal.val (JVal.num 10))

/-- The function `populateDisksFromPipeline` (source lines 101-129): the heap once the
returned promise has resolved. -/
def populateDisksFromPipeline (services : GceServices) (h : Heap) (disks command : HVal) :
    Option Heap := do
  let localSSDCount ← countWhere (isLocalSSDPipeline h) (collection h disks)
  let h ← write h command "localSSDCount" (HVal.val (JVal.num localSSDCount))
  let persistentDisk ← findOpt (isPersistentPipeline h) (collection h disks)
  match persistentDisk with
  | some disk =>
    if disk.truthy then storePersistentDisk services h command (some disk)
    else storePersistentDisk services h command none
  | none => storePersistentDisk services h command none

/-- The callback of the `reduce` in `extractLoadBalancersFromMetadata`
(source lines 63-68). -/
def addLoadBalancersFromMetadata (h : Heap) (metadata : HVal) (loadBalancers : List HVal)
    (property : String) : Option (List HVal) := do
  let names ← read h metadata property
  if names.truthy then
    let pieces ← splitValue names.shallow ','
    pure (loadBalancers ++ pieces.map HVal.val)
  else pure loadBalancers

/-- The function `extractLoadBalancersFromMetadata` (source lines 61-69): the elements of
the array that it returns. -/
def extractLoadBalancersFromMetadata (h : Heap) (metadata : HVal) : Option (List HVal) :=
  forEachOpt (addLoadBalancersFromMetadata h metadata) []
    ["load-balancer-names", "global-load-balancer-names"]

/-- The block `if (maxUnavailable) { ... }` of `populateAutoHealingPolicy`
(source lines 168-172). -/
def storeMaxUnavailable (h : Heap) (maxUnavailable command : HVal) : Option Heap :=
  if maxUnavailable.truthy then do
    let policy ← read h command "autoHealingPolicy"
    let h ← write h policy "maxUnavailable" maxUnavailable
    let percent ← read h maxUnavailable "percent"
    writeViewState h command "maxUnavailableMetric"
      (HVal.val (if isNumber percent.shallow then JVal.str "percent" else JVal.str "fixed"))
  else some h

/-- The block `if (autoHealingPolicyHealthCheck) { ... }` of `populateAutoHealingPolicy`
(source lines 161-166). -/
def storeAutoHealingPolicy (h : Heap) (autoHealingPolicy command : HVal)
    (healthCheck : JVal) : Option Heap :=
  if healthCheck.truthy then do
    let initialDelaySec ← read h autoHealingPolicy "initialDelaySec"
    let policy := alloc h (HObj.literal [("healthCheck", HVal.val healthCheck),
      ("initialDelaySec", initialDelaySec)])
    write policy.1 command "autoHealingPolicy" policy.2
  else some h

/-- The function `populateAutoHealingPolicy` (source lines 155-174). -/
def populateAutoHealingPolicy (h : Heap) (serverGroup command : HVal) : Option Heap := do
  let autoHealingPolicy ← read h serverGroup "autoHealingPolicy"
  if autoHealingPolicy.truthy then
    let healthCheckUrl ← read h autoHealingPolicy "healthCheck"
    let healthCheck ← lastSegment healthCheckUrl.shallow
    let h ← storeAutoHealingPolicy h autoHealingPolicy command healthCheck
    let maxUnavailable ← read h autoHealingPolicy "maxUnavailable"
    storeMaxUnavailable h maxUnavailable command
  else pure h

end Heap

namespace Heap

/-- The assignment `pipelineCluster.strategy = pipelineCluster.strategy || ''`
(source line 447). -/
def defaultStrategy (h : Heap) (pipelineCluster : HVal) : Option Heap := do
  let strategy ← read h pipelineCluster "strategy"
  write h pipelineCluster "strategy" (strategy.or (HVal.val (JVal.str "")))

end Heap

/-! ### Wording of the claim about the objects of the caller -/

namespace Heap

end Heap

/-! ### Sample inputs -/

/-- A sample of the built-in conversions: a string of decimal digits converts to the double
nearest to the integer it denotes (the empty string converts to 0); every other value is
treated as not a number. -/
def sampleBuiltins : Builtins where
  toNumber := fun v =>
    match v with
    | str s =>
      match parseDigits 0 s.data with
      | some n => num (nearestDouble n)
      | none => undefined
    | _ => undefined
  isNaN := fun v =>
    match v with
    | str s => (parseDigits 0 s.data).isNone
    | _ => true

/-- A listener description with an IAM server certificate. -/
def sampleListenerDescription : JVal :=
  obj [("listener", obj [
    ("protocol", str "HTTPS"), ("loadBalancerPort", num 443),
    ("instanceProtocol", str "HTTP"), ("instancePort", num 7001),
    ("sslcertificateId", str "arn:aws:iam::123456789012:server-certificate/my-cert")])]

/-- A listener description whose certificate has a path: the resource of the ARN is
`server-certificate/division_abc` and the name is `my-cert`. -/
def samplePathListenerDescription : JVal :=
  obj [("listener", obj [
    ("protocol", str "HTTPS"), ("loadBalancerPort", num 443),
    ("instanceProtocol", str "HTTP"), ("instancePort", num 7001),
    ("sslcertificateId",
      str "arn:aws:iam::123456789012:server-certificate/division_abc/my-cert")])]

/-- A listener description without certificate. -/
def samplePlainListenerDescription : JVal :=
  obj [("listener", obj [
    ("protocol", str "HTTP"), ("loadBalancerPort", num 80),
    ("instanceProtocol", str "HTTP"), ("instancePort", num 7001)])]

/-- A classic load balancer with the two listener descriptions above and no health check. -/
def samplePathCertificateLoadBalancer : JVal :=
  obj [("name", str "lb"), ("account", str "prod"),
    ("elb", obj [("listenerDescriptions",
      arr [samplePathListenerDescription, samplePlainListenerDescription] [])])]

/-- The health check of the sample load balancer. -/
def sampleHealthCheck (target : String) : JVal :=
  obj [("target", str target), ("timeout", num 5)]

/-- The `elb` part of the sample load balancer. -/
def sampleElb (target : String) : JVal :=
  obj [("listenerDescriptions", arr [sampleListenerDescription] []),
    ("healthCheck", sampleHealthCheck target)]

/-- A classic load balancer with one HTTPS listener and a health check on `target`. -/
def sampleClassicLoadBalancer (target : String) : JVal :=
  obj [("name", str "lb"), ("account", str "prod"), ("elb", sampleElb target)]

/-- An application load balancer listener with one ACM certificate. -/
def sampleHttpsListener : JVal :=
  obj [("protocol", str "HTTPS"), ("port", num 443),
    ("certificates", arr [obj [("certificateArn",
      str "arn:aws:acm:us-east-1:123456789012:certificate/abc-123")]] [])]

/-- An application load balancer with an HTTPS and an HTTP listener. -/
def sampleApplicationLoadBalancer : JVal :=
  obj [("name", str "alb"), ("account", str "prod"),
    ("elb", obj [("listeners",
      arr [sampleHttpsListener, obj [("protocol", str "HTTP"), ("port", num 80)]] [])])]

/-- An instance with the given health state. -/
def sampleInstance (id state : String) : JVal :=
  obj [("id", str id), ("health", obj [("state", str state), ("description", str "n/a")])]

/-- A server group with a healthy instance, an instance out of service, a draining instance,
an instance without health record and a detached instance. -/
def sampleServerGroup (name : String) (isDisabled : Bool) : JVal :=
  obj [("name", str name), ("isDisabled", bool isDisabled),
    ("instances", arr [sampleInstance "i-1" "healthy", sampleInstance "i-2" "OutOfService",
      sampleInstance "i-3" "draining", obj [("id", str "i-4")]] []),
    ("detachedInstances", arr [str "i-5"] [])]

/-- A load balancer with an active and a disabled server group. -/
def sampleLoadBalancer : JVal :=
  obj [("name", str "lb"), ("type", str "aws"), ("account", str "prod"),
    ("region", str "us-east-1"), ("vpcId", str "vpc-1"),
    ("serverGroups", arr [sampleServerGroup "app-v001" false, sampleServerGroup "app-v002" true]
      [])]

/-- The VPCs of the sample account. -/
def sampleVpcs : List JVal := [obj [("id", str "vpc-1"), ("name", str "main")]]

/-- A load balancer whose only server group is disabled and holds one detached instance. -/
def sampleDisabledLoadBalancer : JVal :=
  obj [("name", str "lb"), ("type", str "aws"), ("account", str "prod"),
    ("region", str "us-east-1"),
    ("serverGroups", arr [obj [("name", str "app-v003"), ("isDisabled", bool true),
      ("instances", arr [] []), ("detachedInstances", arr [str "i-9"] [])]] [])]

/-- An application load balancer: its instances are those of the server groups of its target
groups. -/
def sampleTargetGroupLoadBalancer : JVal :=
  obj [("name", str "alb"), ("type", str "aws"), ("account", str "prod"),
    ("region", str "us-east-1"),
    ("serverGroups", arr [sampleServerGroup "app-v001" false] []),
    ("targetGroups", arr [obj [("name", str "tg"), ("type", str "aws"), ("account", str "prod"),
      ("region", str "us-east-1"),
      ("serverGroups", arr [sampleServerGroup "app-v002" false,
        sampleServerGroup "app-v003" true] [])]] [])]

/-- A category of instance types with two families. -/
def sampleGeneralCategory : JVal :=
  obj [("type", str "general"), ("families", arr [
    obj [("type", str "n1-standard"), ("instanceTypes", arr [
      obj [("name", str "n1-standard-1")], obj [("name", str "n1-standard-2")]] [])],
    obj [("type", str "f1"), ("instanceTypes", arr [obj [("name", str "f1-micro")]] [])]] [])]

/-- A category of instance types with one family. -/
def sampleMemoryCategory : JVal :=
  obj [("type", str "memory"), ("families", arr [
    obj [("type", str "n1-highmem"), ("instanceTypes", arr [
      obj [("name", str "n1-highmem-2")]] [])]] [])]

/-- Sample services of the GCE command builder: two GCE accounts, two categories of instance
types, and instance-type details with one local SSD. -/
def sampleServices : GceServices where
  settings := obj [("defaults", obj [("account", str "my-gce"), ("region", str "us-central1"),
    ("zone", str "us-central1-f")])]
  hiddenMetadataKeys := arr [str "load-balancer-names", str "global-load-balancer-names",
    str "backend-service-names", str "load-balancing-policy"] []
  categories := arr [sampleGeneralCategory, sampleMemoryCategory] []
  categoryForInstanceType := fun _ => str "general"
  instanceTypeDetails := fun _ _ =>
    obj [("storage", obj [("localSSDSupported", bool true), ("count", num 1),
      ("size", num 375)])]
  gceAccounts := arr [obj [("name", str "my-gce")], obj [("name", str "gce-test")]] []
  parseServerGroupName := fun _ => obj [("stack", str "main"), ("freeFormDetails", str "")]
  parseInstanceTypeString := fun _ => obj []
  objectText := fun _ => "[object Object]"

/-- The disks of an instance template: a boot disk and two local SSDs. -/
def sampleExistingDisks : List JVal := [
  obj [("initializeParams", obj [("diskType", str "local-ssd"), ("diskSizeGb", num 375)])],
  obj [("initializeParams", obj [("diskType", str "pd-standard"), ("diskSizeGb", num 50)])],
  obj [("initializeParams", obj [("diskType", str "local-ssd"), ("diskSizeGb", num 375)])],
  obj [("initializeParams", obj [("diskType", str "pd-ssd"), ("diskSizeGb", num 20)])]]

/-- A heap that holds the sample pipeline cluster at address 0, with its availability zones,
tags, disks, metadata and auto-healing policy as objects of their own. -/
def samplePipelineHeap : Heap := [
  HObj.literal [
    ("account", HVal.val (JVal.str "other-account")),
    ("availabilityZones", HVal.ref 1),
    ("zone", HVal.val (JVal.str "us-east1-b")),
    ("instanceType", HVal.val (JVal.str "n1-standard-2")),
    ("tags", HVal.ref 3),
    ("disks", HVal.ref 4),
    ("instanceMetadata", HVal.ref 7),
    ("autoHealingPolicy", HVal.ref 8)],
  HObj.literal [("us-east1", HVal.ref 2)],
  HObj.array [HVal.val (JVal.str "us-east1-b")],
  HObj.array [HVal.val (JVal.str "web")],
  HObj.array [HVal.ref 5, HVal.ref 6],
  HObj.literal [("type", HVal.val (JVal.str "pd-standard")),
    ("sizeGb", HVal.val (JVal.num 50))],
  HObj.literal [("type", HVal.val (JVal.str "local-ssd")),
    ("sizeGb", HVal.val (JVal.num 375))],
  HObj.literal [("load-balancer-names", HVal.val (JVal.str "lb-a")),
    ("owner", HVal.val (JVal.str "team-a"))],
  HObj.literal [("maxUnavailable", HVal.ref 9)],
  HObj.literal [("fixed", HVal.val (JVal.num 1))]]

/-! # Theorems -/

/-! ## Strings -/

theorem takeWhile_ne_cons_self (c : Char) (xs : List Char) :
    (c :: xs).takeWhile (fun x => x != c) = [] := by
  simp [List.takeWhile_cons]

theorem takeWhile_ne_cons_of_ne (c x : Char) (xs : List Char) (h : x ≠ c) :
    (x :: xs).takeWhile (fun y => y != c) = x :: xs.takeWhile (fun y => y != c) := by
  simp [List.takeWhile_cons, h]

theorem mem_of_mem_cons_of_ne {c x : Char} {xs : List Char} (h : c ∈ x :: xs) (hx : x ≠ c) :
    c ∈ xs := by
  rcases List.mem_cons.1 h with h1 | h1
  · exact absurd h1.symm hx
  · exact h1

theorem indexOfChars_eq_of_mem (c : Char) (l : List Char) (h : c ∈ l) :
    indexOfChars c l = some (l.takeWhile (fun x => x != c)).length := by
  induction l with
  | nil => simp at h
  | cons x xs ih =>
    by_cases hx : x = c
    · subst hx
      simp [indexOfChars, takeWhile_ne_cons_self]
    · simp [indexOfChars, hx, ih (mem_of_mem_cons_of_ne h hx), takeWhile_ne_cons_of_ne _ _ _ hx]

theorem indexOfChars_eq_none (c : Char) (l : List Char) (h : c ∉ l) :
    indexOfChars c l = none := by
  induction l with
  | nil => rfl
  | cons x xs ih =>
    have hx : x ≠ c := fun e => h (by simp [e])
    have hc : c ∉ xs := fun e => h (by simp [e])
    simp [indexOfChars, hx, ih hc]

theorem takeWhile_length_of_not_mem (c : Char) (l : List Char) (h : c ∉ l) :
    (l.takeWhile (fun x => x != c)).length = l.length := by
  induction l with
  | nil => rfl
  | cons x xs ih =>
    have hx : x ≠ c := fun e => h (by simp [e])
    have hc : c ∉ xs := fun e => h (by simp [e])
    simp [takeWhile_ne_cons_of_ne _ _ _ hx, ih hc]

theorem takeWhile_length_le (p : Char → Bool) (l : List Char) :
    (l.takeWhile p).length ≤ l.length := by
  induction l with
  | nil => simp
  | cons x xs ih =>
    by_cases hx : p x <;> simp [List.takeWhile_cons, hx]
    omega

theorem take_takeWhile_length (p : Char → Bool) (l : List Char) :
    l.take (l.takeWhile p).length = l.takeWhile p := by
  induction l with
  | nil => rfl
  | cons x xs ih =>
    by_cases hx : p x <;> simp [List.takeWhile_cons, hx, ih]

theorem drop_takeWhile_length (p : Char → Bool) (l : List Char) :
    l.drop (l.takeWhile p).length = l.dropWhile p := by
  induction l with
  | nil => rfl
  | cons x xs ih =>
    by_cases hx : p x <;> simp [List.takeWhile_cons, List.dropWhile_cons, hx, ih]

theorem takeWhile_length_lt (c d : Char) (hcd : c ≠ d) (l : List Char) (hc : c ∈ l)
    (hd : d ∉ l.takeWhile (fun x => x != c)) :
    (l.takeWhile (fun x => x != c)).length + 1 ≤ (l.takeWhile (fun x => x != d)).length := by
  induction l with
  | nil => simp at hc
  | cons x xs ih =>
    by_cases hx : x = c
    · subst hx
      simp [takeWhile_ne_cons_self, takeWhile_ne_cons_of_ne _ _ _ hcd]
    · rw [takeWhile_ne_cons_of_ne _ _ _ hx] at hd
      have hxd : x ≠ d := fun e => hd (by simp [e])
      have hd' : d ∉ xs.takeWhile (fun x => x != c) := fun e => hd (by simp [e])
      have := ih (mem_of_mem_cons_of_ne hc hx) hd'
      simp only [takeWhile_ne_cons_of_ne _ _ _ hx, takeWhile_ne_cons_of_ne _ _ _ hxd,
        List.length_cons]
      omega

theorem substring_of_le (s : String) (a b : Nat) (hab : a ≤ b) (hb : b ≤ s.data.length) :
    substring s (a : Int) (b : Int) = ⟨(s.data.drop a).take (b - a)⟩ := by
  simp only [substring, clampIndex, Int.toNat_ofNat]
  have h1 : min a s.data.length = a := by omega
  have h2 : min b s.data.length = b := by omega
  rw [h1, h2]
  have h3 : min a b = a := by omega
  have h4 : max a b = b := by omega
  rw [h3, h4]

theorem splitHealthCheckTarget_eq (t : String) (hc : ':' ∈ t.data)
    (hs : '/' ∉ (textBeforeFirst ':' t).data) :
    splitHealthCheckTarget t =
      some (textBeforeFirst ':' t, textBetweenFirst ':' '/' t, textFromFirst '/' t) := by
  have hi : indexOf t ':' = ((t.data.takeWhile (fun x => x != ':')).length : Int) := by
    simp [indexOf, indexOfChars_eq_of_mem _ _ hc]
  have hj : (if indexOf t '/' = -1 then (t.data.length : Int) else indexOf t '/')
      = ((t.data.takeWhile (fun x => x != '/')).length : Int) := by
    by_cases hm : '/' ∈ t.data
    · simp [indexOf, indexOfChars_eq_of_mem _ _ hm]
    · simp [indexOf, indexOfChars_eq_none _ _ hm, takeWhile_length_of_not_mem _ _ hm]
  have hlt := takeWhile_length_lt ':' '/' (by decide) t.data hc hs
  have hle1 := takeWhile_length_le (fun x => x != ':') t.data
  have hle2 := takeWhile_length_le (fun x => x != '/') t.data
  unfold splitHealthCheckTarget
  simp only [hj]
  simp only [hi]
  have hne : ((List.takeWhile (fun x => x != ':') t.data).length : Int) ≠ -1 := by omega
  rw [if_pos hne]
  have e0 : (0 : Int) = ((0 : Nat) : Int) := rfl
  have e1 : ((List.takeWhile (fun x => x != ':') t.data).length : Int) + 1
      = (((List.takeWhile (fun x => x != ':') t.data).length + 1 : Nat) : Int) := by push_cast; rfl
  have p1 : substring t ((0 : Nat) : Int) ((List.takeWhile (fun x => x != ':') t.data).length : Int)
      = textBeforeFirst ':' t := by
    rw [substring_of_le _ _ _ (Nat.zero_le _) hle1]
    simp [textBeforeFirst, take_takeWhile_length]
  have p2 : substring t (((List.takeWhile (fun x => x != ':') t.data).length + 1 : Nat) : Int)
      ((List.takeWhile (fun x => x != '/') t.data).length : Int) = textBetweenFirst ':' '/' t := by
    rw [substring_of_le _ _ _ hlt hle2]
    simp only [textBetweenFirst]
    rw [← take_takeWhile_length (fun x => x != '/') t.data, List.drop_take,
      take_takeWhile_length]
  have p3 : substring t ((List.takeWhile (fun x => x != '/') t.data).length : Int)
      (t.data.length : Int) = textFromFirst '/' t := by
    rw [substring_of_le _ _ _ hle2 (Nat.le_refl _)]
    simp only [textFromFirst, drop_takeWhile_length]
    rw [List.take_of_length_le]
    rw [← drop_takeWhile_length, List.length_drop]
  rw [substringFrom, e0, e1, p1, p2, p3]

theorem splitChars_ne_nil (p : Char → Bool) (l : List Char) : splitChars p l ≠ [] := by
  induction l with
  | nil => simp [splitChars]
  | cons c cs ih =>
    unfold splitChars
    split
    · simp
    · split <;> simp

theorem splitChars_of_forall_not (p : Char → Bool) (l : List Char)
    (h : ∀ x ∈ l, p x = false) : splitChars p l = [l] := by
  induction l with
  | nil => rfl
  | cons c cs ih =>
    have hc : p c = false := h c (by simp)
    have := ih (fun x hx => h x (by simp [hx]))
    simp [splitChars, hc, this]

theorem splitChars_append_sep (p : Char → Bool) (a rest : List Char) (c : Char)
    (ha : ∀ x ∈ a, p x = false) (hc : p c = true) :
    splitChars p (a ++ c :: rest) = a :: splitChars p rest := by
  induction a with
  | nil => simp [splitChars, hc]
  | cons x xs ih =>
    have hx : p x = false := ha x (by simp)
    have := ih (fun y hy => ha y (by simp [hy]))
    simp [splitChars, hx, this]

theorem split_append_sep (a rest : String) (c : Char) (ha : c ∉ a.data) :
    split (a ++ String.singleton c ++ rest) c = a :: split rest c := by
  simp only [split, String.data_append, String.singleton, List.append_assoc]
  show List.map String.mk (splitChars _ (a.data ++ c :: rest.data)) = _
  rw [splitChars_append_sep]
  · simp
  · intro x hx
    simp
    intro e; exact ha (e ▸ hx)
  · simp

theorem split_of_not_mem (a : String) (c : Char) (ha : c ∉ a.data) :
    split a c = [a] := by
  simp only [split]
  rw [splitChars_of_forall_not]
  · simp
  · intro x hx
    simp
    intro e; exact ha (e ▸ hx)

theorem certificateArn_split_slash (partition service region account resource name : String)
    (h1 : '/' ∉ partition.data) (h2 : '/' ∉ service.data) (h3 : '/' ∉ region.data)
    (h4 : '/' ∉ account.data) (h5 : '/' ∉ resource.data) (h6 : '/' ∉ name.data) :
    split (certificateArn partition service region account resource name) '/' =
      ["arn:" ++ partition ++ ":" ++ service ++ ":" ++ region ++ ":" ++ account ++ ":"
        ++ resource, name] := by
  have e : certificateArn partition service region account resource name
      = ("arn:" ++ partition ++ ":" ++ service ++ ":" ++ region ++ ":" ++ account ++ ":"
        ++ resource) ++ String.singleton '/' ++ name := rfl
  rw [e, split_append_sep, split_of_not_mem _ _ h6]
  simp only [String.data_append, List.mem_append, not_or]
  refine ⟨⟨⟨⟨⟨⟨⟨⟨⟨?_, h1⟩, ?_⟩, h2⟩, ?_⟩, h3⟩, ?_⟩, h4⟩, ?_⟩, h5⟩ <;> decide

theorem certificateArn_prefix_split_colon (partition service region account resource : String)
    (h1 : ':' ∉ partition.data) (h2 : ':' ∉ service.data) :
    (split ("arn:" ++ partition ++ ":" ++ service ++ ":" ++ region ++ ":" ++ account ++ ":"
      ++ resource) ':')[2]? = some service := by
  have e : "arn:" ++ partition ++ ":" ++ service ++ ":" ++ region ++ ":" ++ account ++ ":"
        ++ resource
      = "arn" ++ String.singleton ':' ++ (partition ++ String.singleton ':' ++
          (service ++ String.singleton ':' ++ (region ++ ":" ++ account ++ ":" ++ resource))) := by
    apply String.ext
    simp [String.singleton]
  rw [e, split_append_sep _ _ _ (by decide), split_append_sep _ _ _ h1,
    split_append_sep _ _ _ h2]
  simp

theorem certificateArn_ne_empty (partition service region account resource name : String) :
    certificateArn partition service region account resource name ≠ "" := by
  intro h
  have := congrArg String.data h
  simp [certificateArn] at this

theorem string_eq_of_head? (more : String) (c : Char) (h : more.data.head? = some c) :
    more = String.singleton c ++ ⟨more.data.tail⟩ := by
  apply String.ext
  cases hd : more.data with
  | nil => rw [hd] at h; simp at h
  | cons x xs =>
    rw [hd] at h
    simp at h
    simp [String.singleton, h]

theorem split_head (a more : String) (c : Char) (ha : c ∉ a.data)
    (hm : more = "" ∨ more.data.head? = some c) :
    ∃ tail, split (a ++ more) c = a :: tail := by
  rcases hm with hm | hm
  · subst hm
    exact ⟨[], by rw [String.append_empty]; exact split_of_not_mem a c ha⟩
  · rw [string_eq_of_head? more c hm, ← String.append_assoc, split_append_sep _ _ _ ha]
    exact ⟨_, rfl⟩

theorem split_six_fields (f1 f2 f3 f4 f5 f6 more : String)
    (h1 : ':' ∉ f1.data) (h2 : ':' ∉ f2.data) (h3 : ':' ∉ f3.data) (h4 : ':' ∉ f4.data)
    (h5 : ':' ∉ f5.data) (h6 : ':' ∉ f6.data) (hm : more = "" ∨ more.data.head? = some ':') :
    ∃ tail, split (f1 ++ ":" ++ f2 ++ ":" ++ f3 ++ ":" ++ f4 ++ ":" ++ f5 ++ ":" ++ f6 ++ more) ':'
      = f1 :: f2 :: f3 :: f4 :: f5 :: f6 :: tail := by
  have e : f1 ++ ":" ++ f2 ++ ":" ++ f3 ++ ":" ++ f4 ++ ":" ++ f5 ++ ":" ++ f6 ++ more
      = f1 ++ String.singleton ':' ++ (f2 ++ String.singleton ':' ++ (f3 ++ String.singleton ':'
        ++ (f4 ++ String.singleton ':' ++ (f5 ++ String.singleton ':' ++ (f6 ++ more))))) := by
    apply String.ext
    simp [String.singleton]
  obtain ⟨tail, ht⟩ := split_head f6 more ':' h6 hm
  rw [e, split_append_sep _ _ _ h1, split_append_sep _ _ _ h2, split_append_sep _ _ _ h3,
    split_append_sep _ _ _ h4, split_append_sep _ _ _ h5, ht]
  exact ⟨tail, rfl⟩

theorem split_second_piece (before name rest : String) (hb : '/' ∉ before.data)
    (hn : '/' ∉ name.data) (hr : rest = "" ∨ rest.data.head? = some '/') :
    (split (before ++ "/" ++ name ++ rest) '/')[1]? = some name := by
  have e : before ++ "/" ++ name ++ rest = before ++ String.singleton '/' ++ (name ++ rest) := by
    apply String.ext
    simp [String.singleton]
  obtain ⟨tail, ht⟩ := split_head name rest '/' hn hr
  rw [e, split_append_sep _ _ _ hb, ht]
  simp

theorem lookup_assign_self (k : String) (v : JVal) (fs : Fields) :
    lookup k (assign k v fs) = v := by
  induction fs with
  | nil => simp [assign, lookup]
  | cons p rest ih =>
    obtain ⟨k', v'⟩ := p
    by_cases h : k' = k <;> simp [assign, lookup, h, ih]

theorem lookup_assign_ne (k k' : String) (v : JVal) (fs : Fields) (hne : k ≠ k') :
    lookup k (assign k' v fs) = lookup k fs := by
  induction fs with
  | nil => simp [assign, lookup, Ne.symm hne]
  | cons p rest ih =>
    obtain ⟨k'', v'⟩ := p
    by_cases h : k'' = k'
    · subst h
      simp [assign, lookup, Ne.symm hne]
    · by_cases h2 : k'' = k
      · subst h2
        simp [assign, lookup, h]
      · simp [assign, lookup, h, h2, ih]

theorem mapOpt_forall₂ {α β : Type} (f : α → Option β) (P : α → β → Prop) (xs : List α)
    (h : ∀ x ∈ xs, ∃ y, f x = some y ∧ P x y) :
    ∃ ys, mapOpt f xs = some ys ∧ List.Forall₂ P xs ys := by
  induction xs with
  | nil => exact ⟨[], rfl, List.Forall₂.nil⟩
  | cons x xs ih =>
    obtain ⟨y, hy, hp⟩ := h x (by simp)
    obtain ⟨ys, hys, hps⟩ := ih (fun z hz => h z (by simp [hz]))
    exact ⟨y :: ys, by simp [mapOpt, hy, hys], List.Forall₂.cons hp hps⟩


/-! ## Values -/

theorem prop_put_self (o : JVal) (k : String) (v : JVal) (h : o.isObject = true) :
    (o.put k v).prop k = v := by
  cases o <;> simp_all [JVal.isObject, JVal.put, JVal.prop, JVal.props, lookup_assign_self]

theorem prop_put_ne (o : JVal) (k k' : String) (v : JVal) (hne : k ≠ k') :
    (o.put k' v).prop k = o.prop k := by
  cases o <;> simp [JVal.put, JVal.prop, JVal.props, lookup_assign_ne _ _ _ _ hne]

theorem isObject_put (o : JVal) (k : String) (v : JVal) :
    (o.put k v).isObject = o.isObject := by
  cases o <;> rfl

theorem get?_of_isObject {o : JVal} (h : o.isObject = true) (k : String) :
    o.get? k = some (o.prop k) := by
  cases o <;> simp_all [JVal.isObject, JVal.get?]

theorem set?_of_isObject {o : JVal} (h : o.isObject = true) (k : String) (v : JVal) :
    o.set? k v = some (o.put k v) := by
  cases o <;> simp_all [JVal.isObject, JVal.set?]

theorem isObject_of_set? {o o' : JVal} {k : String} {v : JVal} (h : o.set? k v = some o') :
    o.isObject = true ∧ o' = o.put k v := by
  cases o <;> simp_all [JVal.isObject, JVal.set?]

theorem isObject_of_prop_ne {o : JVal} {k : String} (h : o.prop k ≠ undefined) :
    o.isObject = true := by
  cases o <;> simp_all [JVal.isObject, JVal.prop, JVal.props, JVal.lookup]

theorem truthy_of_isObject {o : JVal} (h : o.isObject = true) : o.truthy = true := by
  cases o <;> simp_all [JVal.isObject, JVal.truthy]

theorem prop_of_get? {o v : JVal} {k : String} (h : o.get? k = some v) : o.prop k = v := by
  cases o <;> simp_all [get?]

theorem get?_of_get? {o v : JVal} {k : String} (h : o.get? k = some v) (k' : String) :
    o.get? k' = some (o.prop k') := by
  cases o <;> simp_all [get?]

theorem get?_of_truthy {o : JVal} (h : o.truthy = true) (k : String) :
    o.get? k = some (o.prop k) := by
  cases o <;> simp_all [get?, truthy]

theorem prop_obj (fields : Fields) (k : String) : (obj fields).prop k = lookup k fields := rfl

theorem get?_obj (fields : Fields) (k : String) :
    (obj fields).get? k = some (lookup k fields) := rfl

theorem mapOpt_length {α β : Type} (f : α → Option β) (xs : List α) (ys : List β)
    (h : mapOpt f xs = some ys) : ys.length = xs.length := by
  induction xs generalizing ys with
  | nil => simp [mapOpt] at h; subst h; rfl
  | cons x xs ih =>
    unfold mapOpt at h
    cases hx : f x with
    | none => simp [hx] at h
    | some y =>
      cases hxs : mapOpt f xs with
      | none => simp [hx, hxs] at h
      | some ys' =>
        simp [hx, hxs] at h
        rw [← h]
        simp [ih ys' hxs]

/-! ## Conversion of a classic load balancer -/

theorem convertClassic_unfold (js : Builtins) (loadBalancer elb : JVal)
    (hlb : loadBalancer.get? "elb" = some elb) (hT : elb.truthy = true) :
    convertClassicLoadBalancerForEditing js loadBalancer =
      (convertClassicListeners elb
        (withSecurityGroupsAndVpc elb (classicToEdit loadBalancer))).bind fun r =>
        (convertClassicHealthCheck js r.2 r.1).bind fun te =>
          some (obj te, if (elb.prop "listenerDescriptions").truthy
            then loadBalancer.put "elb" r.2 else loadBalancer) := by
  unfold convertClassicLoadBalancerForEditing
  simp only [hlb, Option.bind_eq_bind, Option.some_bind, hT, if_true, Option.pure_def]

theorem convertClassic_of_steps (js : Builtins) (loadBalancer elb elb1 : JVal)
    (te1 te2 : Fields) (hlb : loadBalancer.get? "elb" = some elb) (hT : elb.truthy = true)
    (heq : convertClassicListeners elb
      (withSecurityGroupsAndVpc elb (classicToEdit loadBalancer)) = some (te1, elb1))
    (hhc : convertClassicHealthCheck js elb1 te1 = some te2) :
    ∃ after, convertClassicLoadBalancerForEditing js loadBalancer = some (obj te2, after) := by
  rw [convertClassic_unfold js loadBalancer elb hlb hT, heq]
  simp only [Option.some_bind, hhc]
  exact ⟨_, rfl⟩

theorem convertClassicListeners_spec (elb : JVal) (toEdit : Fields)
    (h : (convertClassicListeners elb []).isSome) :
    ∃ toEdit' elb', convertClassicListeners elb toEdit = some (toEdit', elb') ∧
      (∀ k, k ≠ "listeners" → lookup k toEdit' = lookup k toEdit) ∧
      (∀ k, k ≠ "listenerDescriptions" → elb'.prop k = elb.prop k) := by
  unfold convertClassicListeners at h ⊢
  by_cases ht : (elb.prop "listenerDescriptions").truthy = true
  · simp only [ht, if_true] at h ⊢
    cases hd : elems? (elb.prop "listenerDescriptions") with
    | none => simp [hd] at h
    | some ds =>
      cases hm : mapOpt convertClassicListener ds with
      | none => simp [hd, hm] at h
      | some rs =>
        refine ⟨_, _, by simp [hd, hm]; exact ⟨rfl, rfl⟩, ?_, ?_⟩
        · intro k hk; exact lookup_assign_ne _ _ _ _ hk
        · intro k hk; exact prop_put_ne _ _ _ _ hk
  · simp only [ht] at h ⊢
    exact ⟨toEdit, elb, by simp, fun _ _ => rfl, fun _ _ => rfl⟩

theorem convertClassicListeners_arr (elb : JVal) (ds : List JVal) (ps te : Fields)
    (rs : List (JVal × JVal))
    (hds : elb.prop "listenerDescriptions" = arr ds ps)
    (hm : mapOpt convertClassicListener ds = some rs) :
    ∃ elb', convertClassicListeners elb te
        = some (assign "listeners" (arr (rs.map Prod.fst) []) te, elb') ∧
      ∀ k, k ≠ "listenerDescriptions" → elb'.prop k = elb.prop k := by
  refine ⟨elb.put "listenerDescriptions" (arr (rs.map Prod.snd) ps), ?_, ?_⟩
  · unfold convertClassicListeners
    simp [hds, JVal.truthy, elems?, hm, JVal.props]
  · intro k hk; exact prop_put_ne _ _ _ _ hk

theorem convertClassicHealthCheck_split (js : Builtins) (elb : JVal) (toEdit : Fields)
    (t p n q : String) (h2 : (elb.prop "healthCheck").prop "target" = str t) (ht : t ≠ "")
    (hs : splitHealthCheckTarget t = some (p, n, q)) :
    ∃ toEdit', convertClassicHealthCheck js elb toEdit = some toEdit' ∧
      lookup "healthCheckProtocol" toEdit' = str p ∧
      lookup "healthCheckPort" toEdit' = healthCheckPortOf js n ∧
      lookup "healthCheckPath" toEdit' = str q := by
  have hhc : (elb.prop "healthCheck").truthy = true :=
    truthy_of_isObject (isObject_of_prop_ne (k := "target") (by rw [h2]; simp))
  have htt : (str t).truthy = true := by simpa [truthy] using ht
  unfold convertClassicHealthCheck
  simp only [hhc, h2, htt, Bool.and_self, if_true, assignHealthCheckTarget, hs]
  by_cases hn : js.isNaN (str n) = true
  · simp [hn, healthCheckPortOf, lookup_assign_self, lookup_assign_ne]
  · simp [hn, healthCheckPortOf, lookup_assign_self, lookup_assign_ne]

theorem assignHealthCheckTarget_isSome (js : Builtins) (target : JVal) (te te' : Fields) :
    (assignHealthCheckTarget js target te).isSome
      = (assignHealthCheckTarget js target te').isSome := by
  unfold assignHealthCheckTarget
  cases target with
  | str s =>
    simp only
    cases splitHealthCheckTarget s with
    | none => rfl
    | some r =>
      obtain ⟨p, n, q⟩ := r
      simp only
      split <;> rfl
  | arr elems ps =>
    simp only
    split <;> rfl
  | _ => rfl

theorem convertClassicHealthCheck_isSome (js : Builtins) (elb : JVal) (te te' : Fields) :
    (convertClassicHealthCheck js elb te).isSome = (convertClassicHealthCheck js elb te').isSome := by
  unfold convertClassicHealthCheck
  simp only
  split
  · exact assignHealthCheckTarget_isSome _ _ _ _
  · rfl

theorem convertClassicHealthCheck_congr (js : Builtins) (elb elb' : JVal) (te : Fields)
    (h : elb'.prop "healthCheck" = elb.prop "healthCheck") :
    convertClassicHealthCheck js elb' te = convertClassicHealthCheck js elb te := by
  unfold convertClassicHealthCheck
  rw [h]

theorem assignHealthCheckTarget_frame (js : Builtins) (target : JVal) (te te' : Fields)
    (h : assignHealthCheckTarget js target te = some te') (k : String)
    (h1 : k ≠ "healthCheckProtocol") (h2 : k ≠ "healthCheckPort") (h3 : k ≠ "healthCheckPath") :
    lookup k te' = lookup k te := by
  unfold assignHealthCheckTarget at h
  cases target with
  | str s =>
    simp only at h
    cases hs : splitHealthCheckTarget s with
    | none => rw [hs] at h; simp at h; rw [← h]
    | some r =>
      obtain ⟨p, n, q⟩ := r
      rw [hs] at h
      simp only at h
      split at h <;> (injection h with h; rw [← h]; simp [lookup_assign_ne, h1, h2, h3])
  | arr elems ps =>
    simp only at h
    split at h
    · simp at h
    · injection h with h; rw [← h]
  | _ => simp at h

theorem convertClassicHealthCheck_frame (js : Builtins) (elb : JVal) (te te' : Fields)
    (h : convertClassicHealthCheck js elb te = some te') (k : String)
    (h1 : k ≠ "healthCheckProtocol") (h2 : k ≠ "healthCheckPort") (h3 : k ≠ "healthCheckPath")
    (h4 : k ≠ "healthTimeout") (h5 : k ≠ "healthInterval") (h6 : k ≠ "healthyThreshold")
    (h7 : k ≠ "unhealthyThreshold") :
    lookup k te' = lookup k te := by
  unfold convertClassicHealthCheck at h
  simp only at h
  split at h
  · rw [assignHealthCheckTarget_frame js _ _ _ h k h1 h2 h3]
    simp [lookup_assign_ne, h4, h5, h6, h7]
  · injection h with h; rw [← h]

theorem convertClassicListener_arn (description listener : JVal)
    (partition service region account resource name : String)
    (hd : description.get? "listener" = some listener)
    (hc : listener.get? "sslcertificateId"
      = some (str (certificateArn partition service region account resource name)))
    (h1 : '/' ∉ partition.data) (h2 : '/' ∉ service.data) (h3 : '/' ∉ region.data)
    (h4 : '/' ∉ account.data) (h5 : '/' ∉ resource.data) (h6 : '/' ∉ name.data)
    (c1 : ':' ∉ partition.data) (c2 : ':' ∉ service.data) :
    ∃ edited after, convertClassicListener description = some (edited, after) ∧
      edited.get? "sslCertificateType" = some (str service) ∧
      edited.get? "sslCertificateId" = some (str name) ∧
      edited.get? "sslCertificateName" = some (str name) := by
  have ec := prop_of_get? hc
  have hobj : listener.isObject = true :=
    isObject_of_prop_ne (k := "sslcertificateId") (by rw [ec]; simp)
  have htr : (str (certificateArn partition service region account resource name)).truthy
      = true := by
    simpa [truthy] using certificateArn_ne_empty partition service region account resource name
  unfold convertClassicListener
  simp only [hd, hc, Option.bind_eq_bind, Option.some_bind, htr, if_true, splitSslCertificateId,
    certificateArn_split_slash _ _ _ _ _ _ h1 h2 h3 h4 h5 h6, List.getElem?_cons_zero,
    List.getElem?_cons_succ, certificateArn_prefix_split_colon _ _ _ _ _ c1 c2, ofStr?,
    Option.pure_def]
  refine ⟨_, _, rfl, ?_, ?_, ?_⟩
  · simp only [classicListenerForEditing, get?_obj, lookup]
    simp [prop_put_self, isObject_put, hobj]
  · simp only [classicListenerForEditing, get?_obj, lookup]
    simp [prop_put_self, prop_put_ne, isObject_put, hobj]
  · simp only [classicListenerForEditing, get?_obj, lookup]
    simp [prop_put_self, prop_put_ne, isObject_put, hobj]

theorem convertClassicListener_noCert (description listener : JVal)
    (hd : description.get? "listener" = some listener)
    (hc : listener.get? "sslcertificateId" = some undefined) :
    ∃ edited, convertClassicListener description = some (edited, description) ∧
      edited.get? "sslCertificateId" = some undefined ∧
      edited.get? "sslCertificateName" = some undefined ∧
      edited.get? "sslCertificateType" = some (listener.prop "sslCertificateType") := by
  have ec := prop_of_get? hc
  unfold convertClassicListener
  simp only [hd, hc, Option.bind_eq_bind, Option.some_bind, truthy, Option.pure_def]
  refine ⟨_, rfl, ?_, ?_, ?_⟩ <;>
    simp [classicListenerForEditing, get?_obj, lookup, ec]

theorem split_head_isSome (s : String) (c : Char) : ∃ first, (split s c)[0]? = some first := by
  unfold split
  cases h : splitChars (fun x => x == c) s.data with
  | nil => exact absurd h (splitChars_ne_nil _ _)
  | cons w ws => exact ⟨String.mk w, by simp⟩

theorem convertClassicListener_total (description : JVal)
    (h : isListenerDescription description = true) :
    ∃ r, convertClassicListener description = some r := by
  unfold isListenerDescription at h
  cases hl : description.prop "listener" with
  | obj fields =>
    rw [hl] at h
    have hobj : description.isObject = true :=
      isObject_of_prop_ne (k := "listener") (by rw [hl]; simp)
    unfold convertClassicListener
    rw [get?_of_isObject hobj, hl]
    simp only [Option.bind_eq_bind, Option.some_bind, get?_obj]
    cases hc : lookup "sslcertificateId" fields with
    | str s =>
      obtain ⟨first, hfirst⟩ := split_head_isSome s '/'
      by_cases ht : (str s).truthy = true
      · simp only [ht, if_true, splitSslCertificateId, hfirst, Option.some_bind]
        exact ⟨_, rfl⟩
      · simp only [ht]
        exact ⟨_, rfl⟩
    | undefined => exact ⟨_, rfl⟩
    | null => simp [hc] at h
    | bool b => simp [hc] at h
    | num n => simp [hc] at h
    | arr es ps => simp [hc] at h
    | obj fs => simp [hc] at h
  | undefined => rw [hl] at h; simp at h
  | null => rw [hl] at h; simp at h
  | bool b => rw [hl] at h; simp at h
  | num n => rw [hl] at h; simp at h
  | str s => rw [hl] at h; simp at h
  | arr es ps => rw [hl] at h; simp at h

theorem convertClassicListener_keys (description : JVal) (r : JVal × JVal)
    (h : convertClassicListener description = some r) :
    r.1.hasKey "sslCertificateId" = true ∧ r.1.hasKey "sslCertificateName" = true ∧
      r.1.hasKey "sslCertificateType" = true := by
  have hex : ∃ listener, r.1 = classicListenerForEditing listener := by
    unfold convertClassicListener at h
    cases hd : description.get? "listener" with
    | none => rw [hd] at h; simp at h
    | some listener =>
      rw [hd] at h
      simp only [Option.bind_eq_bind, Option.some_bind] at h
      cases hc : listener.get? "sslcertificateId" with
      | none => rw [hc] at h; simp at h
      | some certificate =>
        rw [hc] at h
        simp only [Option.some_bind] at h
        by_cases ht : certificate.truthy = true
        · simp only [ht, if_true] at h
          cases hs : splitSslCertificateId listener certificate with
          | none => rw [hs] at h; simp at h
          | some listener1 =>
            rw [hs] at h
            simp only [Option.some_bind, Option.pure_def, Option.some.injEq] at h
            exact ⟨listener1, by rw [← h]⟩
        · have hf : certificate.truthy = false := by simpa using ht
          rw [hf] at h
          simp only [Bool.false_eq_true, if_false, Option.pure_def, Option.some.injEq] at h
          exact ⟨listener, by rw [← h]⟩
  obtain ⟨listener, hl⟩ := hex
  rw [hl]
  exact ⟨rfl, rfl, rfl⟩

/-! ## Conversion of an application load balancer -/

theorem convertCertificate_of_fields (cert : JVal) (third sixth : String)
    (h : HasArnFields cert third sixth) :
    convertCertificate cert
      = some (obj [("type", str third), ("name", ofStr? (split sixth '/')[1]?)]) := by
  obtain ⟨f1, f2, f4, f5, more, hc, h1, h2, h3, h4, h5, h6, hm⟩ := h
  obtain ⟨tail, ht⟩ := split_six_fields f1 f2 third f4 f5 sixth more h1 h2 h3 h4 h5 h6 hm
  unfold convertCertificate
  simp [hc, ht, ofStr?]

theorem convertCertificate_entry (cert : JVal) (third sixth : String)
    (h : HasArnFields cert third sixth) :
    ∃ entry, convertCertificate cert = some entry ∧ CertificateEntry cert entry := by
  refine ⟨_, convertCertificate_of_fields cert third sixth h, ?_⟩
  intro third' sixth' h' before name rest hs hb hn hr
  have e := convertCertificate_of_fields cert third' sixth' h'
  rw [convertCertificate_of_fields cert third sixth h] at e
  injection e with e
  rw [e, hs, split_second_piece before name rest hb hn hr]
  simp [get?_obj, lookup, ofStr?]

theorem convertApplicationListener_certificates (listener : JVal)
    (h : CertificatesAll (fun c => ∃ third sixth, HasArnFields c third sixth) listener) :
    ∃ edited, convertApplicationListener listener = some edited ∧
      ListenerCertificates listener edited := by
  rcases h with h | ⟨certs, props, h, hall⟩
  · refine ⟨(obj [("protocol", listener.prop "protocol"), ("port", listener.prop "port"),
      ("defaultActions", listener.prop "defaultActions"), ("certificates", arr [] []),
      ("sslPolicy", listener.prop "sslPolicy")]), ?_, [], rfl, fun _ => rfl, ?_⟩
    · unfold convertApplicationListener convertCertificates
      simp [h, truthy]
    · intro certs props hc
      rw [h] at hc
      simp at hc
  · obtain ⟨entries, he, hf⟩ := mapOpt_forall₂ convertCertificate CertificateEntry certs
      (fun c hc => by
        obtain ⟨third, sixth, hh⟩ := hall c hc
        exact convertCertificate_entry c third sixth hh)
    refine ⟨(obj [("protocol", listener.prop "protocol"), ("port", listener.prop "port"),
      ("defaultActions", listener.prop "defaultActions"), ("certificates", arr entries []),
      ("sslPolicy", listener.prop "sslPolicy")]), ?_, entries, rfl, ?_, ?_⟩
    · unfold convertApplicationListener convertCertificates
      simp [h, truthy, he]
    · intro hu; rw [h] at hu; simp at hu
    · intro certs' props' hc
      rw [h] at hc
      simp at hc
      rw [← hc.1]
      exact hf

theorem convertApplicationTargetGroups_spec (js : Builtins) (elb : JVal) (te : Fields)
    (h : (convertApplicationTargetGroups js elb []).isSome) :
    ∃ te', convertApplicationTargetGroups js elb te = some te' ∧
      ∀ k, k ≠ "targetGroups" → lookup k te' = lookup k te := by
  unfold convertApplicationTargetGroups at h ⊢
  by_cases ht : (elb.prop "targetGroups").truthy = true
  · simp only [ht, if_true] at h ⊢
    cases hd : elems? (elb.prop "targetGroups") with
    | none => simp [hd] at h
    | some ds =>
      cases hm : mapOpt (convertApplicationTargetGroup js) ds with
      | none => simp [hd, hm] at h
      | some rs =>
        exact ⟨_, by simp [hd, hm]; rfl, fun k hk => lookup_assign_ne _ _ _ _ hk⟩
  · simp only [ht] at h ⊢
    exact ⟨te, by simp, fun _ _ => rfl⟩

/-! ## The health-check block without a colon in the target -/

theorem hasField_assign_self (k : String) (v : JVal) (fs : Fields) :
    hasField k (assign k v fs) = true := by
  induction fs with
  | nil => simp [assign, hasField]
  | cons p rest ih =>
    obtain ⟨k', v'⟩ := p
    by_cases h : k' = k
    · simp [assign, hasField, h]
    · simp only [assign, h, if_false]
      simp only [hasField, List.any_cons] at ih ⊢
      rw [ih]; simp

theorem hasField_assign_ne (k k' : String) (v : JVal) (fs : Fields) (hne : k ≠ k') :
    hasField k (assign k' v fs) = hasField k fs := by
  induction fs with
  | nil => simp [assign, hasField, Ne.symm hne]
  | cons p rest ih =>
    obtain ⟨k'', v'⟩ := p
    by_cases h : k'' = k'
    · subst h
      simp [assign, hasField, Ne.symm hne]
    · simp only [assign, h, if_false]
      simp only [hasField, List.any_cons] at ih ⊢
      rw [ih]

theorem splitHealthCheckTarget_none (t : String) (h : ':' ∉ t.data) :
    splitHealthCheckTarget t = none := by
  simp [splitHealthCheckTarget, indexOf, indexOfChars_eq_none _ _ h]

theorem convertClassicListeners_keys (elb : JVal) (toEdit toEdit' : Fields) (elb' : JVal)
    (h : convertClassicListeners elb toEdit = some (toEdit', elb')) (k : String)
    (hk : k ≠ "listeners") :
    hasField k toEdit' = hasField k toEdit ∧ lookup k toEdit' = lookup k toEdit := by
  unfold convertClassicListeners at h
  by_cases ht : (elb.prop "listenerDescriptions").truthy = true
  · simp only [ht, if_true] at h
    cases hd : elems? (elb.prop "listenerDescriptions") with
    | none => simp [hd] at h
    | some ds =>
      cases hm : mapOpt convertClassicListener ds with
      | none => simp [hd, hm] at h
      | some rs =>
        simp [hd, hm] at h
        rw [← h.1]
        exact ⟨hasField_assign_ne _ _ _ _ hk, lookup_assign_ne _ _ _ _ hk⟩
  · simp [ht] at h
    rw [← h.1]
    exact ⟨rfl, rfl⟩

theorem hasField_initial (elb loadBalancer : JVal) (k : String)
    (hk : k ∈ ["healthTimeout", "healthInterval", "healthyThreshold", "unhealthyThreshold",
      "healthCheckProtocol", "healthCheckPort", "healthCheckPath"]) :
    hasField k (withSecurityGroupsAndVpc elb (classicToEdit loadBalancer)) = false ∧
    hasField k (classicToEdit loadBalancer) = false := by
  simp only [List.mem_cons, List.mem_singleton, List.not_mem_nil, or_false] at hk
  rcases hk with h | h | h | h | h | h | h <;> subst h <;>
    exact ⟨by
      rw [withSecurityGroupsAndVpc, hasField_assign_ne _ _ _ _ (by decide),
        hasField_assign_ne _ _ _ _ (by decide)]
      simp [hasField, classicToEdit], by simp [hasField, classicToEdit]⟩

/-! ## Health-check target of a classic load balancer -/

theorem convertClassic_target (js : Builtins) (loadBalancer elb healthCheck : JVal)
    (target p n q : String)
    (hlb : loadBalancer.get? "elb" = some elb)
    (helb : elb.get? "healthCheck" = some healthCheck)
    (hhc : healthCheck.get? "target" = some (str target))
    (hl : (convertClassicListeners elb []).isSome)
    (ht : target ≠ "")
    (hs : splitHealthCheckTarget target = some (p, n, q)) :
    ∃ toEdit after,
      convertClassicLoadBalancerForEditing js loadBalancer = some (toEdit, after) ∧
      toEdit.get? "healthCheckProtocol" = some (str p) ∧
      toEdit.get? "healthCheckPort" = some (healthCheckPortOf js n) ∧
      toEdit.get? "healthCheckPath" = some (str q) := by
  have hT : elb.truthy = true :=
    truthy_of_isObject (isObject_of_prop_ne (k := "healthCheck") (by
      rw [prop_of_get? helb]; intro e; rw [e] at hhc; simp [get?] at hhc))
  obtain ⟨te1, elb1, heq, _, hk2⟩ := convertClassicListeners_spec elb
    (withSecurityGroupsAndVpc elb (classicToEdit loadBalancer)) hl
  have h2 : (elb1.prop "healthCheck").prop "target" = str target := by
    rw [hk2 "healthCheck" (by decide), prop_of_get? helb, prop_of_get? hhc]
  obtain ⟨te2, hte2, hp, hn, hq⟩ :=
    convertClassicHealthCheck_split js elb1 te1 target p n q h2 ht hs
  obtain ⟨after, hconv⟩ := convertClassic_of_steps js loadBalancer elb elb1 te1 te2 hlb hT
    heq hte2
  exact ⟨obj te2, after, hconv, by rw [get?_obj, hp], by rw [get?_obj, hn],
    by rw [get?_obj, hq]⟩

theorem takeWhile_ne_append (c : Char) (a rest : List Char) (ha : c ∉ a) :
    (a ++ c :: rest).takeWhile (fun x => x != c) = a := by
  induction a with
  | nil => simp
  | cons x xs ih =>
    have hx : x ≠ c := fun e => ha (by simp [e])
    have hxs : c ∉ xs := fun e => ha (by simp [e])
    have hb : (x != c) = true := by simpa using hx
    rw [List.cons_append, takeWhile_ne_cons_of_ne c x _ hx, ih hxs]

theorem takeWhile_ne_of_not_mem (c : Char) (a : List Char) (ha : c ∉ a) :
    a.takeWhile (fun x => x != c) = a := by
  induction a with
  | nil => simp
  | cons x xs ih =>
    have hx : x ≠ c := fun e => ha (by simp [e])
    have hxs : c ∉ xs := fun e => ha (by simp [e])
    have hb : (x != c) = true := by simpa using hx
    rw [takeWhile_ne_cons_of_ne c x _ hx, ih hxs]

theorem dropWhile_ne_append (c : Char) (a rest : List Char) (ha : c ∉ a) :
    (a ++ c :: rest).dropWhile (fun x => x != c) = c :: rest := by
  induction a with
  | nil => simp
  | cons x xs ih =>
    have hx : x ≠ c := fun e => ha (by simp [e])
    have hxs : c ∉ xs := fun e => ha (by simp [e])
    have hb : (x != c) = true := by simpa using hx
    simp only [List.cons_append, List.dropWhile, hb]
    exact ih hxs

theorem dropWhile_ne_of_not_mem (c : Char) (a : List Char) (ha : c ∉ a) :
    a.dropWhile (fun x => x != c) = [] := by
  induction a with
  | nil => simp
  | cons x xs ih =>
    have hx : x ≠ c := fun e => ha (by simp [e])
    have hxs : c ∉ xs := fun e => ha (by simp [e])
    have hb : (x != c) = true := by simpa using hx
    simp only [List.dropWhile, hb]
    exact ih hxs

/-- The three texts of the target `P:NQ`. -/
theorem splitHealthCheckTarget_parts (P N Q : String)
    (hP1 : ':' ∉ P.data) (hP2 : '/' ∉ P.data) (hN2 : '/' ∉ N.data)
    (hQ : Q = "" ∨ Q.data.head? = some '/') :
    splitHealthCheckTarget (P ++ ":" ++ N ++ Q) = some (P, N, Q) := by
  have hdata : (P ++ ":" ++ N ++ Q).data = P.data ++ ':' :: (N.data ++ Q.data) := by
    simp [String.data_append]
  have hc : ':' ∈ (P ++ ":" ++ N ++ Q).data := by rw [hdata]; simp
  have hbefore : textBeforeFirst ':' (P ++ ":" ++ N ++ Q) = P := by
    unfold textBeforeFirst
    rw [hdata, takeWhile_ne_append ':' _ _ hP1]
  rw [splitHealthCheckTarget_eq _ hc (by rw [hbefore]; exact hP2)]
  have hcolon : (':' : Char) ≠ '/' := by decide
  have htw : ((P ++ ":" ++ N ++ Q).data).takeWhile (fun x => x != '/')
      = P.data ++ ':' :: N.data := by
    rw [hdata]
    rcases hQ with hQ | hQ
    · subst hQ
      simp only [show ("" : String).data = [] from rfl, List.append_nil]
      exact takeWhile_ne_of_not_mem '/' _ (by simp [hP2, hN2])
    · obtain ⟨cs, hcs⟩ : ∃ cs, Q.data = '/' :: cs := by
        cases hq : Q.data with
        | nil => simp [hq] at hQ
        | cons x xs => simp [hq] at hQ; exact ⟨xs, by rw [hQ]⟩
      rw [hcs]
      have : P.data ++ ':' :: (N.data ++ '/' :: cs) = (P.data ++ ':' :: N.data) ++ '/' :: cs := by
        simp
      rw [this]
      exact takeWhile_ne_append '/' _ _ (by simp [hP2, hN2])
  have hdw : ((P ++ ":" ++ N ++ Q).data).dropWhile (fun x => x != '/') = Q.data := by
    rw [hdata]
    rcases hQ with hQ | hQ
    · subst hQ
      simp only [show ("" : String).data = [] from rfl, List.append_nil]
      exact dropWhile_ne_of_not_mem '/' _ (by simp [hP2, hN2])
    · obtain ⟨cs, hcs⟩ : ∃ cs, Q.data = '/' :: cs := by
        cases hq : Q.data with
        | nil => simp [hq] at hQ
        | cons x xs => simp [hq] at hQ; exact ⟨xs, by rw [hQ]⟩
      rw [hcs]
      have : P.data ++ ':' :: (N.data ++ '/' :: cs) = (P.data ++ ':' :: N.data) ++ '/' :: cs := by
        simp
      rw [this]
      exact dropWhile_ne_append '/' _ _ (by simp [hP2, hN2])
  have hbetween : textBetweenFirst ':' '/' (P ++ ":" ++ N ++ Q) = N := by
    unfold textBetweenFirst
    rw [htw]
    have : ((P ++ ":" ++ N ++ Q).data).takeWhile (fun x => x != ':') = P.data := by
      rw [hdata, takeWhile_ne_append ':' _ _ hP1]
    rw [this, show P.data ++ ':' :: N.data = (P.data ++ [':']) ++ N.data by simp,
      List.drop_left' (by simp)]
  have hfrom : textFromFirst '/' (P ++ ":" ++ N ++ Q) = Q := by
    unfold textFromFirst
    rw [hdw]
  rw [hbefore, hbetween, hfrom]

/-! ## Decimal numerals -/

theorem digitChar_isDigit (d : Nat) (h : d < 10) :
    (Nat.digitChar d).isDigit = true ∧ (Nat.digitChar d).toNat - 48 = d ∧
      Nat.digitChar d ≠ ':' ∧ Nat.digitChar d ≠ '/' := by
  interval_cases d <;> decide

theorem parseDigits_append (xs ys : List Char) (acc : Nat) :
    parseDigits acc (xs ++ ys) = (parseDigits acc xs).bind fun a => parseDigits a ys := by
  induction xs generalizing acc with
  | nil => simp [parseDigits]
  | cons x xs ih =>
    simp only [List.cons_append, parseDigits]
    split
    · exact ih _
    · rfl

theorem parseDigits_decimalDigits (fuel n : Nat) (h : n < fuel) :
    parseDigits 0 (decimalDigits fuel n) = some n := by
  induction fuel generalizing n with
  | zero => omega
  | succ fuel ih =>
    unfold decimalDigits
    by_cases hn : n < 10
    · simp [hn, parseDigits, (digitChar_isDigit n hn).1, (digitChar_isDigit n hn).2.1]
    · have hd := digitChar_isDigit (n % 10) (Nat.mod_lt _ (by decide))
      simp only [hn, if_false]
      rw [parseDigits_append, ih (n / 10) (by omega)]
      simp [parseDigits, hd.1, hd.2.1]
      omega

theorem decimalDigits_no_delimiter (fuel n : Nat) :
    ':' ∉ decimalDigits fuel n ∧ '/' ∉ decimalDigits fuel n := by
  induction fuel generalizing n with
  | zero => simp [decimalDigits]
  | succ fuel ih =>
    unfold decimalDigits
    by_cases hn : n < 10
    · have hd := digitChar_isDigit n hn
      simp only [hn, if_true, List.mem_singleton]
      exact ⟨fun e => hd.2.2.1 e.symm, fun e => hd.2.2.2 e.symm⟩
    · have hd := digitChar_isDigit (n % 10) (Nat.mod_lt _ (by decide))
      simp only [hn, if_false, List.mem_append, List.mem_singleton, not_or]
      exact ⟨⟨(ih _).1, fun e => hd.2.2.1 e.symm⟩, ⟨(ih _).2, fun e => hd.2.2.2 e.symm⟩⟩

theorem halvings_of_lt (fuel n : Nat) (h : n < 2 ^ 53) : halvings fuel n = 0 := by
  cases fuel with
  | zero => rfl
  | succ fuel =>
    unfold halvings
    rw [if_pos h]

theorem nearestDouble_of_lt (n : Nat) (h : n < 2 ^ 53) : nearestDouble n = n := by
  unfold nearestDouble
  simp [halvings_of_lt n n h, Nat.mod_one]

theorem sampleBuiltins_standard : StandardNumber sampleBuiltins := by
  intro digits n hp hn
  constructor
  · show (parseDigits 0 digits).isNone = false
    rw [hp]; rfl
  · show (match parseDigits 0 digits with
      | some n => num (nearestDouble n)
      | none => undefined) = num n
    rw [hp]
    simp only
    rw [nearestDouble_of_lt n hn]

theorem decimal_ne_empty (n : Nat) : (decimal n).data ≠ [] := by
  unfold decimal decimalDigits
  by_cases hn : n < 10 <;> simp [hn]

theorem toText_decimal (objectText : JVal → String) (n : Nat) :
    toText objectText (num (n : Int)) = decimal n := by
  simp [toText]

/-! ## The two certificate parsers -/

theorem dropWhile_ne_of_mem (c : Char) (l : List Char) (h : c ∈ l) :
    ∃ r, l.dropWhile (fun x => x != c) = c :: r := by
  induction l with
  | nil => simp at h
  | cons x xs ih =>
    by_cases hx : x = c
    · subst hx
      exact ⟨xs, by simp [List.dropWhile]⟩
    · have hb : (x != c) = true := by simpa using hx
      obtain ⟨r, hr⟩ := ih (mem_of_mem_cons_of_ne h hx)
      exact ⟨r, by simp only [List.dropWhile, hb]; exact hr⟩

theorem not_mem_takeWhile_ne (c : Char) (l : List Char) :
    c ∉ l.takeWhile (fun x => x != c) := by
  intro h
  have := List.mem_takeWhile_imp h
  simp at this

theorem dropWhile_ne_head (c : Char) (l : List Char) :
    l.dropWhile (fun x => x != c) = [] ∨ (l.dropWhile (fun x => x != c)).head? = some c := by
  induction l with
  | nil => simp
  | cons x xs ih =>
    by_cases hx : x = c
    · subst hx
      right
      simp [List.dropWhile]
    · have hb : (x != c) = true := by simpa using hx
      simp only [List.dropWhile, hb]
      exact ih

/-- A string that holds `c` is `before ++ c ++ name ++ rest`, where `before` and `name` hold
no `c` and `rest` is empty or begins with `c`. -/
theorem exists_pieces_of_mem (c : Char) (s : String) (h : c ∈ s.data) :
    ∃ before name rest : String, s = before ++ String.singleton c ++ name ++ rest ∧
      c ∉ before.data ∧ c ∉ name.data ∧ (rest = "" ∨ rest.data.head? = some c) ∧
      ∀ x ∈ before.data, x ∈ s.data := by
  obtain ⟨r, hr⟩ := dropWhile_ne_of_mem c s.data h
  refine ⟨⟨s.data.takeWhile (fun x => x != c)⟩, ⟨r.takeWhile (fun x => x != c)⟩,
    ⟨r.dropWhile (fun x => x != c)⟩, ?_, not_mem_takeWhile_ne c _, not_mem_takeWhile_ne c _, ?_,
    ?_⟩
  · apply String.ext
    simp only [String.data_append, String.singleton, String.push, String.data_append]
    have h1 := List.takeWhile_append_dropWhile (fun x => x != c) s.data
    have h2 := List.takeWhile_append_dropWhile (fun x => x != c) r
    rw [hr] at h1
    conv_lhs => rw [← h1, ← h2]
    simp
  · rcases dropWhile_ne_head c r with h0 | h0
    · left
      exact String.ext h0
    · right
      exact h0
  · intro x hx
    exact (List.takeWhile_sublist _).subset hx

theorem convertClassicListener_pieces (description listener : JVal) (s first : String)
    (others : List String)
    (hd : description.get? "listener" = some listener)
    (hc : listener.get? "sslcertificateId" = some (str s)) (hne : s ≠ "")
    (hsplit : split s '/' = first :: others) :
    ∃ edited after, convertClassicListener description = some (edited, after) ∧
      edited.get? "sslCertificateType" = some (ofStr? (split first ':')[2]?) ∧
      edited.get? "sslCertificateId" = some (ofStr? others[0]?) ∧
      edited.get? "sslCertificateName" = some (ofStr? others[0]?) := by
  have ec := prop_of_get? hc
  have hobj : listener.isObject = true :=
    isObject_of_prop_ne (k := "sslcertificateId") (by rw [ec]; simp)
  have htr : (str s).truthy = true := by simpa [truthy] using hne
  unfold convertClassicListener
  simp only [hd, hc, Option.bind_eq_bind, Option.some_bind, htr, if_true, splitSslCertificateId,
    hsplit, List.getElem?_cons_zero, List.getElem?_cons_succ, Option.pure_def]
  refine ⟨_, _, rfl, ?_, ?_, ?_⟩
  · simp only [classicListenerForEditing, get?_obj, lookup]
    simp [prop_put_self, isObject_put, hobj]
  · simp only [classicListenerForEditing, get?_obj, lookup]
    simp [prop_put_self, prop_put_ne, isObject_put, hobj]
  · simp only [classicListenerForEditing, get?_obj, lookup]
    simp [prop_put_self, prop_put_ne, isObject_put, hobj]

/-! ## Normalisation of an instance -/

theorem transformInstance_eq (inst provider account region : JVal)
    (hobj : inst.isObject = true) :
    transformInstance inst provider account region =
      some ((((((inst.put "health"
          (renameHealthy ((inst.prop "health").or (obj [])))).put "provider" provider).put
          "account" account).put "region" region).put "healthState"
          (healthStateOf ((renameHealthy ((inst.prop "health").or (obj []))).prop "state"))).put
          "health" (arr [renameHealthy ((inst.prop "health").or (obj []))] [])) := by
  unfold transformInstance
  simp only [get?_of_isObject hobj, set?_of_isObject hobj, Option.bind_eq_bind,
    Option.some_bind, Option.pure_def]

theorem normalizeInstance_eq (container : JVal) (containerType healthType : String)
    (inst : JVal) (hobj : inst.isObject = true) :
    ∃ inst', normalizeInstance container containerType healthType inst = some inst' ∧
      inst'.isObject = true ∧
      (containerType ≠ "health" →
        inst'.prop "health" = arr [renameHealthy ((inst.prop "health").or (obj []))]
          [("type", str healthType)]) ∧
      (containerType ≠ "health" → containerType ≠ "healthState" →
        inst'.prop "healthState"
          = healthStateOf ((renameHealthy ((inst.prop "health").or (obj []))).prop "state")) ∧
      (containerType ≠ "health" →
        inst'.prop containerType = arr [container.prop "name"] []) := by
  unfold normalizeInstance
  simp only [transformInstance_eq inst _ _ _ hobj, Option.bind_eq_bind, Option.some_bind,
    Option.pure_def]
  refine ⟨_, rfl, by simp [isObject_put, hobj], ?_, ?_, ?_⟩
  · intro h1
    rw [prop_put_self _ _ _ (by simp [isObject_put, hobj]),
      prop_put_ne _ _ _ _ (Ne.symm h1), prop_put_self _ _ _ (by simp [isObject_put, hobj])]
    rfl
  · intro h1 h2
    rw [prop_put_ne _ _ _ _ (by decide), prop_put_ne _ _ _ _ (Ne.symm h2),
      prop_put_ne _ _ _ _ (by decide), prop_put_self _ _ _ (by simp [isObject_put, hobj])]
  · intro h1
    rw [prop_put_ne _ _ _ _ h1, prop_put_self _ _ _ (by simp [isObject_put, hobj])]

theorem or_empty_eq_originalHealth (inst : JVal) :
    (inst.prop "health").or (obj []) = originalHealth inst := rfl

theorem originalHealth_truthy (inst : JVal) : (originalHealth inst).truthy = true := by
  unfold originalHealth
  by_cases h : (inst.prop "health").truthy = true
  · rw [if_pos h]; exact h
  · rw [if_neg h]; rfl

theorem hasField_of_lookup_ne (k : String) (fs : Fields) (h : lookup k fs ≠ undefined) :
    hasField k fs = true := by
  induction fs with
  | nil => simp [lookup] at h
  | cons p rest ih =>
    obtain ⟨k', v⟩ := p
    by_cases hk : k' = k
    · simp [hasField, hk]
    · simp only [lookup, hk, if_false] at h
      have := ih h
      simp only [hasField, List.any_cons, Bool.or_eq_true] at this ⊢
      exact Or.inr this

theorem hasKey_put (o : JVal) (k k' : String) (v : JVal) (h : o.hasKey k' = true) :
    (o.put k' v).hasKey k = o.hasKey k := by
  by_cases hk : k = k'
  · subst hk
    cases o <;> simp_all [JVal.put, JVal.hasKey, JVal.props, hasField_assign_self]
  · cases o <;> simp [JVal.put, JVal.hasKey, JVal.props, hasField_assign_ne _ _ _ _ hk]

theorem isStr_eq_true {v : JVal} {s : String} (h : v.isStr s = true) : v = str s := by
  cases v <;> simp_all [JVal.isStr]

theorem renameHealthy_state (health : JVal) :
    (renameHealthy health).prop "state"
      = if (health.prop "state").isStr "healthy" then str "InService"
        else health.prop "state" := by
  unfold renameHealthy
  by_cases h : (health.prop "state").isStr "healthy" = true
  · have hobj : health.isObject = true :=
      isObject_of_prop_ne (k := "state") (by rw [isStr_eq_true h]; simp)
    simp [h, prop_put_self _ _ _ hobj]
  · simp [h]

theorem renameHealthy_prop_ne (health : JVal) (k : String) (hk : k ≠ "state") :
    (renameHealthy health).prop k = health.prop k := by
  unfold renameHealthy
  split
  · exact prop_put_ne _ _ _ _ hk
  · rfl

theorem renameHealthy_hasKey (health : JVal) (k : String) :
    (renameHealthy health).hasKey k = health.hasKey k := by
  unfold renameHealthy
  split
  · rename_i h
    apply hasKey_put
    exact hasField_of_lookup_ne _ _ (by
      have := isStr_eq_true h
      unfold JVal.prop at this
      rw [this]; simp)
  · rfl

theorem renameHealthy_truthy (health : JVal) (h : health.truthy = true) :
    (renameHealthy health).truthy = true := by
  unfold renameHealthy
  split
  · cases health <;> simp_all [JVal.put, JVal.truthy]
  · exact h

theorem renameHealthy_get? (health : JVal) (h : health.truthy = true) (k : String) :
    (renameHealthy health).get? k = some ((renameHealthy health).prop k) :=
  get?_of_truthy (renameHealthy_truthy health h) k

/-- The value of `healthState` for a state that is a string or missing. -/
theorem healthStateOf_renamed (state : JVal) (ht : isTextOrAbsent state = true) :
    healthStateOf (if state.isStr "healthy" then str "InService" else state)
      = if isUpState state then str "Up"
        else if hasNoState state then str "OutOfService" else str "Down" := by
  cases state with
  | str s =>
    by_cases h1 : s = "healthy"
    · subst h1; rfl
    · by_cases h2 : s = "InService"
      · subst h2; rfl
      · by_cases h3 : s = ""
        · subst h3; rfl
        · simp [healthStateOf, isUpState, hasNoState, JVal.isStr, JVal.truthy, h1, h2, h3]
  | undefined => rfl
  | null => rfl
  | _ => simp [isTextOrAbsent] at ht

/-! ## Normalisation of a server group -/

theorem normalizeInstance_counts (container : JVal) (containerType healthType : String)
    (inst inst' : JVal) (hobj : inst.isObject = true)
    (h1 : containerType ≠ "health") (h2 : containerType ≠ "healthState")
    (h : normalizeInstance container containerType healthType inst = some inst') :
    (∀ state, healthStateIs state inst'
      = some (((renameHealthy (originalHealth inst)).prop "state").isStr state)) ∧
    isOutOfService inst'
      = some ((healthStateOf ((renameHealthy (originalHealth inst)).prop "state")).isStr
        "OutOfService") := by
  obtain ⟨i2, hi2, hobj2, hh, hs, _⟩ :=
    normalizeInstance_eq container containerType healthType inst hobj
  rw [h] at hi2
  injection hi2 with hi2
  subst hi2
  have hh := hh h1
  have hs := hs h1 h2
  rw [or_empty_eq_originalHealth] at hh hs
  constructor
  · intro state
    unfold healthStateIs
    simp only [get?_of_isObject hobj2, hh, getIndex?, List.getD_cons_zero, Option.bind_eq_bind,
      Option.some_bind, renameHealthy_get? _ (originalHealth_truthy inst), Option.pure_def]
  · unfold isOutOfService
    simp only [get?_of_isObject hobj2, hs, Option.bind_eq_bind, Option.some_bind,
      Option.pure_def]

theorem normalizeInstance_counted (container : JVal) (containerType healthType : String)
    (inst inst' : JVal) (hobj : inst.isObject = true)
    (h1 : containerType ≠ "health") (h2 : containerType ≠ "healthState")
    (h : normalizeInstance container containerType healthType inst = some inst') :
    Counted inst' := by
  obtain ⟨ha, hb⟩ := normalizeInstance_counts container containerType healthType inst inst'
    hobj h1 h2 h
  exact ⟨fun s => by rw [ha s]; rfl, by rw [hb]; rfl⟩

theorem countWhere_eq (p : JVal → Option Bool) (xs : List JVal)
    (h : ∀ x ∈ xs, (p x).isSome) :
    countWhere p xs = some (xs.countP fun x => p x == some true) := by
  induction xs with
  | nil => rfl
  | cons x xs ih =>
    have hx := h x (by simp)
    have ih := ih (fun y hy => h y (by simp [hy]))
    unfold countWhere
    cases hp : p x with
    | none => rw [hp] at hx; simp at hx
    | some b =>
      simp only [ih]
      cases b <;> simp [List.countP_cons, hp]

theorem forall₂_countP {α β : Type} (R : α → β → Prop) (p : α → Bool) (q : β → Bool)
    (xs : List α) (ys : List β) (h : List.Forall₂ R xs ys)
    (hpq : ∀ x y, R x y → q y = p x) : ys.countP q = xs.countP p := by
  induction h with
  | nil => rfl
  | cons hxy _ ih => simp [List.countP_cons, hpq _ _ hxy, ih]

theorem forall₂_length {α β : Type} (R : α → β → Prop)
    (xs : List α) (ys : List β) (h : List.Forall₂ R xs ys) : ys.length = xs.length := by
  induction h with
  | nil => rfl
  | cons _ _ ih => simp [ih]

theorem wellFormedServerGroup_spec (serverGroup : JVal)
    (h : wellFormedServerGroup serverGroup = true) :
    (∃ instances ps, serverGroup.prop "instances" = arr instances ps ∧
      ∀ i ∈ instances, i.isObject = true) ∧
    ((∃ ids ps, serverGroup.prop "detachedInstances" = arr ids ps) ∨
      (serverGroup.prop "detachedInstances").truthy = false) ∧
    (serverGroup.prop "serverGroups").truthy = false ∧
    serverGroup.isObject = true := by
  unfold wellFormedServerGroup at h
  simp only [Bool.and_eq_true, Bool.not_eq_true'] at h
  obtain ⟨⟨h1, h2⟩, h3⟩ := h
  have hi : ∃ instances ps, serverGroup.prop "instances" = arr instances ps ∧
      ∀ i ∈ instances, i.isObject = true := by
    cases hp : serverGroup.prop "instances" with
    | arr instances ps =>
      rw [hp] at h1
      exact ⟨instances, ps, rfl, by simpa using h1⟩
    | _ => rw [hp] at h1; simp at h1
  refine ⟨hi, ?_, h3, ?_⟩
  · cases hp : serverGroup.prop "detachedInstances" with
    | arr ids ps => exact Or.inl ⟨ids, ps, rfl⟩
    | _ => rw [hp] at h2; right; simpa using h2
  · obtain ⟨instances, ps, hp, _⟩ := hi
    exact isObject_of_prop_ne (k := "instances") (by rw [hp]; simp)

theorem detachedObjects_isObject (serverGroup : JVal) :
    ∀ i ∈ detachedObjects serverGroup, i.isObject = true := by
  intro i hi
  unfold detachedObjects at hi
  simp only [List.mem_map] at hi
  obtain ⟨_, _, rfl⟩ := hi
  rfl

theorem attachDetachedInstances_spec (serverGroup : JVal) (instances : List JVal) (ps : Fields)
    (hi : serverGroup.prop "instances" = arr instances ps)
    (hd : (∃ ids ds, serverGroup.prop "detachedInstances" = arr ids ds) ∨
      (serverGroup.prop "detachedInstances").truthy = false)
    (hobj : serverGroup.isObject = true) :
    ∃ serverGroup' ps', attachDetachedInstances serverGroup = some serverGroup' ∧
      serverGroup'.prop "instances" = arr (instances ++ detachedObjects serverGroup) ps' ∧
      serverGroup'.prop "detachedInstances" = arr (detachedObjects serverGroup) [] ∧
      serverGroup'.isObject = true ∧
      ∀ k, k ≠ "instances" → k ≠ "detachedInstances" →
        serverGroup'.prop k = serverGroup.prop k := by
  unfold attachDetachedInstances
  rcases hd with ⟨ids, ds, hd⟩ | hd
  · have hdet : detachedObjects serverGroup = ids.map fun instanceId => obj [("id", instanceId)] := by
      unfold detachedObjects elemsOf
      rw [hd]; rfl
    simp only [hd, hi, JVal.truthy, if_true, elems?, Option.bind_eq_bind, Option.some_bind,
      Option.pure_def]
    refine ⟨_, [], rfl, ?_, ?_, by simp [isObject_put, hobj], ?_⟩
    · rw [prop_put_self _ _ _ (by simp [isObject_put, hobj]), hdet]
    · rw [prop_put_ne _ _ _ _ (by decide), prop_put_self _ _ _ hobj, hdet]
    · intro k h1 h2
      rw [prop_put_ne _ _ _ _ h1, prop_put_ne _ _ _ _ h2]
  · have hdet : detachedObjects serverGroup = [] := by
      unfold detachedObjects elemsOf
      cases hp : serverGroup.prop "detachedInstances" <;> simp_all [elems?, JVal.truthy]
    simp only [hd, Bool.false_eq_true, if_false]
    refine ⟨_, ps, rfl, ?_, ?_, by simp [isObject_put, hobj], ?_⟩
    · rw [prop_put_ne _ _ _ _ (by decide), hi, hdet, List.append_nil]
    · rw [prop_put_self _ _ _ hobj, hdet]
    · intro k _ h2
      rw [prop_put_ne _ _ _ _ h2]

theorem outOfServiceCount_eq (serverGroups : List JVal)
    (h : ∀ sg ∈ serverGroups, ∃ instances ps, sg.prop "instances" = arr instances ps ∧
      ∀ i ∈ instances, Counted i) :
    outOfServiceCount serverGroups = some ((serverGroups.map fun sg =>
      (elemsOf (sg.prop "instances")).countP countsAsOutOfService).sum) := by
  induction serverGroups with
  | nil => rfl
  | cons sg rest ih =>
    obtain ⟨instances, ps, hp, hc⟩ := h sg (by simp)
    have ih := ih (fun y hy => h y (by simp [hy]))
    have hobj : sg.isObject = true :=
      isObject_of_prop_ne (k := "instances") (by rw [hp]; simp)
    have he : elemsOf (sg.prop "instances") = instances := by rw [hp]; rfl
    unfold outOfServiceCount
    rw [ih, get?_of_isObject hobj, List.map_cons, List.sum_cons, he, hp]
    simp only [Option.some_bind, elems?, countWhere_eq isOutOfService instances
      (fun i hi => (hc i hi).2), Option.map_some']
    rfl

theorem updateHealthCounts_eq (container : JVal) (instances : List JVal) (ps : Fields)
    (serverGroups : List JVal)
    (hi : container.prop "instances" = arr instances ps)
    (hsg : ownServerGroups container = some serverGroups)
    (hc : ∀ i ∈ instances, Counted i)
    (hs : ∀ sg ∈ serverGroups, ∃ instances ps, sg.prop "instances" = arr instances ps ∧
      ∀ i ∈ instances, Counted i) :
    updateHealthCounts container = some (container.put "instanceCounts" (obj [
      ("up", num (instances.countP countsAsUp : Nat)),
      ("down", num (instances.countP countsAsDown : Nat)),
      ("outOfService", num ((serverGroups.map fun sg =>
        (elemsOf (sg.prop "instances")).countP countsAsOutOfService).sum : Nat))])) := by
  unfold updateHealthCounts
  rw [hi, hsg]
  simp only [elems?, Option.bind_eq_bind, Option.some_bind,
    countWhere_eq (healthStateIs "InService") instances (fun i h => (hc i h).1 _),
    countWhere_eq (healthStateIs "OutOfService") instances (fun i h => (hc i h).1 _),
    outOfServiceCount_eq serverGroups hs, Option.pure_def]
  rfl

theorem withNormalizedInstances_props (serverGroup : JVal) (normalized detached : List JVal)
    (hd : serverGroup.prop "detachedInstances" = arr detached [])
    (hobj : serverGroup.isObject = true) :
    (withNormalizedInstances serverGroup normalized).prop "instances"
      = arr normalized (serverGroup.prop "instances").props ∧
    (withNormalizedInstances serverGroup normalized).prop "detachedInstances"
      = arr (normalized.drop (normalized.length - detached.length)) [] ∧
    (withNormalizedInstances serverGroup normalized).isObject = true ∧
    ∀ k, k ≠ "instances" → k ≠ "detachedInstances" →
      (withNormalizedInstances serverGroup normalized).prop k = serverGroup.prop k := by
  unfold withNormalizedInstances
  simp only [hd, elems?, Option.getD_some]
  refine ⟨?_, ?_, by simp [isObject_put, hobj], ?_⟩
  · rw [prop_put_ne _ _ _ _ (by decide), prop_put_self _ _ _ hobj]
  · rw [prop_put_self _ _ _ (by simp [isObject_put, hobj])]
  · intro k h1 h2
    rw [prop_put_ne _ _ _ _ h2, prop_put_ne _ _ _ _ h1]

theorem forall₂_mem_right {α β : Type} (R : α → β → Prop) (xs : List α) (ys : List β)
    (h : List.Forall₂ R xs ys) (y : β) (hy : y ∈ ys) : ∃ x, x ∈ xs ∧ R x y := by
  induction h with
  | nil => simp at hy
  | cons hxy _ ih =>
    rcases List.mem_cons.mp hy with h | h
    · subst h; exact ⟨_, by simp, hxy⟩
    · obtain ⟨x, hm, hr⟩ := ih h
      exact ⟨x, by simp [hm], hr⟩

theorem normalizeServerGroup_spec (container : JVal) (containerType healthType : String)
    (serverGroup : JVal) (instances : List JVal) (ps : Fields)
    (hcont : container.isObject = true)
    (h1 : containerType ≠ "health") (h2 : containerType ≠ "healthState")
    (hwf : wellFormedServerGroup serverGroup = true)
    (hi : serverGroup.prop "instances" = arr instances ps) :
    ∃ serverGroup' normalized ps',
      normalizeServerGroup container containerType healthType serverGroup
        = some serverGroup' ∧
      List.Forall₂ (fun i i' => normalizeInstance container containerType healthType i = some i')
        (instances ++ detachedObjects serverGroup) normalized ∧
      serverGroup'.prop "instances" = arr normalized ps' ∧
      serverGroup'.prop "detachedInstances" = arr (normalized.drop instances.length) [] ∧
      serverGroup'.prop "instanceCounts" = obj [
        ("up", num (normalized.countP countsAsUp : Nat)),
        ("down", num (normalized.countP countsAsDown : Nat)),
        ("outOfService", num (normalized.countP countsAsOutOfService : Nat))] ∧
      (∀ i ∈ normalized, Counted i) ∧
      serverGroup'.isObject = true ∧
      ∀ k, k ≠ "account" → k ≠ "region" → k ≠ "detachedInstances" → k ≠ "instances" →
        k ≠ "instanceCounts" → serverGroup'.prop k = serverGroup.prop k := by
  obtain ⟨⟨instances0, ps0, hi0, hobjs⟩, hdet, hsgs, hobj⟩ :=
    wellFormedServerGroup_spec serverGroup hwf
  rw [hi] at hi0
  injection hi0 with e1 e2
  subst e1 e2
  -- the server group after the assignments of account and region
  have hobj1 : ((serverGroup.put "account" (container.prop "account")).put "region"
      (container.prop "region")).isObject = true := by simp [isObject_put, hobj]
  have hframe1 : ∀ k, k ≠ "account" → k ≠ "region" →
      ((serverGroup.put "account" (container.prop "account")).put "region"
        (container.prop "region")).prop k = serverGroup.prop k := by
    intro k ha hr
    rw [prop_put_ne _ _ _ _ hr, prop_put_ne _ _ _ _ ha]
  have hdo : detachedObjects ((serverGroup.put "account" (container.prop "account")).put
      "region" (container.prop "region")) = detachedObjects serverGroup := by
    unfold detachedObjects
    rw [hframe1 _ (by decide) (by decide)]
  obtain ⟨sg2, ps2, hsg2, hi2, hd2, hobj2, hframe2⟩ := attachDetachedInstances_spec
    ((serverGroup.put "account" (container.prop "account")).put "region"
      (container.prop "region")) instances ps
    (by rw [hframe1 _ (by decide) (by decide), hi])
    (by rw [hframe1 _ (by decide) (by decide)]; exact hdet) hobj1
  rw [hdo] at hi2 hd2
  -- the loop over the instances
  obtain ⟨normalized, hmap, hforall⟩ := mapOpt_forall₂
    (normalizeInstance container containerType healthType)
    (fun i i' => normalizeInstance container containerType healthType i = some i')
    (instances ++ detachedObjects serverGroup)
    (fun i hi => by
      have hio : i.isObject = true := by
        rcases List.mem_append.mp hi with h | h
        · exact hobjs i h
        · exact detachedObjects_isObject serverGroup i h
      obtain ⟨i', hi', _⟩ := normalizeInstance_eq container containerType healthType i hio
      exact ⟨i', hi', hi'⟩)
  have hcounted : ∀ i ∈ normalized, Counted i := by
    intro i' hi'
    obtain ⟨i, hmem, hres⟩ := forall₂_mem_right _ _ _ hforall i' hi'
    have hio : i.isObject = true := by
      rcases List.mem_append.mp hmem with h | h
      · exact hobjs i h
      · exact detachedObjects_isObject serverGroup i h
    exact normalizeInstance_counted container containerType healthType i i' hio h1 h2 hres
  have hlen : normalized.length = instances.length + (detachedObjects serverGroup).length := by
    rw [forall₂_length _ _ _ hforall, List.length_append]
  obtain ⟨hi3, hd3, hobj3, hframe3⟩ := withNormalizedInstances_props sg2 normalized
    (detachedObjects serverGroup) hd2 hobj2
  rw [hi2] at hi3
  have hdrop : normalized.length - (detachedObjects serverGroup).length = instances.length := by
    omega
  rw [hdrop] at hd3
  have hown : ownServerGroups (withNormalizedInstances sg2 normalized)
      = some [withNormalizedInstances sg2 normalized] := by
    unfold ownServerGroups
    rw [hframe3 _ (by decide) (by decide), hframe2 _ (by decide) (by decide),
      hframe1 _ (by decide) (by decide), hsgs]
    rfl
  have hupd := updateHealthCounts_eq (withNormalizedInstances sg2 normalized) normalized _
    [withNormalizedInstances sg2 normalized] hi3 hown hcounted
    (fun sg hsg => by
      rw [List.mem_singleton] at hsg
      subst hsg
      exact ⟨normalized, _, hi3, hcounted⟩)
  have hsum : ([withNormalizedInstances sg2 normalized].map fun sg =>
      (elemsOf (sg.prop "instances")).countP countsAsOutOfService).sum
      = normalized.countP countsAsOutOfService := by
    simp only [List.map_cons, List.map_nil, List.sum_cons, List.sum_nil, Nat.add_zero, hi3]
    rfl
  rw [hsum] at hupd
  refine ⟨(withNormalizedInstances sg2 normalized).put "instanceCounts" (obj [
      ("up", num (normalized.countP countsAsUp : Nat)),
      ("down", num (normalized.countP countsAsDown : Nat)),
      ("outOfService", num (normalized.countP countsAsOutOfService : Nat))]),
    normalized, ps2, ?_, hforall, ?_, ?_, ?_, hcounted, ?_, ?_⟩
  · unfold normalizeServerGroup
    simp only [get?_of_isObject hcont, set?_of_isObject hobj, Option.bind_eq_bind,
      Option.some_bind, hsg2, hi2, elems?, hmap, hupd]
  · rw [prop_put_ne _ _ _ _ (by decide), hi3]
    rfl
  · rw [prop_put_ne _ _ _ _ (by decide), hd3]
  · rw [prop_put_self _ _ _ hobj3]
  · rw [isObject_put]; exact hobj3
  · intro k ka kr kd ki kc
    rw [prop_put_ne _ _ _ _ kc, hframe3 _ ki kd, hframe2 _ ki kd, hframe1 _ ka kr]

theorem normalizeInstance_isObject (container : JVal) (containerType healthType : String)
    (inst inst' : JVal)
    (h : normalizeInstance container containerType healthType inst = some inst') :
    inst.isObject = true := by
  unfold normalizeInstance transformInstance at h
  cases inst <;> simp [JVal.get?, JVal.set?] at h ⊢ <;> rfl

/-- What `normalizeInstance` leaves on an instance. -/
theorem normalizeInstance_result (container : JVal) (containerType healthType : String)
    (inst inst' : JVal) (h1 : containerType ≠ "health") (h2 : containerType ≠ "healthState")
    (h : normalizeInstance container containerType healthType inst = some inst') :
    inst'.isObject = true ∧
    inst'.prop "health" = arr [renameHealthy (originalHealth inst)] [("type", str healthType)] ∧
    inst'.prop "healthState"
      = healthStateOf ((renameHealthy (originalHealth inst)).prop "state") ∧
    inst'.prop containerType = arr [container.prop "name"] [] := by
  have hobj := normalizeInstance_isObject _ _ _ _ _ h
  obtain ⟨i2, hi2, hobj2, hh, hs, hc⟩ :=
    normalizeInstance_eq container containerType healthType inst hobj
  rw [h] at hi2
  injection hi2 with hi2
  subst hi2
  exact ⟨hobj2, hh h1, hs h1 h2, hc h1⟩

theorem renamed_isStr_inService (state : JVal) :
    (if state.isStr "healthy" then str "InService" else state).isStr "InService"
      = isUpState state := by
  unfold isUpState
  cases h : state.isStr "healthy"
  · simp
  · have := isStr_eq_true h
    subst this
    rfl

theorem renamed_isStr_outOfService (state : JVal) :
    (if state.isStr "healthy" then str "InService" else state).isStr "OutOfService"
      = state.isStr "OutOfService" := by
  cases h : state.isStr "healthy"
  · simp
  · have := isStr_eq_true h
    subst this
    rfl

theorem healthStateOf_isStr_outOfService (state : JVal) (ht : isTextOrAbsent state = true) :
    (healthStateOf (if state.isStr "healthy" then str "InService" else state)).isStr
      "OutOfService" = hasNoState state := by
  rw [healthStateOf_renamed state ht]
  cases h1 : isUpState state
  · cases h2 : hasNoState state <;> simp <;> rfl
  · have : hasNoState state = false := by
      unfold isUpState at h1
      simp only [Bool.or_eq_true] at h1
      rcases h1 with h | h
      · have e := isStr_eq_true h
        subst e
        rfl
      · have e := isStr_eq_true h
        subst e
        rfl
    simp [this]
    rfl

theorem some_beq_true (b : Bool) : (some b == some true) = b := by
  cases b <;> rfl

/-- The three counts of a normalised instance, in terms of its original state. -/
theorem normalizeInstance_classes (container : JVal) (containerType healthType : String)
    (inst inst' : JVal) (h1 : containerType ≠ "health") (h2 : containerType ≠ "healthState")
    (h : normalizeInstance container containerType healthType inst = some inst') :
    countsAsUp inst' = isUpState (originalState inst) ∧
    countsAsDown inst' = (originalState inst).isStr "OutOfService" ∧
    (isTextOrAbsent (originalState inst) = true →
      countsAsOutOfService inst' = hasNoState (originalState inst)) := by
  have hobj := normalizeInstance_isObject _ _ _ _ _ h
  obtain ⟨ha, hb⟩ := normalizeInstance_counts container containerType healthType inst inst'
    hobj h1 h2 h
  refine ⟨?_, ?_, ?_⟩
  · unfold countsAsUp
    rw [ha, renameHealthy_state]
    show (some _ == some true) = _
    rw [renamed_isStr_inService]
    exact some_beq_true _
  · unfold countsAsDown
    rw [ha, renameHealthy_state]
    show (some _ == some true) = _
    rw [renamed_isStr_outOfService]
    exact some_beq_true _
  · intro ht
    unfold countsAsOutOfService
    rw [hb, renameHealthy_state]
    show (some _ == some true) = _
    rw [healthStateOf_isStr_outOfService ((originalHealth inst).prop "state") ht]
    exact some_beq_true _

theorem states_disjoint (state : JVal) :
    (isUpState state = true → state.isStr "OutOfService" = false ∧ hasNoState state = false) ∧
    (state.isStr "OutOfService" = true → hasNoState state = false) := by
  constructor
  · intro h
    unfold isUpState at h
    simp only [Bool.or_eq_true] at h
    rcases h with h | h
    · have e := isStr_eq_true h
      subst e
      exact ⟨rfl, rfl⟩
    · have e := isStr_eq_true h
      subst e
      exact ⟨rfl, rfl⟩
  · intro h
    have := isStr_eq_true h
    subst this
    rfl

theorem countP_four (xs : List JVal) (f : JVal → JVal) :
    xs.countP (fun i => isUpState (f i)) + xs.countP (fun i => (f i).isStr "OutOfService")
      + xs.countP (fun i => hasNoState (f i)) + xs.countP (fun i => isOtherState (f i))
      = xs.length := by
  induction xs with
  | nil => rfl
  | cons x xs ih =>
    simp only [List.countP_cons, List.length_cons]
    have hd := states_disjoint (f x)
    unfold isOtherState
    cases h1 : isUpState (f x)
    · cases h2 : (f x).isStr "OutOfService"
      · cases h3 : hasNoState (f x) <;> simp [isOtherState] at ih ⊢ <;> omega
      · have := hd.2 h2
        simp [this, isOtherState] at ih ⊢
        omega
    · have := hd.1 h1
      simp [this.1, this.2, isOtherState] at ih ⊢
      omega

theorem detachedObjects_state (serverGroup : JVal) :
    ∀ i ∈ detachedObjects serverGroup, originalState i = undefined := by
  intro i hi
  unfold detachedObjects at hi
  simp only [List.mem_map] at hi
  obtain ⟨_, _, rfl⟩ := hi
  rfl

theorem forall₂_with_mem {α β : Type} (R : α → β → Prop) (xs : List α) (ys : List β)
    (h : List.Forall₂ R xs ys) : List.Forall₂ (fun x y => x ∈ xs ∧ R x y) xs ys := by
  induction h with
  | nil => exact List.Forall₂.nil
  | cons hxy _ ih =>
    exact List.Forall₂.cons ⟨by simp, hxy⟩ (ih.imp fun a b h => ⟨by simp [h.1], h.2⟩)

/-! ## Normalisation of a load balancer -/

theorem mapOpt_eq_some_of_forall₂ {α β : Type} (f : α → Option β) (xs : List α) (ys : List β)
    (h : List.Forall₂ (fun x y => f x = some y) xs ys) : mapOpt f xs = some ys := by
  induction h with
  | nil => rfl
  | cons hxy _ ih => unfold mapOpt; rw [hxy, ih]

theorem flatten_map_arrays (xs : List JVal) (property : String)
    (h : ∀ x ∈ xs, ∃ elems ps, x.prop property = arr elems ps) :
    flatMapProperty xs property = xs.flatMap fun x => elemsOf (x.prop property) := by
  unfold flatMapProperty flatten safeGet
  induction xs with
  | nil => rfl
  | cons x xs ih =>
    obtain ⟨elems, ps, hx⟩ := h x (by simp)
    have ih := ih (fun y hy => h y (by simp [hy]))
    simp only [List.map_cons, List.flatMap_cons, ih, hx]
    rfl

theorem filterNotDisabled_eq (xs : List JVal) :
    filterNotDisabled xs = xs.filter fun x => (x.prop "isDisabled").isBool false := rfl

theorem flatMapProperty_active (serverGroups : List JVal)
    (h : ∀ sg ∈ serverGroups, NormalizedGroup sg) :
    flatMapProperty (filterNotDisabled serverGroups) "instances"
      = concatOfActive serverGroups "instances" ∧
    flatMapProperty (filterNotDisabled serverGroups) "detachedInstances"
      = concatOfActive serverGroups "detachedInstances" ∧
    ∀ i ∈ concatOfActive serverGroups "instances", Counted i := by
  have hmem : ∀ sg ∈ filterNotDisabled serverGroups, NormalizedGroup sg := by
    intro sg hsg
    rw [filterNotDisabled_eq] at hsg
    exact h sg (List.mem_filter.mp hsg).1
  refine ⟨?_, ?_, ?_⟩
  · rw [flatten_map_arrays _ _ (fun sg hsg => by
      obtain ⟨is, ps, _, hi, _⟩ := hmem sg hsg
      exact ⟨is, ps, hi⟩)]
    rfl
  · rw [flatten_map_arrays _ _ (fun sg hsg => by
      obtain ⟨_, _, ds, _, hd, _⟩ := hmem sg hsg
      exact ⟨ds, [], hd⟩)]
    rfl
  · intro i hi
    unfold concatOfActive at hi
    rw [List.mem_flatMap] at hi
    obtain ⟨sg, hsg, hi⟩ := hi
    obtain ⟨is, ps, _, hp, _, hc⟩ := h sg (List.mem_filter.mp hsg).1
    rw [hp] at hi
    exact hc i hi

theorem withActiveInstances_props (container : JVal) (serverGroups : List JVal)
    (hobj : container.isObject = true) :
    (withActiveInstances container serverGroups).isObject = true ∧
    (withActiveInstances container serverGroups).prop "instances"
      = arr (flatMapProperty (filterNotDisabled serverGroups) "instances") [] ∧
    (withActiveInstances container serverGroups).prop "detachedInstances"
      = arr (flatMapProperty (filterNotDisabled serverGroups) "detachedInstances") [] ∧
    ∀ k, k ≠ "provider" → k ≠ "instances" → k ≠ "detachedInstances" →
      (withActiveInstances container serverGroups).prop k = container.prop k := by
  unfold withActiveInstances
  refine ⟨by simp [isObject_put, hobj], ?_, ?_, ?_⟩
  · rw [prop_put_ne _ _ _ _ (by decide), prop_put_self _ _ _ (by simp [isObject_put, hobj])]
  · rw [prop_put_self _ _ _ (by simp [isObject_put, hobj])]
  · intro k h1 h2 h3
    rw [prop_put_ne _ _ _ _ h3, prop_put_ne _ _ _ _ h2, prop_put_ne _ _ _ _ h1]

/-- The counts taken on a load balancer or target group whose own server groups are `own` and
whose instances are gathered from `serverGroups`. -/
theorem updateHealthCounts_active (container : JVal) (own serverGroups : List JVal)
    (ps : Fields) (hown : container.prop "serverGroups" = arr own ps)
    (hn : ∀ sg ∈ own, NormalizedGroup sg) (hs : ∀ sg ∈ serverGroups, NormalizedGroup sg) :
    ∃ container', updateHealthCounts (withActiveInstances container serverGroups)
        = some container' ∧
      container'.isObject = true ∧
      container'.prop "instances" = arr (concatOfActive serverGroups "instances") [] ∧
      container'.prop "detachedInstances"
        = arr (concatOfActive serverGroups "detachedInstances") [] ∧
      container'.prop "instanceCounts" = obj [
        ("up", num ((concatOfActive serverGroups "instances").countP countsAsUp : Nat)),
        ("down", num ((concatOfActive serverGroups "instances").countP countsAsDown : Nat)),
        ("outOfService", num ((own.map fun sg =>
          (elemsOf (sg.prop "instances")).countP countsAsOutOfService).sum : Nat))] ∧
      ∀ k, k ≠ "provider" → k ≠ "instances" → k ≠ "detachedInstances" →
        k ≠ "instanceCounts" → container'.prop k = container.prop k := by
  have hobj : container.isObject = true :=
    isObject_of_prop_ne (k := "serverGroups") (by rw [hown]; simp)
  obtain ⟨ho, hi, hd, hframe⟩ := withActiveInstances_props container serverGroups hobj
  obtain ⟨fi, fd, hc⟩ := flatMapProperty_active serverGroups hs
  rw [fi] at hi
  rw [fd] at hd
  have hownS : ownServerGroups (withActiveInstances container serverGroups) = some own := by
    unfold ownServerGroups
    rw [hframe _ (by decide) (by decide) (by decide), hown]
    rfl
  have hupd := updateHealthCounts_eq (withActiveInstances container serverGroups) _ _ own hi
    hownS hc (fun sg hsg => by
      obtain ⟨is, ps, _, hp, _, hcc⟩ := hn sg hsg
      exact ⟨is, ps, hp, hcc⟩)
  refine ⟨_, hupd, by simp [isObject_put, ho], ?_, ?_, ?_, ?_⟩
  · rw [prop_put_ne _ _ _ _ (by decide), hi]
  · rw [prop_put_ne _ _ _ _ (by decide), hd]
  · rw [prop_put_self _ _ _ ho]
  · intro k h1 h2 h3 h4
    rw [prop_put_ne _ _ _ _ h4, hframe k h1 h2 h3]

theorem findVpc_isSome (vpcId : JVal) (vpcs : List JVal)
    (h : ∀ v ∈ vpcs, v.isObject = true) : ∃ found, findVpc vpcId vpcs = some found := by
  induction vpcs with
  | nil => exact ⟨none, rfl⟩
  | cons v vs ih =>
    obtain ⟨found, hf⟩ := ih (fun y hy => h y (by simp [hy]))
    unfold findVpc
    rw [get?_of_isObject (h v (by simp))]
    simp only
    split
    · exact ⟨_, rfl⟩
    · exact ⟨found, hf⟩

theorem addVpcNameToContainer_spec (vpcs : List JVal) (container : JVal)
    (hobj : container.isObject = true) (h : ∀ v ∈ vpcs, v.isObject = true) :
    ∃ name, addVpcNameToContainer vpcs container = some (container.put "vpcName" name) := by
  obtain ⟨found, hf⟩ := findVpc_isSome (container.prop "vpcId") vpcs h
  unfold addVpcNameToContainer
  simp only [get?_of_isObject hobj, Option.bind_eq_bind, Option.some_bind, hf]
  cases found with
  | none => exact ⟨_, set?_of_isObject hobj _ _⟩
  | some vpc => exact ⟨_, set?_of_isObject hobj _ _⟩

theorem normalizeServerGroup_normalized (container : JVal) (containerType healthType : String)
    (serverGroup : JVal) (hcont : container.isObject = true)
    (h1 : containerType ≠ "health") (h2 : containerType ≠ "healthState")
    (hwf : wellFormedServerGroup serverGroup = true) :
    ∃ serverGroup', normalizeServerGroup container containerType healthType serverGroup
        = some serverGroup' ∧
      NormalizedGroup serverGroup' ∧
      serverGroup'.prop "isDisabled" = serverGroup.prop "isDisabled" := by
  obtain ⟨⟨instances, ps, hi, _⟩, _⟩ := wellFormedServerGroup_spec serverGroup hwf
  obtain ⟨sg', normalized, ps', hres, _, hinst, hdet, _, hc, _, hframe⟩ :=
    normalizeServerGroup_spec container containerType healthType serverGroup instances ps
      hcont h1 h2 hwf hi
  exact ⟨sg', hres, ⟨normalized, ps', _, hinst, hdet, hc⟩,
    hframe _ (by decide) (by decide) (by decide) (by decide) (by decide)⟩

theorem normalizeServerGroups_spec (container : JVal) (containerType healthType : String)
    (serverGroups : List JVal) (ps : Fields) (hcont : container.isObject = true)
    (h1 : containerType ≠ "health") (h2 : containerType ≠ "healthState")
    (hwf : ∀ sg ∈ serverGroups, wellFormedServerGroup sg = true) :
    ∃ normalized,
      normalizeServerGroups (arr serverGroups ps) container containerType healthType
        = some (arr normalized ps) ∧
      List.Forall₂ (fun sg sg' =>
        normalizeServerGroup container containerType healthType sg = some sg' ∧
        sg'.prop "isDisabled" = sg.prop "isDisabled") serverGroups normalized ∧
      ∀ sg ∈ normalized, NormalizedGroup sg := by
  obtain ⟨normalized, hmap, hforall⟩ := mapOpt_forall₂
    (normalizeServerGroup container containerType healthType)
    (fun sg sg' => normalizeServerGroup container containerType healthType sg = some sg' ∧
      NormalizedGroup sg' ∧ sg'.prop "isDisabled" = sg.prop "isDisabled") serverGroups
    (fun sg hsg => by
      obtain ⟨sg', hr, hn, hd⟩ := normalizeServerGroup_normalized container containerType
        healthType sg hcont h1 h2 (hwf sg hsg)
      exact ⟨sg', hr, hr, hn, hd⟩)
  refine ⟨normalized, ?_, hforall.imp (fun _ _ h => ⟨h.1, h.2.2⟩), ?_⟩
  · unfold normalizeServerGroups
    simp only [elems?, Option.bind_eq_bind, Option.some_bind, hmap, Option.pure_def]
    rfl
  · intro sg' hsg'
    obtain ⟨sg, _, hr⟩ := forall₂_mem_right _ _ _ hforall sg' hsg'
    exact hr.2.1

theorem hasWellFormedServerGroups_spec (container : JVal)
    (h : hasWellFormedServerGroups container = true) :
    ∃ serverGroups ps, container.prop "serverGroups" = arr serverGroups ps ∧
      (∀ sg ∈ serverGroups, wellFormedServerGroup sg = true) ∧ container.isObject = true := by
  unfold hasWellFormedServerGroups at h
  cases hp : container.prop "serverGroups" with
  | arr serverGroups ps =>
    rw [hp] at h
    exact ⟨serverGroups, ps, rfl, by simpa using h,
      isObject_of_prop_ne (k := "serverGroups") (by rw [hp]; simp)⟩
  | _ => rw [hp] at h; simp at h

theorem normalizeTargetGroup_spec (vpcs : List JVal) (targetGroup : JVal)
    (hwf : hasWellFormedServerGroups targetGroup = true)
    (hv : ∀ v ∈ vpcs, v.isObject = true) :
    ∃ targetGroup' normalized ps,
      normalizeTargetGroup vpcs targetGroup = some targetGroup' ∧
      targetGroup'.prop "serverGroups" = arr normalized ps ∧
      (∀ sg ∈ normalized, NormalizedGroup sg) := by
  obtain ⟨sgs, ps, hp, hall, hobj⟩ := hasWellFormedServerGroups_spec targetGroup hwf
  obtain ⟨normalized, hnorm, _, hn⟩ := normalizeServerGroups_spec targetGroup "targetGroups"
    "TargetGroup" sgs ps hobj (by decide) (by decide) hall
  have hobj1 : (targetGroup.put "serverGroups" (arr normalized ps)).isObject = true := by
    rw [isObject_put]; exact hobj
  obtain ⟨tg2, hupd, hobj2, _, _, _, hframe⟩ := updateHealthCounts_active
    (targetGroup.put "serverGroups" (arr normalized ps)) normalized normalized ps
    (prop_put_self _ _ _ hobj) hn hn
  obtain ⟨name, hvpc⟩ := addVpcNameToContainer_spec vpcs tg2 hobj2 hv
  refine ⟨tg2.put "vpcName" name, normalized, ps, ?_, ?_, hn⟩
  · unfold normalizeTargetGroup
    simp only [get?_of_isObject hobj, hp, hnorm, Option.bind_eq_bind, Option.some_bind, elems?,
      hupd, hvpc, Option.getD_some, Option.pure_def]
  · rw [prop_put_ne _ _ _ _ (by decide), hframe _ (by decide) (by decide) (by decide)
      (by decide), prop_put_self _ _ _ hobj]

theorem normalizeTargetGroups_spec (vpcs : List JVal) (loadBalancer : JVal) (own : List JVal)
    (hv : ∀ v ∈ vpcs, v.isObject = true)
    (hobj : loadBalancer.isObject = true)
    (htg : (match loadBalancer.prop "targetGroups" with
      | JVal.arr targetGroups _ => targetGroups.all hasWellFormedServerGroups
      | targetGroups => !targetGroups.truthy) = true)
    (hown : ∀ sg ∈ own, NormalizedGroup sg) :
    ∃ loadBalancer' gathered,
      normalizeTargetGroups vpcs loadBalancer own = some (loadBalancer', gathered) ∧
      (∀ sg ∈ gathered, NormalizedGroup sg) ∧
      loadBalancer'.isObject = true ∧
      (∀ k, k ≠ "targetGroups" → loadBalancer'.prop k = loadBalancer.prop k) ∧
      ((loadBalancer.prop "targetGroups").truthy = false →
        gathered = own ∧ loadBalancer' = loadBalancer) ∧
      ∀ targetGroups ps, loadBalancer.prop "targetGroups" = arr targetGroups ps →
        ∃ targetGroups', loadBalancer'.prop "targetGroups" = arr targetGroups' ps ∧
          List.Forall₂ (fun tg tg' => normalizeTargetGroup vpcs tg = some tg')
            targetGroups targetGroups' ∧
          gathered = targetGroups'.flatMap fun tg' => elemsOf (tg'.prop "serverGroups") := by
  cases hp : loadBalancer.prop "targetGroups" with
  | arr targetGroups ps =>
    rw [hp] at htg
    simp only [List.all_eq_true] at htg
    obtain ⟨normalized, hmap, hforall⟩ := mapOpt_forall₂ (normalizeTargetGroup vpcs)
      (fun tg tg' => normalizeTargetGroup vpcs tg = some tg' ∧
        ∃ sgs ps, tg'.prop "serverGroups" = arr sgs ps ∧ ∀ sg ∈ sgs, NormalizedGroup sg)
      targetGroups
      (fun tg htgm => by
        obtain ⟨tg', sgs, ps, hr, hs, hn⟩ := normalizeTargetGroup_spec vpcs tg (htg tg htgm) hv
        exact ⟨tg', hr, hr, sgs, ps, hs, hn⟩)
    have hflat : flatten (normalized.map fun targetGroup => safeGet targetGroup "serverGroups")
        = normalized.flatMap fun tg' => elemsOf (tg'.prop "serverGroups") :=
      flatten_map_arrays normalized "serverGroups" (fun tg' htg' => by
        obtain ⟨_, _, hr⟩ := forall₂_mem_right _ _ _ hforall tg' htg'
        obtain ⟨sgs, ps, hs, _⟩ := hr.2
        exact ⟨sgs, ps, hs⟩)
    refine ⟨loadBalancer.put "targetGroups" (arr normalized ps),
      normalized.flatMap fun tg' => elemsOf (tg'.prop "serverGroups"), ?_, ?_, ?_, ?_, ?_, ?_⟩
    · unfold normalizeTargetGroups
      simp only [hp, JVal.truthy, if_true, elems?, Option.bind_eq_bind, Option.some_bind, hmap,
        Option.pure_def, hflat]
      rfl
    · intro sg hsg
      rw [List.mem_flatMap] at hsg
      obtain ⟨tg', htg', hsg⟩ := hsg
      obtain ⟨_, _, hr⟩ := forall₂_mem_right _ _ _ hforall tg' htg'
      obtain ⟨sgs, ps, hs, hn⟩ := hr.2
      rw [hs] at hsg
      exact hn sg hsg
    · rw [isObject_put]; exact hobj
    · intro k hk
      exact prop_put_ne _ _ _ _ hk
    · intro h
      simp [JVal.truthy] at h
    · intro tgs tps e
      injection e with e1 e2
      subst e1 e2
      exact ⟨normalized, prop_put_self _ _ _ hobj, hforall.imp (fun _ _ h => h.1), rfl⟩
  | _ =>
    rw [hp] at htg
    simp only [Bool.not_eq_true'] at htg
    refine ⟨loadBalancer, own, ?_, hown, hobj, fun _ _ => rfl, fun _ => ⟨rfl, rfl⟩, ?_⟩
    · unfold normalizeTargetGroups
      rw [hp, htg]
      rfl
    · intro tgs tps e
      exact JVal.noConfusion e

theorem wellFormedLoadBalancer_spec (loadBalancer : JVal)
    (h : wellFormedLoadBalancer loadBalancer = true) :
    hasWellFormedServerGroups loadBalancer = true ∧
    (match loadBalancer.prop "targetGroups" with
      | JVal.arr targetGroups _ => targetGroups.all hasWellFormedServerGroups
      | targetGroups => !targetGroups.truthy) = true := by
  unfold wellFormedLoadBalancer at h
  simpa only [Bool.and_eq_true] using h

/-- The state of a well-formed load balancer after `normalizeLoadBalancer`: `own` are its
server groups after normalisation and `gathered` the server groups from which its instances
are taken. -/
theorem normalizeLoadBalancer_spec (vpcs : List JVal) (loadBalancer : JVal)
    (hwf : wellFormedLoadBalancer loadBalancer = true)
    (hv : ∀ v ∈ vpcs, v.isObject = true) :
    ∃ loadBalancer' own ps gathered,
      normalizeLoadBalancer vpcs loadBalancer = some loadBalancer' ∧
      loadBalancer'.isObject = true ∧
      loadBalancer'.prop "serverGroups" = arr own ps ∧
      List.Forall₂ (fun sg sg' =>
        normalizeServerGroup loadBalancer "loadBalancers" "LoadBalancer" sg = some sg' ∧
        sg'.prop "isDisabled" = sg.prop "isDisabled")
        (elemsOf (loadBalancer.prop "serverGroups")) own ∧
      loadBalancer'.prop "instances" = arr (concatOfActive gathered "instances") [] ∧
      loadBalancer'.prop "detachedInstances"
        = arr (concatOfActive gathered "detachedInstances") [] ∧
      loadBalancer'.prop "instanceCounts" = obj [
        ("up", num ((concatOfActive gathered "instances").countP countsAsUp : Nat)),
        ("down", num ((concatOfActive gathered "instances").countP countsAsDown : Nat)),
        ("outOfService", num ((own.map fun sg =>
          (elemsOf (sg.prop "instances")).countP countsAsOutOfService).sum : Nat))] ∧
      ((loadBalancer.prop "targetGroups").truthy = false → gathered = own) ∧
      ∀ targetGroups tps, loadBalancer.prop "targetGroups" = arr targetGroups tps →
        ∃ targetGroups', loadBalancer'.prop "targetGroups" = arr targetGroups' tps ∧
          List.Forall₂ (fun tg tg' => normalizeTargetGroup vpcs tg = some tg')
            targetGroups targetGroups' ∧
          gathered = targetGroups'.flatMap fun tg' => elemsOf (tg'.prop "serverGroups") := by
  obtain ⟨hsgs, htgs⟩ := wellFormedLoadBalancer_spec loadBalancer hwf
  obtain ⟨sgs, ps, hp, hall, hobj⟩ := hasWellFormedServerGroups_spec loadBalancer hsgs
  obtain ⟨own, hnorm, hforall, hn⟩ := normalizeServerGroups_spec loadBalancer "loadBalancers"
    "LoadBalancer" sgs ps hobj (by decide) (by decide) hall
  have hobj1 : (loadBalancer.put "serverGroups" (arr own ps)).isObject = true := by
    rw [isObject_put]; exact hobj
  have htg1 : (loadBalancer.put "serverGroups" (arr own ps)).prop "targetGroups"
      = loadBalancer.prop "targetGroups" := prop_put_ne _ _ _ _ (by decide)
  obtain ⟨lb2, gathered, htgr, hg, hobj2, hframe2, hfalsy, harr⟩ := normalizeTargetGroups_spec
    vpcs (loadBalancer.put "serverGroups" (arr own ps)) own hv hobj1
    (by rw [htg1]; exact htgs) hn
  have hown2 : lb2.prop "serverGroups" = arr own ps := by
    rw [hframe2 _ (by decide), prop_put_self _ _ _ hobj]
  obtain ⟨lb3, hupd, hobj3, hi3, hd3, hc3, hframe3⟩ :=
    updateHealthCounts_active lb2 own gathered ps hown2 hn hg
  obtain ⟨name, hvpc⟩ := addVpcNameToContainer_spec vpcs lb3 hobj3 hv
  have he : elemsOf (loadBalancer.prop "serverGroups") = sgs := by rw [hp]; rfl
  rw [he]
  refine ⟨lb3.put "vpcName" name, own, ps, gathered, ?_, by rw [isObject_put]; exact hobj3,
    ?_, hforall, ?_, ?_, ?_, ?_, ?_⟩
  · unfold normalizeLoadBalancer
    simp only [get?_of_isObject hobj, hp, hnorm, Option.bind_eq_bind, Option.some_bind, elems?,
      htgr, hupd, hvpc]
  · rw [prop_put_ne _ _ _ _ (by decide), hframe3 _ (by decide) (by decide) (by decide)
      (by decide), hown2]
  · rw [prop_put_ne _ _ _ _ (by decide), hi3]
  · rw [prop_put_ne _ _ _ _ (by decide), hd3]
  · rw [prop_put_ne _ _ _ _ (by decide), hc3]
  · intro h
    exact (hfalsy (by rw [htg1]; exact h)).1
  · intro tgs tps e
    obtain ⟨tgs', h1, h2, h3⟩ := harr tgs tps (by rw [htg1]; exact e)
    refine ⟨tgs', ?_, h2, h3⟩
    rw [prop_put_ne _ _ _ _ (by decide), hframe3 _ (by decide) (by decide) (by decide)
      (by decide), h1]

theorem lookup_of_hasField_false (k : String) (fs : Fields) (h : hasField k fs = false) :
    lookup k fs = undefined := by
  induction fs with
  | nil => rfl
  | cons p rest ih =>
    obtain ⟨k', v⟩ := p
    simp only [hasField, List.any_cons, Bool.or_eq_false_iff, beq_eq_false_iff_ne] at h
    simp only [lookup, h.1, if_false]
    exact ih h.2

theorem prop_of_hasKey_false (o : JVal) (k : String) (h : o.hasKey k = false) :
    o.prop k = undefined :=
  lookup_of_hasField_false k _ h

/-! ## Load-balancer names of a GCE server group -/

theorem split_joinWith_comma (names : List String) (hne : names ≠ [])
    (hc : ∀ name ∈ names, ',' ∉ name.data) :
    split (joinWith "," names) ',' = names := by
  induction names with
  | nil => exact absurd rfl hne
  | cons name rest ih =>
    cases rest with
    | nil => exact split_of_not_mem name ',' (hc name (by simp))
    | cons next rest =>
      have h := split_append_sep name (joinWith "," (next :: rest)) ',' (hc name (by simp))
      have e : name ++ "," ++ joinWith "," (next :: rest)
          = name ++ String.singleton ',' ++ joinWith "," (next :: rest) := rfl
      show split (name ++ "," ++ joinWith "," (next :: rest)) ',' = _
      rw [e, h, ih (by simp) (fun n hn => hc n (by simp [hn]))]

theorem joinWith_ne_empty (sep : String) (names : List String) (hne : names ≠ [])
    (hn : ∀ name ∈ names, name ≠ "") : joinWith sep names ≠ "" := by
  cases names with
  | nil => exact absurd rfl hne
  | cons name rest =>
    have h1 : name.data ≠ [] := fun e => hn name (by simp) (String.ext e)
    cases rest with
    | nil => exact hn name (by simp)
    | cons next rest =>
      intro e
      have := congrArg String.data e
      simp [joinWith, String.data_append, h1] at this

theorem extractLoadBalancers_eq (asg first : JVal)
    (h1 : asg.get? "load-balancer-names" = some first) :
    extractLoadBalancers asg = some (arr
      (if (asg.prop "global-load-balancer-names").truthy then
        concatValue (if first.truthy then concatValue [] first else [])
          (asg.prop "global-load-balancer-names")
      else (if first.truthy then concatValue [] first else [])) []) := by
  unfold extractLoadBalancers
  simp only [forEachOpt, addLoadBalancers, h1, get?_of_get? h1 "global-load-balancer-names",
    Option.bind_eq_bind, Option.some_bind, Option.pure_def, Option.map_some']

theorem extractLoadBalancersFromMetadata_joined (metadata : JVal) (first second : List String)
    (h1 : metadata.get? "load-balancer-names" = some (str (joinWith "," first)))
    (h2 : metadata.get? "global-load-balancer-names" = some (str (joinWith "," second)))
    (hc : ∀ name ∈ first ++ second, ',' ∉ name.data ∧ name ≠ "") :
    extractLoadBalancersFromMetadata metadata
      = some (arr ((first ++ second).map str) []) := by
  have hstep : ∀ (names : List String) (acc : List JVal),
      (∀ name ∈ names, ',' ∉ name.data ∧ name ≠ "") →
      (if (str (joinWith "," names)).truthy = true then
        (splitValue (str (joinWith "," names)) ',').bind fun pieces => some (acc ++ pieces)
      else some acc) = some (acc ++ names.map str) := by
    intro names acc h
    by_cases hn : names = []
    · subst hn
      simp [joinWith, JVal.truthy]
    · have ht : (str (joinWith "," names)).truthy = true := by
        simpa [JVal.truthy] using
          joinWith_ne_empty "," names hn (fun n hm => (h n hm).2)
      rw [if_pos ht]
      simp only [splitValue, split_joinWith_comma names hn (fun n hm => (h n hm).1),
        Option.some_bind]
  unfold extractLoadBalancersFromMetadata
  simp only [forEachOpt, addLoadBalancersFromMetadata, h1, h2, Option.bind_eq_bind,
    Option.some_bind, Option.pure_def]
  rw [hstep first [] (fun n hm => hc n (by simp [hm]))]
  simp only [List.nil_append]
  rw [hstep second _ (fun n hm => hc n (by simp [hm]))]
  simp

/-! ## Auto-healing policy of a GCE server group -/

theorem getLast?_cons_of_ne_nil {α : Type} (a : α) (l : List α) (h : l ≠ []) :
    (a :: l).getLast? = l.getLast? := by
  cases l with
  | nil => exact absurd rfl h
  | cons b l => exact List.getLast?_cons_cons

theorem splitChars_last (p : Char → Bool) (dir name : List Char) (sep : Char)
    (hsep : p sep = true) (hname : ∀ x ∈ name, p x = false) :
    ∃ first rest, splitChars p (dir ++ sep :: name) = first :: rest ∧ rest ≠ [] ∧
      rest.getLast? = some name := by
  induction dir with
  | nil =>
    refine ⟨[], [name], ?_, by simp, rfl⟩
    simp [splitChars, hsep, splitChars_of_forall_not p name hname]
  | cons c dir ih =>
    obtain ⟨first, rest, h, hne, hlast⟩ := ih
    by_cases hc : p c = true
    · refine ⟨[], first :: rest, ?_, by simp, ?_⟩
      · simp [splitChars, hc, h]
      · rw [getLast?_cons_of_ne_nil _ _ hne]
        exact hlast
    · refine ⟨c :: first, rest, ?_, hne, hlast⟩
      simp [splitChars, hc, h]

/-- The last piece of `dir ++ name`, where `dir` is empty or ends with the separator and
`name` holds no separator, is `name`. -/
theorem split_getLast (dir name : String) (c : Char) (hname : c ∉ name.data)
    (hdir : dir = "" ∨ ∃ d : String, dir = d ++ String.singleton c) :
    (split (dir ++ name) c).getLast? = some name := by
  rcases hdir with h | ⟨d, h⟩
  · subst h
    rw [show ("" : String) ++ name = name from String.ext (by simp [String.data_append])]
    rw [split_of_not_mem name c hname]
    rfl
  · subst h
    obtain ⟨first, rest, hs, hne, hlast⟩ := splitChars_last (fun x => x == c) d.data name.data c
      (by simp) (fun x hx => by
        have : x ≠ c := fun e => hname (e ▸ hx)
        simpa using this)
    unfold split
    have hd : (d ++ String.singleton c ++ name).data = d.data ++ c :: name.data := by
      simp [String.data_append, String.singleton]
    rw [hd, hs, List.map_cons, getLast?_cons_of_ne_nil _ _ (by simpa using hne),
      List.getLast?_map, hlast]
    rfl

theorem lastSegment_name (dir name : String) (hname : '/' ∉ name.data) (hne : name ≠ "")
    (hdir : dir = "" ∨ ∃ d : String, dir = d ++ "/") :
    lastSegment (str (dir ++ name)) = some (str name) := by
  have ht : (str (dir ++ name)).truthy = true := by
    have : dir ++ name ≠ "" := by
      intro e
      have h1 : name.data ≠ [] := fun h => hne (String.ext h)
      have := congrArg String.data e
      simp [String.data_append, h1] at this
    simpa [JVal.truthy] using this
  unfold lastSegment
  rw [if_pos ht]
  simp only [split_getLast dir name '/' hname hdir, ofStr?]

theorem storeMaxUnavailable_spec (maxUnavailable command policy : JVal)
    (hcmd : command.isObject = true) (hvs : (command.prop "viewState").isObject = true)
    (hp : command.prop "autoHealingPolicy" = policy) (hpo : policy.isObject = true) :
    ∃ command' stored, storeMaxUnavailable maxUnavailable command = some command' ∧
      command'.isObject = true ∧
      command'.prop "autoHealingPolicy" = stored ∧ stored.isObject = true ∧
      (∀ k, k ≠ "maxUnavailable" → stored.prop k = policy.prop k) ∧
      (∀ k, k ≠ "autoHealingPolicy" → k ≠ "viewState" → command'.prop k = command.prop k) := by
  unfold storeMaxUnavailable
  by_cases hm : maxUnavailable.truthy = true
  · simp only [hm, if_true, get?_of_isObject hcmd, hp, set?_of_isObject hpo,
      set?_of_isObject hvs, Option.bind_eq_bind, Option.some_bind, Option.pure_def]
    refine ⟨_, policy.put "maxUnavailable" maxUnavailable, rfl, by simp [isObject_put, hcmd],
      ?_, by simp [isObject_put, hpo], ?_, ?_⟩
    · rw [prop_put_ne _ _ _ _ (by decide), prop_put_self _ _ _ hcmd]
    · intro k hk
      exact prop_put_ne _ _ _ _ hk
    · intro k h1 h2
      rw [prop_put_ne _ _ _ _ h2, prop_put_ne _ _ _ _ h1]
  · simp only [hm, if_false]
    exact ⟨command, policy, rfl, hcmd, hp, hpo, fun _ _ => rfl, fun _ _ _ => rfl⟩

theorem populateAutoHealingPolicy_spec (serverGroup command policy : JVal) (name : String)
    (hsg : serverGroup.get? "autoHealingPolicy" = some policy)
    (hpt : policy.truthy = true)
    (hseg : lastSegment (policy.prop "healthCheck") = some (str name)) (hne : name ≠ "")
    (hcmd : command.isObject = true) (hvs : (command.prop "viewState").isObject = true) :
    ∃ command' stored, populateAutoHealingPolicy serverGroup command = some command' ∧
      command'.get? "autoHealingPolicy" = some stored ∧ stored.isObject = true ∧
      stored.get? "healthCheck" = some (str name) ∧
      stored.get? "initialDelaySec" = some (policy.prop "initialDelaySec") ∧
      (∀ k, k ≠ "autoHealingPolicy" → k ≠ "viewState" → command'.prop k = command.prop k) := by
  have ht : (str name).truthy = true := by simpa [JVal.truthy] using hne
  have hcmd1 : (command.put "autoHealingPolicy" (obj [("healthCheck", str name),
      ("initialDelaySec", policy.prop "initialDelaySec")])).isObject = true := by
    rw [isObject_put]; exact hcmd
  obtain ⟨command', stored, hres, hobj', hst, hso, hsf, hcf⟩ := storeMaxUnavailable_spec
    (policy.prop "maxUnavailable")
    (command.put "autoHealingPolicy" (obj [("healthCheck", str name),
      ("initialDelaySec", policy.prop "initialDelaySec")]))
    (obj [("healthCheck", str name), ("initialDelaySec", policy.prop "initialDelaySec")])
    hcmd1 (by rw [prop_put_ne _ _ _ _ (by decide)]; exact hvs)
    (prop_put_self _ _ _ hcmd) rfl
  refine ⟨command', stored, ?_, by rw [get?_of_isObject hobj', hst], hso, ?_, ?_, ?_⟩
  · unfold populateAutoHealingPolicy
    simp only [hsg, hpt, if_true, hseg, ht, set?_of_isObject hcmd, Option.bind_eq_bind,
      Option.some_bind, hres]
  · rw [get?_of_isObject hso, hsf _ (by decide)]; rfl
  · rw [get?_of_isObject hso, hsf _ (by decide)]; rfl
  · intro k h1 h2
    rw [hcf k h1 h2, prop_put_ne _ _ _ _ h1]

/-! ## Disks of a GCE server group -/

theorem countWhere_total (p : JVal → Option Bool) (q : JVal → Bool) (xs : List JVal)
    (h : ∀ x ∈ xs, p x = some (q x)) : countWhere p xs = some (xs.countP q) := by
  induction xs with
  | nil => rfl
  | cons x xs ih =>
    have hx := h x (by simp)
    have ih := ih (fun y hy => h y (by simp [hy]))
    unfold countWhere
    rw [hx, ih]
    cases hq : q x <;> simp [List.countP_cons, hq]

theorem findOpt_total (p : JVal → Option Bool) (q : JVal → Bool) (xs : List JVal)
    (h : ∀ x ∈ xs, p x = some (q x)) : findOpt p xs = some (xs.find? q) := by
  induction xs with
  | nil => rfl
  | cons x xs ih =>
    have hx := h x (by simp)
    have ih := ih (fun y hy => h y (by simp [hy]))
    unfold findOpt
    rw [hx]
    cases hq : q x
    · simp [List.find?_cons, hq, ih]
    · simp [List.find?_cons, hq]

theorem isObject_of_isText_prop {o : JVal} {k : String} (h : isText (o.prop k) = true) :
    o.isObject = true :=
  isObject_of_prop_ne (k := k) (by
    intro e; rw [e] at h; simp [isText] at h)

theorem startsWith?_of_isText (v : JVal) (pre : String) (h : isText v = true) :
    startsWith? v pre = some (isTextWithPrefix pre v) := by
  cases v <;> simp_all [isText, startsWith?, isTextWithPrefix]

theorem existing_predicates (disk : JVal) (h : isText (existingDiskType disk) = true) :
    isLocalSSDExisting disk = some ((existingDiskType disk).isStr "local-ssd") ∧
    isPersistentExisting disk = some (isTextWithPrefix "pd-" (existingDiskType disk)) ∧
    disk.truthy = true := by
  have h1 : (disk.prop "initializeParams").isObject = true := isObject_of_isText_prop h
  have h2 : disk.isObject = true :=
    isObject_of_prop_ne (k := "initializeParams") (by
      intro e; rw [e] at h1; simp [JVal.isObject] at h1)
  refine ⟨?_, ?_, truthy_of_isObject h2⟩
  · unfold isLocalSSDExisting
    simp only [get?_of_isObject h2, get?_of_isObject h1, Option.bind_eq_bind, Option.some_bind,
      Option.pure_def]
    rfl
  · unfold isPersistentExisting
    simp only [get?_of_isObject h2, get?_of_isObject h1, Option.bind_eq_bind, Option.some_bind]
    exact startsWith?_of_isText _ _ h

theorem pipeline_predicates (disk : JVal) (h : isText (disk.prop "type") = true) :
    isLocalSSDPipeline disk = some ((disk.prop "type").isStr "local-ssd") ∧
    isPersistentPipeline disk = some (isTextWithPrefix "pd-" (disk.prop "type")) ∧
    disk.truthy = true := by
  have h2 : disk.isObject = true := isObject_of_isText_prop h
  refine ⟨?_, ?_, truthy_of_isObject h2⟩
  · unfold isLocalSSDPipeline
    simp only [get?_of_isObject h2, Option.bind_eq_bind, Option.some_bind, Option.pure_def]
  · unfold isPersistentPipeline
    simp only [get?_of_isObject h2, Option.bind_eq_bind, Option.some_bind]
    exact startsWith?_of_isText _ _ h

theorem calculateOverriddenStorageDescription_spec (objectText : JVal → String)
    (details command : JVal) (hs : (details.prop "storage").isObject = true)
    (hcmd : command.isObject = true) (hvs : (command.prop "viewState").isObject = true) :
    ∃ command', calculateOverriddenStorageDescription objectText details command
        = some command' ∧
      command'.isObject = true ∧ (command'.prop "viewState").isObject = true ∧
      ∀ k, k ≠ "viewState" → command'.prop k = command.prop k := by
  have hd : details.isObject = true :=
    isObject_of_prop_ne (k := "storage") (by
      intro e; rw [e] at hs; simp [JVal.isObject] at hs)
  have hput : ∀ v, ((command.put "viewState" v).isObject = true ∧
      ((command.put "viewState" v).prop "viewState") = v ∧
      ∀ k, k ≠ "viewState" → (command.put "viewState" v).prop k = command.prop k) :=
    fun v => ⟨by rw [isObject_put]; exact hcmd, prop_put_self _ _ _ hcmd,
      fun k hk => prop_put_ne _ _ _ _ hk⟩
  unfold calculateOverriddenStorageDescription
  simp only [get?_of_isObject hd, get?_of_isObject hs, Option.bind_eq_bind, Option.some_bind,
    set?_of_isObject hvs, Option.pure_def]
  split
  · split
    · exact ⟨_, rfl, (hput _).1, by rw [(hput _).2.1, isObject_put]; exact hvs, (hput _).2.2⟩
    · exact ⟨_, rfl, hcmd, hvs, fun _ _ => rfl⟩
  · split
    · exact ⟨_, rfl, (hput _).1, by rw [(hput _).2.1, isObject_put]; exact hvs, (hput _).2.2⟩
    · exact ⟨_, rfl, hcmd, hvs, fun _ _ => rfl⟩

theorem storeInstanceTypeDetails_spec (services : GceServices) (command : JVal)
    (hs : HasStorage services)
    (hcmd : command.isObject = true) (hvs : (command.prop "viewState").isObject = true) :
    ∃ command', storeInstanceTypeDetails services command = some command' ∧
      command'.isObject = true ∧ (command'.prop "viewState").isObject = true ∧
      ∀ k, k ≠ "viewState" → command'.prop k = command.prop k := by
  unfold storeInstanceTypeDetails
  simp only [set?_of_isObject hvs, Option.bind_eq_bind, Option.some_bind]
  obtain ⟨command', h, ho, hv, hf⟩ := calculateOverriddenStorageDescription_spec
    services.objectText
    (services.instanceTypeDetails (command.prop "selectedProvider")
      (if lodashStartsWith services.objectText (command.prop "instanceType") "custom"
        then str "buildCustom" else command.prop "instanceType"))
    (command.put "viewState" ((command.prop "viewState").put "instanceTypeDetails"
      (services.instanceTypeDetails (command.prop "selectedProvider")
        (if lodashStartsWith services.objectText (command.prop "instanceType") "custom"
          then str "buildCustom" else command.prop "instanceType"))))
    (hs _ _) (by rw [isObject_put]; exact hcmd)
    (by rw [prop_put_self _ _ _ hcmd, isObject_put]; exact hvs)
  exact ⟨command', h, ho, hv, fun k hk => by rw [hf k hk, prop_put_ne _ _ _ _ hk]⟩

theorem storePersistentDisk_spec (services : GceServices) (command : JVal)
    (found : Option (JVal × JVal)) (hs : HasStorage services)
    (hcmd : command.isObject = true) (hvs : (command.prop "viewState").isObject = true) :
    ∃ command', storePersistentDisk services command found = some command' ∧
      command'.isObject = true ∧ (command'.prop "viewState").isObject = true ∧
      command'.prop "persistentDiskType" = (found.map Prod.fst).getD (str "pd-ssd") ∧
      command'.prop "persistentDiskSizeGb" = (found.map Prod.snd).getD (num 10) ∧
      ∀ k, k ≠ "viewState" → k ≠ "persistentDiskType" → k ≠ "persistentDiskSizeGb" →
        command'.prop k = command.prop k := by
  have hput : ∀ t s, ((command.put "persistentDiskType" t).put "persistentDiskSizeGb" s).isObject
        = true ∧
      ((command.put "persistentDiskType" t).put "persistentDiskSizeGb" s).prop
        "persistentDiskType" = t ∧
      ((command.put "persistentDiskType" t).put "persistentDiskSizeGb" s).prop
        "persistentDiskSizeGb" = s ∧
      ∀ k, k ≠ "persistentDiskType" → k ≠ "persistentDiskSizeGb" →
        ((command.put "persistentDiskType" t).put "persistentDiskSizeGb" s).prop k
          = command.prop k := by
    intro t s
    refine ⟨by simp [isObject_put, hcmd], ?_, ?_, ?_⟩
    · rw [prop_put_ne _ _ _ _ (by decide), prop_put_self _ _ _ hcmd]
    · rw [prop_put_self _ _ _ (by simp [isObject_put, hcmd])]
    · intro k h1 h2
      rw [prop_put_ne _ _ _ _ h2, prop_put_ne _ _ _ _ h1]
  cases found with
  | none =>
    obtain ⟨h1, h2, h3, h4⟩ := hput (str "pd-ssd") (num 10)
    exact ⟨_, rfl, h1, by rw [h4 _ (by decide) (by decide)]; exact hvs, h2, h3,
      fun k _ hb hc => h4 k hb hc⟩
  | some pair =>
    obtain ⟨t, s⟩ := pair
    obtain ⟨h1, h2, h3, h4⟩ := hput t s
    obtain ⟨command', h, ho, hv, hf⟩ := storeInstanceTypeDetails_spec services _ hs h1
      (by rw [h4 _ (by decide) (by decide)]; exact hvs)
    refine ⟨command', h, ho, hv, ?_, ?_, ?_⟩
    · rw [hf _ (by decide), h2]; rfl
    · rw [hf _ (by decide), h3]; rfl
    · intro k ha hb hc
      rw [hf k ha, h4 k hb hc]

theorem populateDisksFromExisting_spec (services : GceServices) (disks : List JVal)
    (ps : Fields) (command : JVal) (hs : HasStorage services)
    (hcmd : command.isObject = true) (hvs : (command.prop "viewState").isObject = true)
    (htyped : ∀ disk ∈ disks, isText (existingDiskType disk) = true) :
    ∃ command', populateDisksFromExisting services (arr disks ps) command = some command' ∧
      command'.isObject = true ∧ (command'.prop "viewState").isObject = true ∧
      command'.prop "localSSDCount"
        = num (disks.countP (fun disk => (existingDiskType disk).isStr "local-ssd") : Nat) ∧
      command'.prop "persistentDiskType"
        = ((disks.find? fun disk => isTextWithPrefix "pd-" (existingDiskType disk)).map
          existingDiskType).getD (str "pd-ssd") ∧
      command'.prop "persistentDiskSizeGb"
        = ((disks.find? fun disk => isTextWithPrefix "pd-" (existingDiskType disk)).map
          existingDiskSize).getD (num 10) ∧
      ∀ k, k ≠ "viewState" → k ≠ "persistentDiskType" → k ≠ "persistentDiskSizeGb" →
        k ≠ "localSSDCount" → command'.prop k = command.prop k := by
  have hcount := countWhere_total isLocalSSDExisting
    (fun disk => (existingDiskType disk).isStr "local-ssd") disks
    (fun d hd => (existing_predicates d (htyped d hd)).1)
  have hfind := findOpt_total isPersistentExisting
    (fun disk => isTextWithPrefix "pd-" (existingDiskType disk)) disks
    (fun d hd => (existing_predicates d (htyped d hd)).2.1)
  have hcmd1 : (command.put "localSSDCount"
      (num (disks.countP (fun disk => (existingDiskType disk).isStr "local-ssd") : Nat))).isObject
      = true := by rw [isObject_put]; exact hcmd
  have hvs1 : ((command.put "localSSDCount"
      (num (disks.countP (fun disk => (existingDiskType disk).isStr "local-ssd") : Nat))).prop
      "viewState").isObject = true := by
    rw [prop_put_ne _ _ _ _ (by decide)]; exact hvs
  unfold populateDisksFromExisting
  simp only [collection, hcount, hfind, set?_of_isObject hcmd, Option.bind_eq_bind,
    Option.some_bind]
  cases hf : disks.find? fun disk => isTextWithPrefix "pd-" (existingDiskType disk) with
  | none =>
    obtain ⟨command', h, ho, hv, ht, hz, hfr⟩ := storePersistentDisk_spec services _ none hs
      hcmd1 hvs1
    refine ⟨command', h, ho, hv, ?_, ht, hz, ?_⟩
    · rw [hfr _ (by decide) (by decide) (by decide), prop_put_self _ _ _ hcmd]
    · intro k ha hb hc hd
      rw [hfr k ha hb hc, prop_put_ne _ _ _ _ hd]
  | some disk =>
    have hmem := List.mem_of_find?_eq_some hf
    have htr := (existing_predicates disk (htyped disk hmem)).2.2
    simp only [htr, if_true]
    obtain ⟨command', h, ho, hv, ht, hz, hfr⟩ := storePersistentDisk_spec services _
      (some ((disk.prop "initializeParams").prop "diskType",
        (disk.prop "initializeParams").prop "diskSizeGb")) hs hcmd1 hvs1
    refine ⟨command', h, ho, hv, ?_, ht, hz, ?_⟩
    · rw [hfr _ (by decide) (by decide) (by decide), prop_put_self _ _ _ hcmd]
    · intro k ha hb hc hd
      rw [hfr k ha hb hc, prop_put_ne _ _ _ _ hd]

theorem populateDisksFromPipeline_spec (services : GceServices) (disks : List JVal)
    (ps : Fields) (command : JVal) (hs : HasStorage services)
    (hcmd : command.isObject = true) (hvs : (command.prop "viewState").isObject = true)
    (htyped : ∀ disk ∈ disks, isText (disk.prop "type") = true) :
    ∃ command', populateDisksFromPipeline services (arr disks ps) command = some command' ∧
      command'.isObject = true ∧ (command'.prop "viewState").isObject = true ∧
      command'.prop "localSSDCount"
        = num (disks.countP (fun disk => (disk.prop "type").isStr "local-ssd") : Nat) ∧
      command'.prop "persistentDiskType"
        = ((disks.find? fun disk => isTextWithPrefix "pd-" (disk.prop "type")).map
          fun disk => disk.prop "type").getD (str "pd-ssd") ∧
      command'.prop "persistentDiskSizeGb"
        = ((disks.find? fun disk => isTextWithPrefix "pd-" (disk.prop "type")).map
          fun disk => disk.prop "sizeGb").getD (num 10) ∧
      ∀ k, k ≠ "viewState" → k ≠ "persistentDiskType" → k ≠ "persistentDiskSizeGb" →
        k ≠ "localSSDCount" → command'.prop k = command.prop k := by
  have hcount := countWhere_total isLocalSSDPipeline
    (fun disk => (disk.prop "type").isStr "local-ssd") disks
    (fun d hd => (pipeline_predicates d (htyped d hd)).1)
  have hfind := findOpt_total isPersistentPipeline
    (fun disk => isTextWithPrefix "pd-" (disk.prop "type")) disks
    (fun d hd => (pipeline_predicates d (htyped d hd)).2.1)
  have hcmd1 : (command.put "localSSDCount"
      (num (disks.countP (fun disk => (disk.prop "type").isStr "local-ssd") : Nat))).isObject
      = true := by rw [isObject_put]; exact hcmd
  have hvs1 : ((command.put "localSSDCount"
      (num (disks.countP (fun disk => (disk.prop "type").isStr "local-ssd") : Nat))).prop
      "viewState").isObject = true := by
    rw [prop_put_ne _ _ _ _ (by decide)]; exact hvs
  unfold populateDisksFromPipeline
  simp only [collection, hcount, hfind, set?_of_isObject hcmd, Option.bind_eq_bind,
    Option.some_bind]
  cases hf : disks.find? fun disk => isTextWithPrefix "pd-" (disk.prop "type") with
  | none =>
    obtain ⟨command', h, ho, hv, ht, hz, hfr⟩ := storePersistentDisk_spec services _ none hs
      hcmd1 hvs1
    refine ⟨command', h, ho, hv, ?_, ht, hz, ?_⟩
    · rw [hfr _ (by decide) (by decide) (by decide), prop_put_self _ _ _ hcmd]
    · intro k ha hb hc hd
      rw [hfr k ha hb hc, prop_put_ne _ _ _ _ hd]
  | some disk =>
    have hmem := List.mem_of_find?_eq_some hf
    have htr := (pipeline_predicates disk (htyped disk hmem)).2.2
    simp only [htr, if_true]
    obtain ⟨command', h, ho, hv, ht, hz, hfr⟩ := storePersistentDisk_spec services _
      (some (disk.prop "type", disk.prop "sizeGb")) hs hcmd1 hvs1
    refine ⟨command', h, ho, hv, ?_, ht, hz, ?_⟩
    · rw [hfr _ (by decide) (by decide) (by decide), prop_put_self _ _ _ hcmd]
    · intro k ha hb hc hd
      rw [hfr k ha hb hc, prop_put_ne _ _ _ _ hd]

/-! ## Instance category of a GCE command -/

theorem assign_assign (k : String) (a b : JVal) (fs : Fields) :
    assign k b (assign k a fs) = assign k b fs := by
  induction fs with
  | nil => simp [assign]
  | cons p rest ih =>
    obtain ⟨k', v⟩ := p
    by_cases h : k' = k
    · simp [assign, h]
    · simp [assign, h, ih]

theorem put_put (o : JVal) (k : String) (a b : JVal) : (o.put k a).put k b = o.put k b := by
  cases o <;> simp [JVal.put, assign_assign]

theorem forEachOpt_append {α σ : Type} (f : σ → α → Option σ) (s : σ) (xs ys : List α) :
    forEachOpt f s (xs ++ ys) = (forEachOpt f s xs).bind fun s' => forEachOpt f s' ys := by
  induction xs generalizing s with
  | nil => rfl
  | cons x xs ih =>
    simp only [List.cons_append, forEachOpt]
    cases f s x with
    | none => rfl
    | some s' => exact ih s'

theorem forEachOpt_noop {α σ : Type} (f : σ → α → Option σ) (s : σ) (xs : List α)
    (h : ∀ x ∈ xs, f s x = some s) : forEachOpt f s xs = some s := by
  induction xs with
  | nil => rfl
  | cons x xs ih =>
    simp only [forEachOpt, h x (by simp)]
    exact ih (fun y hy => h y (by simp [hy]))

/-- A loop whose callback applies the same idempotent update on every hit. -/
theorem forEachOpt_update {α σ : Type} (f : σ → α → Option σ) (hit : α → Bool)
    (upd : σ → σ) (Inv : σ → Prop) (xs : List α) (s : σ)
    (hf : ∀ s x, x ∈ xs → Inv s → f s x = some (if hit x then upd s else s))
    (hinv : ∀ s, Inv s → Inv (upd s)) (hidem : ∀ s, Inv s → upd (upd s) = upd s)
    (hs : Inv s) :
    forEachOpt f s xs = some (if xs.any hit then upd s else s) := by
  induction xs generalizing s with
  | nil => rfl
  | cons x xs ih =>
    have ih := fun s hs => ih s (fun s y hy => hf s y (by simp [hy])) hs
    simp only [forEachOpt, hf s x (by simp) hs, List.any_cons]
    by_cases hx : hit x = true
    · simp only [hx, if_true, Bool.true_or]
      rw [ih _ (hinv s hs), hidem s hs]
      split <;> rfl
    · simp only [hx, Bool.false_eq_true, if_false, Bool.false_or]
      exact ih s hs

/-- The invariant of the loops of `determineInstanceCategoryFromInstanceType`. -/
theorem withInstanceProfile_inv (command profile wanted : JVal)
    (h : command.isObject = true ∧ (command.prop "viewState").isObject = true ∧
      command.prop "instanceType" = wanted) :
    (withInstanceProfile command profile).isObject = true ∧
    ((withInstanceProfile command profile).prop "viewState").isObject = true ∧
    (withInstanceProfile command profile).prop "instanceType" = wanted := by
  unfold withInstanceProfile
  refine ⟨by rw [isObject_put]; exact h.1, ?_, ?_⟩
  · rw [prop_put_self _ _ _ h.1, isObject_put]; exact h.2.1
  · rw [prop_put_ne _ _ _ _ (by decide)]; exact h.2.2

theorem withInstanceProfile_idem (command a b : JVal) (h : command.isObject = true) :
    withInstanceProfile (withInstanceProfile command a) b = withInstanceProfile command b := by
  unfold withInstanceProfile
  rw [prop_put_self _ _ _ h, put_put, put_put]

theorem visitInstanceType_eq (category command instanceType wanted : JVal)
    (h : command.isObject = true ∧ (command.prop "viewState").isObject = true ∧
      command.prop "instanceType" = wanted)
    (ht : instanceType.isObject = true) :
    visitInstanceType category command instanceType
      = some (if strictEq (instanceType.prop "name") wanted
        then withInstanceProfile command (category.prop "type") else command) := by
  unfold visitInstanceType
  simp only [get?_of_isObject ht, get?_of_isObject h.1, h.2.2, Option.bind_eq_bind,
    Option.some_bind, set?_of_isObject h.2.1, Option.pure_def]
  split <;> rfl

theorem visitCategory_eq (command category wanted : JVal)
    (h : command.isObject = true ∧ (command.prop "viewState").isObject = true ∧
      command.prop "instanceType" = wanted)
    (hwf : wellFormedCategory category = true) :
    visitCategory command category
      = some (if categoryLists wanted category
        then withInstanceProfile command (category.prop "type") else command) := by
  unfold wellFormedCategory at hwf
  cases hp : category.prop "families" with
  | arr families ps =>
    rw [hp] at hwf
    simp only [List.all_eq_true] at hwf
    have hco : category.isObject = true :=
      isObject_of_prop_ne (k := "families") (by rw [hp]; simp)
    unfold visitCategory
    simp only [get?_of_isObject hco, hp, elems?, Option.bind_eq_bind, Option.some_bind]
    have hfam : ∀ s family, family ∈ families →
        (s.isObject = true ∧ (s.prop "viewState").isObject = true ∧
          s.prop "instanceType" = wanted) →
        visitFamily category s family
          = some (if (elemsOf (family.prop "instanceTypes")).any (fun instanceType =>
              strictEq (instanceType.prop "name") wanted)
            then withInstanceProfile s (category.prop "type") else s) := by
      intro s family hmem hs
      have hf := hwf family hmem
      cases hq : family.prop "instanceTypes" with
      | arr instanceTypes qs =>
        rw [hq] at hf
        simp only [List.all_eq_true] at hf
        have hfo : family.isObject = true :=
          isObject_of_prop_ne (k := "instanceTypes") (by rw [hq]; simp)
        unfold visitFamily
        simp only [get?_of_isObject hfo, hq, elems?, Option.bind_eq_bind, Option.some_bind]
        exact forEachOpt_update (visitInstanceType category)
          (fun instanceType => strictEq (instanceType.prop "name") wanted)
          (fun s => withInstanceProfile s (category.prop "type"))
          (fun s => s.isObject = true ∧ (s.prop "viewState").isObject = true ∧
            s.prop "instanceType" = wanted) instanceTypes s
          (fun s t ht hs => visitInstanceType_eq category s t wanted hs (hf t ht))
          (fun s hs => withInstanceProfile_inv s _ wanted hs)
          (fun s hs => withInstanceProfile_idem s _ _ hs.1) hs
      | _ => rw [hq] at hf; simp at hf
    have := forEachOpt_update (visitFamily category)
      (fun family => (elemsOf (family.prop "instanceTypes")).any (fun instanceType =>
        strictEq (instanceType.prop "name") wanted))
      (fun s => withInstanceProfile s (category.prop "type"))
      (fun s => s.isObject = true ∧ (s.prop "viewState").isObject = true ∧
        s.prop "instanceType" = wanted) families command hfam
      (fun s hs => withInstanceProfile_inv s _ wanted hs)
      (fun s hs => withInstanceProfile_idem s _ _ hs.1) h
    rw [this]
    unfold categoryLists
    rw [hp]
    rfl
  | _ => rw [hp] at hwf; simp at hwf

/-! ## Credentials of a new GCE command -/

theorem put_isObject_prop (command : JVal) (k : String) (v : JVal)
    (h : command.isObject = true) :
    (command.put k v).isObject = true ∧ (command.put k v).prop k = v :=
  ⟨by rw [isObject_put]; exact h, prop_put_self _ _ _ h⟩

namespace Heap

end Heap

namespace Heap

end Heap

namespace Heap

end Heap

namespace Heap

end Heap

namespace Heap

/-- The assignment `pipelineCluster.strategy = pipelineCluster.strategy || ''`, made on the
cluster itself instead of on its deep copy, changes the cluster: the model tells an object
from its copy. -/
theorem defaultStrategy_writes_its_argument :
    (samplePipelineHeap[0]?).map (fun o => (o.get "strategy").shallow) = some JVal.undefined ∧
    (defaultStrategy samplePipelineHeap (HVal.ref 0)).bind (fun h =>
        (h[0]?).map fun o => (o.get "strategy").shallow) = some (JVal.str "") :=
  ⟨rfl, rfl⟩

end Heap

/-! ## Claims -/

/-- C1 (amended): for every classic load balancer whose `elb.healthCheck.target` contains a
colon and has no slash before its first colon (and whose listener block does not throw),
`convertClassicLoadBalancerForEditing` returns a `toEdit` in which `healthCheckProtocol` is
the text before the first colon, `healthCheckPort` is built from the text between the first
colon and the first slash (to the end of the string when there is no slash), and
`healthCheckPath` is the text from the first slash to the end (empty when there is none). -/
theorem C1_healthCheck_target_split (js : Builtins) (loadBalancer elb healthCheck : JVal) (target : String)
    (hlb : loadBalancer.get? "elb" = some elb)
    (helb : elb.get? "healthCheck" = some healthCheck)
    (hhc : healthCheck.get? "target" = some (str target))
    (hl : (convertClassicListeners elb []).isSome)
    (hcolon : ':' ∈ target.data)
    (hslash : '/' ∉ (textBeforeFirst ':' target).data) :
    ∃ toEdit after, convertClassicLoadBalancerForEditing js loadBalancer = some (toEdit, after) ∧
      toEdit.get? "healthCheckProtocol" = some (str (textBeforeFirst ':' target)) ∧
      toEdit.get? "healthCheckPort"
        = some (healthCheckPortOf js (textBetweenFirst ':' '/' target)) ∧
      toEdit.get? "healthCheckPath" = some (str (textFromFirst '/' target)) := by
  have e1 := prop_of_get? hlb
  have e2 := prop_of_get? helb
  have e3 := prop_of_get? hhc
  have hT : elb.truthy = true :=
    truthy_of_isObject (isObject_of_prop_ne (k := "healthCheck") (by
      rw [e2]; intro e; rw [e] at hhc; simp [get?] at hhc))
  have htne : target ≠ "" := by
    intro e; rw [e] at hcolon; simp at hcolon
  obtain ⟨te1, elb1, heq, _, hk2⟩ := convertClassicListeners_spec elb
    (withSecurityGroupsAndVpc elb (classicToEdit loadBalancer)) hl
  have h2 : (elb1.prop "healthCheck").prop "target" = str target := by
    rw [hk2 _ (by decide), e2, e3]
  obtain ⟨te2, hte, hp1, hp2, hp3⟩ :=
    convertClassicHealthCheck_split js elb1 te1 target _ _ _ h2 htne
      (splitHealthCheckTarget_eq target hcolon hslash)
  rw [convertClassic_unfold js loadBalancer elb hlb hT, heq]
  simp only [Option.some_bind, hte]
  exact ⟨_, _, rfl, by simp [get?, JVal.prop, JVal.props, hp1],
    by simp [get?, JVal.prop, JVal.props, hp2], by simp [get?, JVal.prop, JVal.props, hp3]⟩

/-- C1 (witness): the target `HTTP:80/health` splits into `HTTP`, port 80 and `/health`. -/
theorem C1_healthCheck_target_split_witness :
    ∃ toEdit after,
      convertClassicLoadBalancerForEditing sampleBuiltins
        (sampleClassicLoadBalancer "HTTP:80/health") = some (toEdit, after) ∧
      toEdit.get? "healthCheckProtocol" = some (str (textBeforeFirst ':' "HTTP:80/health")) ∧
      toEdit.get? "healthCheckPort"
        = some (healthCheckPortOf sampleBuiltins (textBetweenFirst ':' '/' "HTTP:80/health")) ∧
      toEdit.get? "healthCheckPath" = some (str (textFromFirst '/' "HTTP:80/health")) :=
  C1_healthCheck_target_split sampleBuiltins (sampleClassicLoadBalancer "HTTP:80/health")
    (sampleElb "HTTP:80/health") (sampleHealthCheck "HTTP:80/health")
    "HTTP:80/health" rfl rfl rfl rfl (by decide) (by decide)

/-- C1 (counterexample): the claim as stated, for every target that contains a colon, fails
for the target `a/b:c`, whose first slash precedes its first colon: `substring(4, 1)` swaps
its arguments, so the port text is `/b:` and not the text between the two delimiters. -/
theorem C1_counterexample :
    ¬ ∀ (js : Builtins) (loadBalancer elb healthCheck : JVal) (target : String),
      loadBalancer.get? "elb" = some elb →
      elb.get? "healthCheck" = some healthCheck →
      healthCheck.get? "target" = some (str target) →
      (convertClassicListeners elb []).isSome →
      ':' ∈ target.data →
      ∃ toEdit after,
        convertClassicLoadBalancerForEditing js loadBalancer = some (toEdit, after) ∧
        toEdit.get? "healthCheckProtocol" = some (str (textBeforeFirst ':' target)) ∧
        toEdit.get? "healthCheckPort"
          = some (healthCheckPortOf js (textBetweenFirst ':' '/' target)) ∧
        toEdit.get? "healthCheckPath" = some (str (textFromFirst '/' target)) := by
  intro h
  obtain ⟨toEdit, after, heq, _, hport, _⟩ :=
    h sampleBuiltins (obj [("elb", obj [("healthCheck", obj [("target", str "a/b:c")])])])
      (obj [("healthCheck", obj [("target", str "a/b:c")])])
      (obj [("target", str "a/b:c")]) "a/b:c" rfl rfl rfl rfl (by decide)
  have hcode : convertClassicLoadBalancerForEditing sampleBuiltins
      (obj [("elb", obj [("healthCheck", obj [("target", str "a/b:c")])])])
      = some (obj [("editMode", bool true), ("loadBalancerType", str "classic"),
          ("region", undefined), ("credentials", undefined), ("listeners", arr [] []),
          ("name", undefined), ("regionZones", undefined), ("securityGroups", undefined),
          ("vpcId", undefined), ("healthTimeout", undefined), ("healthInterval", undefined),
          ("healthyThreshold", undefined), ("unhealthyThreshold", undefined),
          ("healthCheckProtocol", str "a/b"), ("healthCheckPort", str "/b:"),
          ("healthCheckPath", str "/b:c")],
        obj [("elb", obj [("healthCheck", obj [("target", str "a/b:c")])])]) := by rfl
  rw [hcode] at heq
  injection heq with heq
  injection heq with h1 h2
  subst h1
  have hclaimed : healthCheckPortOf sampleBuiltins (textBetweenFirst ':' '/' "a/b:c")
      = num 0 := by rfl
  rw [hclaimed] at hport
  simp [get?, JVal.prop, JVal.props, lookup] at hport


/-- C2 (amended): for a classic load balancer whose listener descriptions each have a
listener object whose `sslcertificateId`, if any, is a string (and whose health-check block
does not throw), `convertClassicLoadBalancerForEditing` returns one listener per
description, in order, and every returned listener has the three keys `sslCertificateType`,
`sslCertificateId` and `sslCertificateName`. For a description whose `sslcertificateId` is
`arn:<partition>:<service>:<region>:<account>:<resource>/<name>` with no slash in any of the
fields, the resource included, and no colon in the partition or service, the listener has
`sslCertificateType` equal to the service and `sslCertificateId` and `sslCertificateName`
both equal to the name. For a description without `sslcertificateId`, `sslCertificateId`
and `sslCertificateName` are undefined and `sslCertificateType` is the `sslCertificateType`
of the given listener. -/
theorem C2_classic_listener_certificate (js : Builtins) (loadBalancer elb : JVal)
    (descriptions : List JVal) (props : Fields)
    (hlb : loadBalancer.get? "elb" = some elb)
    (hds : elb.get? "listenerDescriptions" = some (arr descriptions props))
    (hall : ∀ d ∈ descriptions, isListenerDescription d = true)
    (hhc : (convertClassicHealthCheck js elb []).isSome) :
    ∃ toEdit after listeners,
      convertClassicLoadBalancerForEditing js loadBalancer = some (toEdit, after) ∧
      toEdit.get? "listeners" = some (arr listeners []) ∧
      List.Forall₂ (fun d l =>
        (l.hasKey "sslCertificateId" = true ∧ l.hasKey "sslCertificateName" = true ∧
          l.hasKey "sslCertificateType" = true) ∧
        (∀ service name, HasCertificateArn d service name →
          l.get? "sslCertificateType" = some (str service) ∧
          l.get? "sslCertificateId" = some (str name) ∧
          l.get? "sslCertificateName" = some (str name)) ∧
        (HasNoCertificate d →
          l.get? "sslCertificateId" = some undefined ∧
          l.get? "sslCertificateName" = some undefined ∧
          l.get? "sslCertificateType"
            = some ((d.prop "listener").prop "sslCertificateType"))) descriptions listeners := by
  -- every description converts, and its result has the stated fields
  have hconv : ∀ d ∈ descriptions, ∃ r, convertClassicListener d = some r ∧
      ((r.1.hasKey "sslCertificateId" = true ∧ r.1.hasKey "sslCertificateName" = true ∧
          r.1.hasKey "sslCertificateType" = true) ∧
        (∀ service name, HasCertificateArn d service name →
          r.1.get? "sslCertificateType" = some (str service) ∧
          r.1.get? "sslCertificateId" = some (str name) ∧
          r.1.get? "sslCertificateName" = some (str name)) ∧
        (HasNoCertificate d →
          r.1.get? "sslCertificateId" = some undefined ∧
          r.1.get? "sslCertificateName" = some undefined ∧
          r.1.get? "sslCertificateType"
            = some ((d.prop "listener").prop "sslCertificateType"))) := by
    intro d hd
    obtain ⟨r, hr⟩ := convertClassicListener_total d (hall d hd)
    refine ⟨r, hr, convertClassicListener_keys d r hr, ?_, ?_⟩
    · intro service name harn
      obtain ⟨listener, p, rg, a, res, h1, h2, s1, s2, s3, s4, s5, s6, c1, c2⟩ := harn
      obtain ⟨e, d', he, q1, q2, q3⟩ :=
        convertClassicListener_arn d listener p service rg a res name h1 h2 s1 s2 s3 s4 s5 s6 c1 c2
      rw [hr] at he
      injection he with he
      rw [he]
      exact ⟨q1, q2, q3⟩
    · intro hno
      obtain ⟨listener, h1, h2⟩ := hno
      obtain ⟨e, he, q1, q2, q3⟩ := convertClassicListener_noCert d listener h1 h2
      rw [hr] at he
      injection he with he
      rw [he, prop_of_get? h1]
      exact ⟨q1, q2, q3⟩
  obtain ⟨rs, hrs, hforall⟩ := mapOpt_forall₂ convertClassicListener _ descriptions hconv
  have e1 := prop_of_get? hds
  have hT : elb.truthy = true :=
    truthy_of_isObject (isObject_of_prop_ne (k := "listenerDescriptions") (by rw [e1]; simp))
  obtain ⟨elb1, heq, hk⟩ := convertClassicListeners_arr elb descriptions props
    (withSecurityGroupsAndVpc elb (classicToEdit loadBalancer)) rs e1 hrs
  have hsome : (convertClassicHealthCheck js elb1
      (assign "listeners" (arr (rs.map Prod.fst) [])
        (withSecurityGroupsAndVpc elb (classicToEdit loadBalancer)))).isSome = true := by
    rw [convertClassicHealthCheck_congr js elb elb1 _ (hk _ (by decide)),
      convertClassicHealthCheck_isSome js elb _ []]
    exact hhc
  obtain ⟨te2, hte2⟩ := Option.isSome_iff_exists.1 hsome
  have hlist : lookup "listeners" te2 = arr (rs.map Prod.fst) [] := by
    rw [convertClassicHealthCheck_frame js elb1 _ te2 hte2 "listeners" (by decide) (by decide)
      (by decide) (by decide) (by decide) (by decide) (by decide), lookup_assign_self]
  refine ⟨obj te2, if (elb.prop "listenerDescriptions").truthy
    then loadBalancer.put "elb" elb1 else loadBalancer, rs.map Prod.fst, ?_, ?_, ?_⟩
  · rw [convertClassic_unfold js loadBalancer elb hlb hT, heq]
    simp only [Option.some_bind, hte2]
  · simp [get?_obj, hlist]
  · rw [List.forall₂_map_right_iff]
    exact hforall

/-- C2 (witness): the sample load balancer has one listener with the certificate
`arn:aws:iam::123456789012:server-certificate/my-cert`. -/
theorem C2_classic_listener_certificate_witness :
    HasCertificateArn sampleListenerDescription "iam" "my-cert" ∧
    ∃ toEdit after listeners,
      convertClassicLoadBalancerForEditing sampleBuiltins
        (sampleClassicLoadBalancer "HTTP:80/health") = some (toEdit, after) ∧
      toEdit.get? "listeners" = some (arr listeners []) ∧
      List.Forall₂ (fun d l =>
        (l.hasKey "sslCertificateId" = true ∧ l.hasKey "sslCertificateName" = true ∧
          l.hasKey "sslCertificateType" = true) ∧
        (∀ service name, HasCertificateArn d service name →
          l.get? "sslCertificateType" = some (str service) ∧
          l.get? "sslCertificateId" = some (str name) ∧
          l.get? "sslCertificateName" = some (str name)) ∧
        (HasNoCertificate d →
          l.get? "sslCertificateId" = some undefined ∧
          l.get? "sslCertificateName" = some undefined ∧
          l.get? "sslCertificateType"
            = some ((d.prop "listener").prop "sslCertificateType")))
        [sampleListenerDescription] listeners :=
  ⟨⟨_, "aws", "", "123456789012", "server-certificate", rfl, rfl, by decide, by decide,
      by decide, by decide, by decide, by decide, by decide, by decide⟩,
    C2_classic_listener_certificate sampleBuiltins (sampleClassicLoadBalancer "HTTP:80/health")
      (sampleElb "HTTP:80/health") [sampleListenerDescription] [] rfl rfl
      (by
        intro d hd
        rw [List.mem_singleton] at hd
        subst hd
        rfl)
      rfl⟩

/-- C2 (counterexample): the certificate
`arn:aws:iam::123456789012:server-certificate/division_abc/my-cert` has the form
`arn:<partition>:<service>:<region>:<account>:<resource>/<name>` with the resource
`server-certificate/division_abc` and the name `my-cert`, no slash before the resource and
none inside the name, yet the returned listener has `sslCertificateId` and
`sslCertificateName` equal to `division_abc`; and the listener returned for a description
without `sslcertificateId` has the three keys, with the value undefined. -/
theorem C2_counterexample :
    samplePathListenerDescription.get? "listener" = some
      (obj [("protocol", str "HTTPS"), ("loadBalancerPort", num 443),
        ("instanceProtocol", str "HTTP"), ("instancePort", num 7001),
        ("sslcertificateId", str (certificateArn "aws" "iam" "" "123456789012"
          "server-certificate/division_abc" "my-cert"))]) ∧
    '/' ∉ "aws".data ∧ '/' ∉ "iam".data ∧ '/' ∉ "".data ∧ '/' ∉ "123456789012".data ∧
    '/' ∉ "my-cert".data ∧
    HasNoCertificate samplePlainListenerDescription ∧
    (convertClassicLoadBalancerForEditing sampleBuiltins
        samplePathCertificateLoadBalancer).map (fun r => r.1.prop "listeners")
      = some (arr [
          obj [("internalProtocol", str "HTTP"), ("internalPort", num 7001),
            ("externalProtocol", str "HTTPS"), ("externalPort", num 443),
            ("sslCertificateId", str "division_abc"),
            ("sslCertificateName", str "division_abc"),
            ("sslCertificateType", str "iam")],
          obj [("internalProtocol", str "HTTP"), ("internalPort", num 7001),
            ("externalProtocol", str "HTTP"), ("externalPort", num 80),
            ("sslCertificateId", undefined), ("sslCertificateName", undefined),
            ("sslCertificateType", undefined)]] []) :=
  ⟨rfl, by decide, by decide, by decide, by decide, by decide, ⟨_, rfl, rfl⟩, rfl⟩
/-- C3 (amended): for an application load balancer whose listeners each have no certificates
or a list of certificates whose ARNs have at least six fields separated by colons (and whose
target-group block does not throw), `convertApplicationLoadBalancerForEditing` returns one
listener per input listener; each has one certificate entry per input certificate, in order,
where for an ARN whose sixth field holds a slash `type` is the third field and `name` is the
part of the sixth field between its first and second slash (to the end when there is only
one), and a listener without certificates gets an empty certificates list. -/
theorem C3_application_listener_certificates (js : Builtins) (loadBalancer elb : JVal)
    (listeners : List JVal) (props : Fields)
    (hlb : loadBalancer.get? "elb" = some elb)
    (hls : elb.get? "listeners" = some (arr listeners props))
    (hall : ∀ l ∈ listeners,
      CertificatesAll (fun c => ∃ third sixth, HasArnFields c third sixth) l)
    (htg : (convertApplicationTargetGroups js elb []).isSome) :
    ∃ toEdit edited,
      convertApplicationLoadBalancerForEditing js loadBalancer = some toEdit ∧
      toEdit.get? "listeners" = some (arr edited []) ∧
      List.Forall₂ ListenerCertificates listeners edited := by
  obtain ⟨edited, hed, hf⟩ := mapOpt_forall₂ convertApplicationListener ListenerCertificates
    listeners (fun l hl => convertApplicationListener_certificates l (hall l hl))
  have e2 := prop_of_get? hls
  have hT : elb.truthy = true :=
    truthy_of_isObject (isObject_of_prop_ne (k := "listeners") (by rw [e2]; simp))
  have hstep : ∀ te, convertApplicationListeners elb te
      = some (assign "listeners" (arr edited []) te) := by
    intro te
    unfold convertApplicationListeners
    simp [e2, truthy, elems?, hed]
  obtain ⟨te', hte, hk⟩ := convertApplicationTargetGroups_spec js elb
    (assign "listeners" (arr edited [])
      (withSecurityGroupsAndVpc elb (applicationToEdit loadBalancer))) htg
  refine ⟨obj te', edited, ?_, ?_, hf⟩
  · unfold convertApplicationLoadBalancerForEditing
    simp only [hlb, Option.bind_eq_bind, Option.some_bind, hT, if_true, Option.pure_def, hstep,
      hte]
  · simp [get?_obj, hk "listeners" (by decide), lookup_assign_self]

/-- C3 (witness): the sample application load balancer has an HTTPS listener with one ACM
certificate and an HTTP listener without certificates. -/
theorem C3_application_listener_certificates_witness :
    ∃ toEdit edited,
      convertApplicationLoadBalancerForEditing sampleBuiltins sampleApplicationLoadBalancer
        = some toEdit ∧
      toEdit.get? "listeners" = some (arr edited []) ∧
      List.Forall₂ ListenerCertificates
        [sampleHttpsListener, obj [("protocol", str "HTTP"), ("port", num 80)]] edited :=
  C3_application_listener_certificates sampleBuiltins sampleApplicationLoadBalancer
    (obj [("listeners",
      arr [sampleHttpsListener, obj [("protocol", str "HTTP"), ("port", num 80)]] [])])
    [sampleHttpsListener, obj [("protocol", str "HTTP"), ("port", num 80)]] [] rfl rfl
    (by
      intro l hl
      simp only [List.mem_cons, List.mem_singleton, List.not_mem_nil, or_false] at hl
      rcases hl with hl | hl
      · subst hl
        exact Or.inr ⟨[obj [("certificateArn",
            str "arn:aws:acm:us-east-1:123456789012:certificate/abc-123")]], [], rfl,
          fun c hc => by
            rw [List.mem_singleton] at hc
            subst hc
            exact ⟨"acm", "certificate/abc-123", "arn", "aws", "us-east-1", "123456789012", "",
              rfl, by decide, by decide, by decide, by decide, by decide, by decide,
              Or.inl rfl⟩⟩
      · subst hl
        exact Or.inl rfl)
    rfl

/-- C3 (counterexample): the claim as stated, for every listener whose certificates have a
string ARN, fails for a certificate whose ARN `arn:aws:acm` has fewer than six fields:
`certArnParts[5]` is undefined, `certArnParts[5].split` throws, and no listener is returned. -/
theorem C3_counterexample :
    ¬ ∀ (js : Builtins) (loadBalancer elb : JVal) (listeners : List JVal) (props : Fields),
      loadBalancer.get? "elb" = some elb →
      elb.get? "listeners" = some (arr listeners props) →
      (∀ l ∈ listeners, CertificatesAll HasCertificateArnString l) →
      (convertApplicationTargetGroups js elb []).isSome →
      ∃ toEdit edited,
        convertApplicationLoadBalancerForEditing js loadBalancer = some toEdit ∧
        toEdit.get? "listeners" = some (arr edited []) ∧
        List.Forall₂ ListenerCertificates listeners edited := by
  intro h
  obtain ⟨toEdit, edited, heq, _⟩ :=
    h sampleBuiltins
      (obj [("elb", obj [("listeners",
        arr [obj [("certificates", arr [obj [("certificateArn", str "arn:aws:acm")]] [])]] [])])])
      (obj [("listeners",
        arr [obj [("certificates", arr [obj [("certificateArn", str "arn:aws:acm")]] [])]] [])])
      [obj [("certificates", arr [obj [("certificateArn", str "arn:aws:acm")]] [])]] [] rfl rfl
      (by
        intro l hl
        rw [List.mem_singleton] at hl
        subst hl
        exact Or.inr ⟨[obj [("certificateArn", str "arn:aws:acm")]], [], rfl,
          fun c hc => by
            rw [List.mem_singleton] at hc
            subst hc
            exact ⟨"arn:aws:acm", rfl⟩⟩)
      rfl
  have hcode : convertApplicationLoadBalancerForEditing sampleBuiltins
      (obj [("elb", obj [("listeners",
        arr [obj [("certificates", arr [obj [("certificateArn", str "arn:aws:acm")]] [])]] [])])])
      = none := by rfl
  rw [hcode] at heq
  exact Option.noConfusion heq

/-- C4: for every well-formed load balancer that has no field `targetGroups`,
`normalizeLoadBalancer` returns, and afterwards `loadBalancer.serverGroups` holds the
normalised server groups, `loadBalancer.instances` is the in-order concatenation of the
`instances` lists of exactly those server groups whose `isDisabled` is the boolean `false`,
and `loadBalancer.detachedInstances` is the in-order concatenation of the `detachedInstances`
lists of the same server groups. Normalisation leaves `isDisabled` as it was, so a server
group whose `isDisabled` is `true` or missing contributes nothing. -/
theorem C4_instances_of_active_server_groups (vpcs : List JVal) (loadBalancer : JVal)
    (hwf : wellFormedLoadBalancer loadBalancer = true)
    (hv : ∀ v ∈ vpcs, v.isObject = true)
    (hno : loadBalancer.hasKey "targetGroups" = false) :
    ∃ loadBalancer' serverGroups' ps,
      normalizeLoadBalancer vpcs loadBalancer = some loadBalancer' ∧
      loadBalancer'.get? "serverGroups" = some (arr serverGroups' ps) ∧
      List.Forall₂ (fun sg sg' =>
        normalizeServerGroup loadBalancer "loadBalancers" "LoadBalancer" sg = some sg' ∧
        sg'.prop "isDisabled" = sg.prop "isDisabled")
        (elemsOf (loadBalancer.prop "serverGroups")) serverGroups' ∧
      loadBalancer'.get? "instances" = some (arr
        ((serverGroups'.filter fun sg' => (sg'.prop "isDisabled").isBool false).flatMap
          fun sg' => elemsOf (sg'.prop "instances")) []) ∧
      loadBalancer'.get? "detachedInstances" = some (arr
        ((serverGroups'.filter fun sg' => (sg'.prop "isDisabled").isBool false).flatMap
          fun sg' => elemsOf (sg'.prop "detachedInstances")) []) := by
  obtain ⟨lb', own, ps, gathered, hres, hobj, hown, hforall, hi, hd, _, hfalsy, _⟩ :=
    normalizeLoadBalancer_spec vpcs loadBalancer hwf hv
  have hg : gathered = own := hfalsy (by
    rw [prop_of_hasKey_false _ _ hno]; rfl)
  subst hg
  exact ⟨lb', gathered, ps, hres, by rw [get?_of_isObject hobj, hown], hforall,
    by rw [get?_of_isObject hobj, hi]; rfl, by rw [get?_of_isObject hobj, hd]; rfl⟩

/-- C4 (witness): the sample load balancer has an active and a disabled server group of five
instances each, one of them detached: it ends with five instances, one of them detached. -/
theorem C4_instances_of_active_server_groups_witness :
    ∃ loadBalancer' instances detached,
      normalizeLoadBalancer sampleVpcs sampleLoadBalancer = some loadBalancer' ∧
      loadBalancer'.get? "instances" = some (arr instances []) ∧ instances.length = 5 ∧
      loadBalancer'.get? "detachedInstances" = some (arr detached []) ∧
      detached.length = 1 := by
  obtain ⟨lb', sgs', ps, h1, h2, h3, h4, h5⟩ :=
    C4_instances_of_active_server_groups sampleVpcs sampleLoadBalancer rfl
      (by intro v hv; simp [sampleVpcs] at hv; subst hv; rfl) rfl
  have hn : normalizeLoadBalancer sampleVpcs sampleLoadBalancer = some lb' := h1
  have hlen : ((normalizeLoadBalancer sampleVpcs sampleLoadBalancer).map fun lb =>
      ((elemsOf (lb.prop "instances")).length, (elemsOf (lb.prop "detachedInstances")).length))
      = some (5, 1) := by rfl
  rw [hn] at hlen
  simp only [Option.map_some', Option.some.injEq, Prod.mk.injEq] at hlen
  rw [prop_of_get? h4, prop_of_get? h5] at hlen
  exact ⟨lb', _, _, h1, h4, hlen.1, h5, hlen.2⟩

/-- C5: for every instance object whose health state is a string or missing,
`transformInstance` returns, and afterwards `health` is a one-element list that holds the
health record (the record of the instance, or an empty record when the instance had none)
with the state `healthy` rewritten to `InService` and every other field as it was;
`healthState` is `Up` exactly when the original state was `InService` or `healthy`,
`OutOfService` exactly when the instance had no health state (`health` missing, or the state
missing or empty), and `Down` for every other state. -/
theorem C5_transformInstance_health (inst provider account region : JVal)
    (hobj : inst.isObject = true) (htext : isTextOrAbsent (originalState inst) = true) :
    ∃ inst' record,
      transformInstance inst provider account region = some inst' ∧
      inst'.get? "health" = some (arr [record] []) ∧
      (∀ k, k ≠ "state" → record.prop k = (originalHealth inst).prop k) ∧
      (∀ k, record.hasKey k = (originalHealth inst).hasKey k) ∧
      (originalState inst = str "healthy" → record.get? "state" = some (str "InService")) ∧
      (originalState inst ≠ str "healthy" → record.get? "state" = some (originalState inst)) ∧
      (inst'.get? "healthState" = some (str "Up") ↔
        originalState inst = str "InService" ∨ originalState inst = str "healthy") ∧
      (inst'.get? "healthState" = some (str "OutOfService") ↔
        originalState inst = undefined ∨ originalState inst = null ∨
          originalState inst = str "") ∧
      (inst'.get? "healthState" = some (str "Down") ↔
        ∃ s, originalState inst = str s ∧ s ≠ "" ∧ s ≠ "InService" ∧ s ≠ "healthy") := by
  have hT := originalHealth_truthy inst
  have hstate : inst.isObject = true → ∀ v,
      (((((((inst.put "health" (renameHealthy (originalHealth inst))).put "provider"
        provider).put "account" account).put "region" region).put "healthState" v).put
        "health" (arr [renameHealthy (originalHealth inst)] [])).get? "healthState") = some v := by
    intro h v
    rw [get?_of_isObject (by simp [isObject_put, h]), prop_put_ne _ _ _ _ (by decide),
      prop_put_self _ _ _ (by simp [isObject_put, h])]
  refine ⟨_, renameHealthy (originalHealth inst), transformInstance_eq inst _ _ _ hobj, ?_,
    ?_, ?_, ?_, ?_, ?_, ?_, ?_⟩
  · rw [get?_of_isObject (by simp [isObject_put, hobj]),
      prop_put_self _ _ _ (by simp [isObject_put, hobj])]
    rfl
  · intro k hk
    exact renameHealthy_prop_ne _ k hk
  · intro k
    exact renameHealthy_hasKey _ k
  · intro h
    rw [renameHealthy_get? _ hT, renameHealthy_state]
    unfold originalState at h
    simp [h, JVal.isStr]
  · intro h
    rw [renameHealthy_get? _ hT, renameHealthy_state]
    have : ((originalHealth inst).prop "state").isStr "healthy" = false := by
      cases hh : ((originalHealth inst).prop "state").isStr "healthy"
      · rfl
      · exact absurd (isStr_eq_true hh) h
    simp [this, originalState]
  all_goals
    rw [or_empty_eq_originalHealth, hstate hobj, renameHealthy_state]
    change some (healthStateOf (if (originalState inst).isStr "healthy" = true
      then str "InService" else originalState inst)) = _ ↔ _
    rw [healthStateOf_renamed _ htext]
    generalize originalState inst = s at htext
    cases s with
    | str t =>
      by_cases h1 : t = "healthy"
      · subst h1; simp [isUpState, hasNoState, JVal.isStr]
      · by_cases h2 : t = "InService"
        · subst h2; simp [isUpState, hasNoState, JVal.isStr]
        · by_cases h3 : t = ""
          · subst h3; simp [isUpState, hasNoState, JVal.isStr]
          · simp [isUpState, hasNoState, JVal.isStr, h1, h2, h3]
    | undefined => simp [isUpState, hasNoState, JVal.isStr]
    | null => simp [isUpState, hasNoState, JVal.isStr]
    | _ => simp [isTextOrAbsent] at htext

/-- C5 (witness): an instance whose health state is `healthy`. -/
theorem C5_transformInstance_health_witness :
    ∃ inst' record,
      transformInstance (sampleInstance "i-1" "healthy") (str "aws") (str "prod")
        (str "us-east-1") = some inst' ∧
      inst'.get? "health" = some (arr [record] []) ∧
      record.get? "state" = some (str "InService") ∧
      inst'.get? "healthState" = some (str "Up") := by
  obtain ⟨inst', record, h1, h2, _, _, h5, _, h7, _, _⟩ :=
    C5_transformInstance_health (sampleInstance "i-1" "healthy") (str "aws") (str "prod")
      (str "us-east-1") rfl rfl
  exact ⟨inst', record, h1, h2, h5 rfl, h7.mpr (Or.inr rfl)⟩

/-- C6 (code evaluated at the failing input): converting the sample classic load balancer
rewrites the listener of the load balancer passed in: its `sslcertificateId` changes from
the certificate ARN to `my-cert` and it gains the field `sslCertificateType`. Converting
the same load balancer a second time therefore loses the certificate: the listener for
editing has no `sslCertificateId`. -/
theorem C6_argument_listener_rewritten :
    (convertClassicLoadBalancerForEditing sampleBuiltins
        (sampleClassicLoadBalancer "HTTP:80/health")).map Prod.snd
      = some (obj [("name", str "lb"), ("account", str "prod"),
          ("elb", obj [
            ("listenerDescriptions", arr [obj [("listener", obj [
              ("protocol", str "HTTPS"), ("loadBalancerPort", num 443),
              ("instanceProtocol", str "HTTP"), ("instancePort", num 7001),
              ("sslcertificateId", str "my-cert"),
              ("sslCertificateType", str "iam")])]] []),
            ("healthCheck", sampleHealthCheck "HTTP:80/health")])]) ∧
    ((convertClassicLoadBalancerForEditing sampleBuiltins
        (sampleClassicLoadBalancer "HTTP:80/health")).bind fun first =>
      (convertClassicLoadBalancerForEditing sampleBuiltins first.2).map fun second =>
        second.1.prop "listeners")
      = some (arr [obj [
          ("internalProtocol", str "HTTP"), ("internalPort", num 7001),
          ("externalProtocol", str "HTTPS"), ("externalPort", num 443),
          ("sslCertificateId", undefined), ("sslCertificateName", undefined),
          ("sslCertificateType", undefined)]] []) := by
  constructor <;> rfl

/-- C9: for a list of well-formed categories and a command object with a `viewState`, where
`wanted` is `command.instanceType`: when exactly one category has a family that lists an
instance type whose name equals `wanted`, `determineInstanceCategoryFromInstanceType` sets
`command.viewState.instanceProfile` to the type of that category and changes nothing else;
when no category lists the instance type, the command is left as it was. -/
theorem C9_instance_category (categories : List JVal) (ps : Fields) (command : JVal)
    (hwf : ∀ category ∈ categories, wellFormedCategory category = true)
    (hcmd : command.isObject = true) (hvs : (command.prop "viewState").isObject = true) :
    (∀ before category after, categories = before ++ category :: after →
      categoryLists (command.prop "instanceType") category = true →
      (∀ other ∈ before ++ after,
        categoryLists (command.prop "instanceType") other = false) →
      ∃ command',
        determineInstanceCategoryFromInstanceType (arr categories ps) command
          = some command' ∧
        (command'.prop "viewState").get? "instanceProfile" = some (category.prop "type") ∧
        (∀ k, k ≠ "instanceProfile" →
          (command'.prop "viewState").prop k = (command.prop "viewState").prop k) ∧
        (∀ k, k ≠ "viewState" → command'.prop k = command.prop k)) ∧
    ((∀ category ∈ categories,
        categoryLists (command.prop "instanceType") category = false) →
      determineInstanceCategoryFromInstanceType (arr categories ps) command = some command) := by
  have hinv : command.isObject = true ∧ (command.prop "viewState").isObject = true ∧
      command.prop "instanceType" = command.prop "instanceType" := ⟨hcmd, hvs, rfl⟩
  have hnoop : ∀ (s : JVal) (cs : List JVal),
      (s.isObject = true ∧ (s.prop "viewState").isObject = true ∧
        s.prop "instanceType" = command.prop "instanceType") →
      (∀ c ∈ cs, wellFormedCategory c = true) →
      (∀ c ∈ cs, categoryLists (command.prop "instanceType") c = false) →
      forEachOpt visitCategory s cs = some s := by
    intro s cs hs hw hn
    apply forEachOpt_noop
    intro c hc
    rw [visitCategory_eq s c _ hs (hw c hc), hn c hc]
    rfl
  constructor
  · intro before category after hsplit hlists hothers
    subst hsplit
    refine ⟨withInstanceProfile command (category.prop "type"), ?_, ?_, ?_, ?_⟩
    · unfold determineInstanceCategoryFromInstanceType
      simp only [elems?, Option.bind_eq_bind, Option.some_bind]
      rw [forEachOpt_append, hnoop command before hinv (fun c hc => hwf c (by simp [hc]))
        (fun c hc => hothers c (by simp [hc]))]
      simp only [Option.some_bind, forEachOpt]
      rw [visitCategory_eq command category _ hinv (hwf category (by simp)), hlists]
      simp only [if_true]
      exact hnoop _ after (withInstanceProfile_inv command _ _ hinv)
        (fun c hc => hwf c (by simp [hc])) (fun c hc => hothers c (by simp [hc]))
    · unfold withInstanceProfile
      rw [prop_put_self _ _ _ hcmd, get?_of_isObject (by rw [isObject_put]; exact hvs),
        prop_put_self _ _ _ hvs]
    · intro k hk
      unfold withInstanceProfile
      rw [prop_put_self _ _ _ hcmd, prop_put_ne _ _ _ _ hk]
    · intro k hk
      unfold withInstanceProfile
      rw [prop_put_ne _ _ _ _ hk]
  · intro hnone
    unfold determineInstanceCategoryFromInstanceType
    simp only [elems?, Option.bind_eq_bind, Option.some_bind]
    exact hnoop command categories hinv hwf hnone

/-- C9 (witness): `n1-highmem-2` is listed by the second category of the sample services,
whose type is `memory`. -/
theorem C9_instance_category_witness :
    ∃ command',
      determineInstanceCategoryFromInstanceType sampleServices.categories
        (obj [("instanceType", str "n1-highmem-2"),
          ("viewState", obj [("instanceProfile", str "custom")])]) = some command' ∧
      (command'.prop "viewState").get? "instanceProfile" = some (str "memory") := by
  obtain ⟨command', h1, h2, _⟩ := (C9_instance_category
    [sampleGeneralCategory, sampleMemoryCategory] []
    (obj [("instanceType", str "n1-highmem-2"),
      ("viewState", obj [("instanceProfile", str "custom")])])
    (by decide) rfl rfl).1 [sampleGeneralCategory] sampleMemoryCategory [] rfl rfl (by decide)
  exact ⟨command', h1, h2⟩

/-- C11: for every application, every server group and every scaling policy on which the
property reads do not throw, `deleteScalingPolicy` returns the result of the task executor on
a task with the given application, the description `Delete scaling policy ` followed by
`scalingPolicy.name`, and a job list of exactly one job, whose `type` is
`deleteScalingPolicy`, `provider` is `serverGroup.type`, `credentials` is
`serverGroup.account`, `region` is `serverGroup.region`, `serverGroupName` is
`serverGroup.name` and `policyName` is `scalingPolicy.policyName`. -/
theorem C11_deleteScalingPolicy_task {Result : Type} (objectText : JVal → String)
    (executeTask : JVal → Result) (application serverGroup scalingPolicy name provider : JVal)
    (hname : scalingPolicy.get? "name" = some name)
    (hprovider : serverGroup.get? "type" = some provider) :
    ∃ task job,
      deleteScalingPolicy objectText executeTask application serverGroup scalingPolicy
        = some (executeTask task) ∧
      deleteScalingPolicy objectText id application serverGroup scalingPolicy = some task ∧
      task.get? "application" = some application ∧
      task.get? "description"
        = some (str ("Delete scaling policy " ++ toText objectText name)) ∧
      (∀ s, name = str s → task.get? "description" = some (str ("Delete scaling policy " ++ s))) ∧
      task.get? "job" = some (arr [job] []) ∧
      job.get? "type" = some (str "deleteScalingPolicy") ∧
      job.get? "provider" = some provider ∧
      job.get? "credentials" = serverGroup.get? "account" ∧
      job.get? "region" = serverGroup.get? "region" ∧
      job.get? "serverGroupName" = serverGroup.get? "name" ∧
      job.get? "policyName" = scalingPolicy.get? "policyName" ∧
      ∀ k, job.hasKey k = true → k ∈ ["type", "provider", "credentials", "region",
        "policyName", "serverGroupName"] := by
  refine ⟨obj [
      ("application", application),
      ("description", str ("Delete scaling policy " ++ toText objectText name)),
      ("job", arr [obj [
        ("type", str "deleteScalingPolicy"),
        ("provider", provider),
        ("credentials", serverGroup.prop "account"),
        ("region", serverGroup.prop "region"),
        ("policyName", scalingPolicy.prop "policyName"),
        ("serverGroupName", serverGroup.prop "name")]] [])],
    obj [
      ("type", str "deleteScalingPolicy"),
      ("provider", provider),
      ("credentials", serverGroup.prop "account"),
      ("region", serverGroup.prop "region"),
      ("policyName", scalingPolicy.prop "policyName"),
      ("serverGroupName", serverGroup.prop "name")],
    ?_, ?_, rfl, rfl, ?_, rfl, rfl, rfl, ?_, ?_, ?_, ?_, ?_⟩
  · unfold deleteScalingPolicy
    simp only [hname, hprovider, Option.bind_eq_bind, Option.some_bind, Option.pure_def]
  · unfold deleteScalingPolicy
    simp only [hname, hprovider, Option.bind_eq_bind, Option.some_bind, Option.pure_def, id]
  · intro s hs
    subst hs
    rfl
  · rw [get?_of_get? hprovider]; rfl
  · rw [get?_of_get? hprovider]; rfl
  · rw [get?_of_get? hprovider]; rfl
  · rw [get?_of_get? hname]; rfl
  · intro k hk
    simp only [JVal.hasKey, JVal.props, hasField, List.any_cons, List.any_nil, Bool.or_false,
      Bool.or_eq_true, beq_iff_eq] at hk
    simp only [List.mem_cons, List.mem_singleton, List.mem_nil_iff, or_false]
    rcases hk with h | h | h | h | h | h <;> simp [← h]

/-- C11 (witness): deleting the policy `scale-up` of the server group `app-v001`; the sample
executor returns the task it is given. -/
theorem C11_deleteScalingPolicy_task_witness :
    ∃ task job,
      deleteScalingPolicy (fun _ => "[object Object]") id (str "app")
        (obj [("name", str "app-v001"), ("type", str "aws"), ("account", str "prod"),
          ("region", str "us-east-1")])
        (obj [("name", str "scale-up"), ("policyName", str "scale-up-policy")]) = some task ∧
      task.get? "description" = some (str ("Delete scaling policy " ++ "scale-up")) ∧
      task.get? "job" = some (arr [job] []) ∧
      job.get? "provider" = some (str "aws") := by
  obtain ⟨task, job, _, h2, _, _, h5, h6, _, h8, _⟩ :=
    C11_deleteScalingPolicy_task (fun _ => "[object Object]") id (str "app")
      (obj [("name", str "app-v001"), ("type", str "aws"), ("account", str "prod"),
        ("region", str "us-east-1")])
      (obj [("name", str "scale-up"), ("policyName", str "scale-up-policy")])
      (str "scale-up") (str "aws") rfl rfl
  exact ⟨task, job, h2, h5 "scale-up" rfl, h6, h8⟩

/-- C12: for every application and every command object, `upsertScalingPolicy` returns, sets
`command.type` to `upsertScalingPolicy` (whatever type the command had), leaves every other
field of the command as it was, and returns the result of the task executor on a task with
the given application, whose job list is exactly the command and whose description is
`Upsert scaling policy ` followed by `command.name`. -/
theorem C12_upsertScalingPolicy_task {Result : Type} (objectText : JVal → String)
    (executeTask : JVal → Result) (application command : JVal)
    (hobj : command.isObject = true) :
    ∃ task command',
      upsertScalingPolicy objectText executeTask application command
        = some (executeTask task, command') ∧
      upsertScalingPolicy objectText id application command = some (task, command') ∧
      command'.get? "type" = some (str "upsertScalingPolicy") ∧
      (∀ k, k ≠ "type" → command'.get? k = command.get? k) ∧
      (∀ k, k ≠ "type" → command'.hasKey k = command.hasKey k) ∧
      task.get? "application" = some application ∧
      task.get? "job" = some (arr [command'] []) ∧
      task.get? "description"
        = some (str ("Upsert scaling policy " ++ toText objectText (command.prop "name"))) ∧
      (∀ s, command.get? "name" = some (str s) →
        task.get? "description" = some (str ("Upsert scaling policy " ++ s))) := by
  have hobj' : (command.put "type" (str "upsertScalingPolicy")).isObject = true := by
    rw [isObject_put]; exact hobj
  have hname : (command.put "type" (str "upsertScalingPolicy")).prop "name"
      = command.prop "name" := prop_put_ne _ _ _ _ (by decide)
  refine ⟨obj [
      ("application", application),
      ("description", str ("Upsert scaling policy " ++ toText objectText (command.prop "name"))),
      ("job", arr [command.put "type" (str "upsertScalingPolicy")] [])],
    command.put "type" (str "upsertScalingPolicy"), ?_, ?_, ?_, ?_, ?_, rfl, rfl, rfl, ?_⟩
  · unfold upsertScalingPolicy
    simp only [set?_of_isObject hobj, Option.bind_eq_bind, Option.some_bind, Option.pure_def,
      hname]
  · unfold upsertScalingPolicy
    simp only [set?_of_isObject hobj, Option.bind_eq_bind, Option.some_bind, Option.pure_def,
      hname, id]
  · rw [get?_of_isObject hobj', prop_put_self _ _ _ hobj]
  · intro k hk
    rw [get?_of_isObject hobj', get?_of_isObject hobj, prop_put_ne _ _ _ _ hk]
  · intro k hk
    cases command <;> simp [JVal.put, JVal.hasKey, JVal.props, hasField_assign_ne _ _ _ _ hk]
  · intro s hs
    rw [prop_of_get? hs]
    rfl

/-- C12 (witness): a command that already has a type; the sample executor returns the task
it is given. -/
theorem C12_upsertScalingPolicy_task_witness :
    ∃ task command',
      upsertScalingPolicy (fun _ => "[object Object]") id (str "app")
        (obj [("name", str "scale-up"), ("type", str "other"), ("adjustment", num 2)])
        = some (task, command') ∧
      command'.get? "type" = some (str "upsertScalingPolicy") ∧
      command'.get? "adjustment" = some (num 2) ∧
      task.get? "job" = some (arr [command'] []) ∧
      task.get? "description" = some (str ("Upsert scaling policy " ++ "scale-up")) := by
  obtain ⟨task, command', _, h2, h3, h4, _, _, h7, _, h9⟩ :=
    C12_upsertScalingPolicy_task (fun _ => "[object Object]") id (str "app")
      (obj [("name", str "scale-up"), ("type", str "other"), ("adjustment", num 2)]) rfl
  exact ⟨task, command', h2, h3, by rw [h4 "adjustment" (by decide)]; rfl, h7, h9 "scale-up" rfl⟩

/-- C14: for every list of disks that each have a disk type (a string), and every command
object with a `viewState`, `populateDisksFromExisting` and `populateDisksFromPipeline`
return, and they set `command.localSSDCount` to the number of disks whose type is exactly
`local-ssd`, and `persistentDiskType` and `persistentDiskSizeGb` to the type and the size of
the first disk in list order whose type starts with `pd-`; when no disk has such a type, they
are `pd-ssd` and 10. The disk type is `initializeParams.diskType` for an existing server group
and `type` for a pipeline cluster. -/
theorem C14_disks (services : GceServices) (disks : List JVal) (ps : Fields) (command : JVal)
    (hs : HasStorage services)
    (hcmd : command.isObject = true) (hvs : (command.prop "viewState").isObject = true) :
    ((∀ disk ∈ disks, isText (existingDiskType disk) = true) →
      ∃ command', populateDisksFromExisting services (arr disks ps) command = some command' ∧
        command'.get? "localSSDCount" = some
          (num (disks.countP (fun disk => (existingDiskType disk).isStr "local-ssd") : Nat)) ∧
        (∀ disk, disks.find? (fun disk => isTextWithPrefix "pd-" (existingDiskType disk))
            = some disk →
          command'.get? "persistentDiskType" = some (existingDiskType disk) ∧
          command'.get? "persistentDiskSizeGb" = some (existingDiskSize disk)) ∧
        (disks.find? (fun disk => isTextWithPrefix "pd-" (existingDiskType disk)) = none →
          command'.get? "persistentDiskType" = some (str "pd-ssd") ∧
          command'.get? "persistentDiskSizeGb" = some (num 10))) ∧
    ((∀ disk ∈ disks, isText (disk.prop "type") = true) →
      ∃ command', populateDisksFromPipeline services (arr disks ps) command = some command' ∧
        command'.get? "localSSDCount" = some
          (num (disks.countP (fun disk => (disk.prop "type").isStr "local-ssd") : Nat)) ∧
        (∀ disk, disks.find? (fun disk => isTextWithPrefix "pd-" (disk.prop "type"))
            = some disk →
          command'.get? "persistentDiskType" = some (disk.prop "type") ∧
          command'.get? "persistentDiskSizeGb" = some (disk.prop "sizeGb")) ∧
        (disks.find? (fun disk => isTextWithPrefix "pd-" (disk.prop "type")) = none →
          command'.get? "persistentDiskType" = some (str "pd-ssd") ∧
          command'.get? "persistentDiskSizeGb" = some (num 10))) := by
  constructor
  · intro htyped
    obtain ⟨command', h, ho, _, hc, ht, hz, _⟩ :=
      populateDisksFromExisting_spec services disks ps command hs hcmd hvs htyped
    refine ⟨command', h, by rw [get?_of_isObject ho, hc], ?_, ?_⟩
    · intro disk hf
      rw [hf] at ht hz
      exact ⟨by rw [get?_of_isObject ho, ht]; rfl, by rw [get?_of_isObject ho, hz]; rfl⟩
    · intro hf
      rw [hf] at ht hz
      exact ⟨by rw [get?_of_isObject ho, ht]; rfl, by rw [get?_of_isObject ho, hz]; rfl⟩
  · intro htyped
    obtain ⟨command', h, ho, _, hc, ht, hz, _⟩ :=
      populateDisksFromPipeline_spec services disks ps command hs hcmd hvs htyped
    refine ⟨command', h, by rw [get?_of_isObject ho, hc], ?_, ?_⟩
    · intro disk hf
      rw [hf] at ht hz
      exact ⟨by rw [get?_of_isObject ho, ht]; rfl, by rw [get?_of_isObject ho, hz]; rfl⟩
    · intro hf
      rw [hf] at ht hz
      exact ⟨by rw [get?_of_isObject ho, ht]; rfl, by rw [get?_of_isObject ho, hz]; rfl⟩

/-- C14 (witness): the disks of the sample instance template hold two local SSDs, and the
first persistent disk is the `pd-standard` disk of 50 GB. -/
theorem C14_disks_witness :
    ∃ command', populateDisksFromExisting sampleServices (arr sampleExistingDisks [])
        (obj [("viewState", obj [])]) = some command' ∧
      command'.get? "localSSDCount" = some (num 2) ∧
      command'.get? "persistentDiskType" = some (str "pd-standard") ∧
      command'.get? "persistentDiskSizeGb" = some (num 50) := by
  obtain ⟨command', h, hc, hfound, _⟩ := (C14_disks sampleServices sampleExistingDisks []
    (obj [("viewState", obj [])]) (fun _ _ => rfl) rfl rfl).1 (by decide)
  have hf := hfound (obj [("initializeParams",
    obj [("diskType", str "pd-standard"), ("diskSizeGb", num 50)])]) rfl
  exact ⟨command', h, hc, hf.1, hf.2⟩

/-- C15: round trip of the health-check target. For a protocol `P` that holds neither a colon
nor a slash, a port `n` with `0 ≤ n ≤ 65535` written in decimal without leading zeros and a
path `Q` that is empty or begins with a slash, `convertClassicLoadBalancerForEditing` on the
target `P:nQ` returns `healthCheckProtocol = P`, `healthCheckPort` = the number `n` and
`healthCheckPath = Q`, and concatenating protocol, a colon, port and path gives back the
target. The built-in conversions are assumed to be the standard ones and the listener block
is assumed not to throw. -/
theorem C15_healthCheck_target_round_trip (js : Builtins) (loadBalancer elb healthCheck : JVal)
    (P Q : String) (n : Nat)
    (hjs : StandardNumber js)
    (hlb : loadBalancer.get? "elb" = some elb)
    (helb : elb.get? "healthCheck" = some healthCheck)
    (hhc : healthCheck.get? "target" = some (str (P ++ ":" ++ decimal n ++ Q)))
    (hl : (convertClassicListeners elb []).isSome)
    (hP1 : ':' ∉ P.data) (hP2 : '/' ∉ P.data) (hn : n ≤ 65535)
    (hQ : Q = "" ∨ Q.data.head? = some '/') :
    ∃ toEdit after,
      convertClassicLoadBalancerForEditing js loadBalancer = some (toEdit, after) ∧
      toEdit.get? "healthCheckProtocol" = some (str P) ∧
      toEdit.get? "healthCheckPort" = some (num n) ∧
      toEdit.get? "healthCheckPath" = some (str Q) ∧
      ∀ objectText,
        toText objectText (toEdit.prop "healthCheckProtocol") ++ ":"
          ++ toText objectText (toEdit.prop "healthCheckPort")
          ++ toText objectText (toEdit.prop "healthCheckPath") = P ++ ":" ++ decimal n ++ Q := by
  have hne : P ++ ":" ++ decimal n ++ Q ≠ "" := by
    intro e
    have := congrArg String.data e
    simp [String.data_append] at this
  have hsplit := splitHealthCheckTarget_parts P (decimal n) Q hP1 hP2
    (decimalDigits_no_delimiter (n + 1) n).2 hQ
  obtain ⟨toEdit, after, hconv, hp, hport, hq⟩ :=
    convertClassic_target js loadBalancer elb healthCheck _ P (decimal n) Q hlb helb hhc hl
      hne hsplit
  have hstd := hjs (decimalDigits (n + 1) n) n (parseDigits_decimalDigits (n + 1) n (by omega))
    (by omega)
  have hval : healthCheckPortOf js (decimal n) = num n := by
    unfold healthCheckPortOf decimal
    rw [hstd.1, hstd.2]
    rfl
  rw [hval] at hport
  refine ⟨toEdit, after, hconv, hp, hport, hq, ?_⟩
  intro objectText
  rw [prop_of_get? hp, prop_of_get? hport, prop_of_get? hq, toText_decimal]
  rfl

/-- C15 (witness): the target `HTTP:8080/health`. -/
theorem C15_healthCheck_target_round_trip_witness :
    ∃ toEdit after,
      convertClassicLoadBalancerForEditing sampleBuiltins
        (sampleClassicLoadBalancer ("HTTP" ++ ":" ++ decimal 8080 ++ "/health"))
          = some (toEdit, after) ∧
      toEdit.get? "healthCheckProtocol" = some (str "HTTP") ∧
      toEdit.get? "healthCheckPort" = some (num (8080 : Nat)) ∧
      toEdit.get? "healthCheckPath" = some (str "/health") ∧
      ∀ objectText,
        toText objectText (toEdit.prop "healthCheckProtocol") ++ ":"
          ++ toText objectText (toEdit.prop "healthCheckPort")
          ++ toText objectText (toEdit.prop "healthCheckPath")
            = "HTTP" ++ ":" ++ decimal 8080 ++ "/health" :=
  C15_healthCheck_target_round_trip sampleBuiltins
    (sampleClassicLoadBalancer ("HTTP" ++ ":" ++ decimal 8080 ++ "/health"))
    (sampleElb ("HTTP" ++ ":" ++ decimal 8080 ++ "/health"))
    (sampleHealthCheck ("HTTP" ++ ":" ++ decimal 8080 ++ "/health"))
    "HTTP" "/health" 8080 sampleBuiltins_standard rfl rfl rfl rfl (by decide) (by decide)
    (by decide) (Or.inr rfl)

/-- C16 (amended): in `convertClassicLoadBalancerForEditing` the port text `N` of the target
`P:NQ` is converted to a number exactly when it is not `NaN`. With the standard built-in
conversions: when `N` is a string of decimal digits that denotes an integer `v` below
`2 ^ 53`, `healthCheckPort` is the number `v`; when `N` is not a numeral, `healthCheckPort`
stays the text `N`; and when `N` is empty, `healthCheckPort` is the number 0. -/
theorem C16_healthCheck_port_number (js : Builtins) (loadBalancer elb healthCheck : JVal)
    (P N Q : String)
    (hjs : StandardNumber js)
    (hlb : loadBalancer.get? "elb" = some elb)
    (helb : elb.get? "healthCheck" = some healthCheck)
    (hhc : healthCheck.get? "target" = some (str (P ++ ":" ++ N ++ Q)))
    (hl : (convertClassicListeners elb []).isSome)
    (hP1 : ':' ∉ P.data) (hP2 : '/' ∉ P.data) (hN : '/' ∉ N.data)
    (hQ : Q = "" ∨ Q.data.head? = some '/') :
    ∃ toEdit after,
      convertClassicLoadBalancerForEditing js loadBalancer = some (toEdit, after) ∧
      toEdit.get? "healthCheckPort"
        = some (if js.isNaN (str N) then str N else js.toNumber (str N)) ∧
      (∀ v, N ≠ "" → parseDigits 0 N.data = some v → v < 2 ^ 53 →
        toEdit.get? "healthCheckPort" = some (num v)) ∧
      (js.isNaN (str N) = true → toEdit.get? "healthCheckPort" = some (str N)) ∧
      (N = "" → toEdit.get? "healthCheckPort" = some (num 0)) := by
  have hne : P ++ ":" ++ N ++ Q ≠ "" := by
    intro e
    have := congrArg String.data e
    simp [String.data_append] at this
  obtain ⟨toEdit, after, hconv, _, hport, _⟩ :=
    convertClassic_target js loadBalancer elb healthCheck _ P N Q hlb helb hhc hl hne
      (splitHealthCheckTarget_parts P N Q hP1 hP2 hN hQ)
  refine ⟨toEdit, after, hconv, hport, ?_, ?_, ?_⟩
  · intro v _ hv hlt
    have hstd := hjs N.data v hv hlt
    rw [hport]
    unfold healthCheckPortOf
    rw [hstd.1, hstd.2]
    rfl
  · intro hnan
    rw [hport]
    unfold healthCheckPortOf
    rw [hnan]
    rfl
  · intro hempty
    subst hempty
    have hstd := hjs [] 0 rfl (by decide)
    rw [hport]
    unfold healthCheckPortOf
    rw [show (str "" : JVal) = str ⟨[]⟩ from rfl, hstd.1, hstd.2]
    rfl

/-- C16 (witness): the targets `HTTP:8080/health` (port 8080), `HTTP:abc/health` (port text
`abc`, which is not a numeral), `HTTP:/health` and `TCP:` (empty port text). -/
theorem C16_healthCheck_port_number_witness :
    (∃ toEdit after,
      convertClassicLoadBalancerForEditing sampleBuiltins
        (sampleClassicLoadBalancer ("HTTP" ++ ":" ++ "8080" ++ "/health"))
          = some (toEdit, after) ∧
      toEdit.get? "healthCheckPort" = some (num 8080)) ∧
    (∃ toEdit after,
      convertClassicLoadBalancerForEditing sampleBuiltins
        (sampleClassicLoadBalancer ("HTTP" ++ ":" ++ "abc" ++ "/health"))
          = some (toEdit, after) ∧
      toEdit.get? "healthCheckPort" = some (str "abc")) ∧
    (∃ toEdit after,
      convertClassicLoadBalancerForEditing sampleBuiltins
        (sampleClassicLoadBalancer ("HTTP" ++ ":" ++ "" ++ "/health"))
          = some (toEdit, after) ∧
      toEdit.get? "healthCheckPort" = some (num 0)) ∧
    (∃ toEdit after,
      convertClassicLoadBalancerForEditing sampleBuiltins
        (sampleClassicLoadBalancer ("TCP" ++ ":" ++ "" ++ ""))
          = some (toEdit, after) ∧
      toEdit.get? "healthCheckPort" = some (num 0)) := by
  refine ⟨?_, ?_, ?_, ?_⟩
  · obtain ⟨toEdit, after, h, _, hv, _, _⟩ := C16_healthCheck_port_number sampleBuiltins
      (sampleClassicLoadBalancer ("HTTP" ++ ":" ++ "8080" ++ "/health"))
      (sampleElb ("HTTP" ++ ":" ++ "8080" ++ "/health"))
      (sampleHealthCheck ("HTTP" ++ ":" ++ "8080" ++ "/health"))
      "HTTP" "8080" "/health" sampleBuiltins_standard rfl rfl rfl rfl (by decide) (by decide)
      (by decide) (Or.inr rfl)
    exact ⟨toEdit, after, h, hv 8080 (by decide) rfl (by decide)⟩
  · obtain ⟨toEdit, after, h, _, _, hv, _⟩ := C16_healthCheck_port_number sampleBuiltins
      (sampleClassicLoadBalancer ("HTTP" ++ ":" ++ "abc" ++ "/health"))
      (sampleElb ("HTTP" ++ ":" ++ "abc" ++ "/health"))
      (sampleHealthCheck ("HTTP" ++ ":" ++ "abc" ++ "/health"))
      "HTTP" "abc" "/health" sampleBuiltins_standard rfl rfl rfl rfl (by decide) (by decide)
      (by decide) (Or.inr rfl)
    exact ⟨toEdit, after, h, hv rfl⟩
  · obtain ⟨toEdit, after, h, _, _, _, hv⟩ := C16_healthCheck_port_number sampleBuiltins
      (sampleClassicLoadBalancer ("HTTP" ++ ":" ++ "" ++ "/health"))
      (sampleElb ("HTTP" ++ ":" ++ "" ++ "/health"))
      (sampleHealthCheck ("HTTP" ++ ":" ++ "" ++ "/health"))
      "HTTP" "" "/health" sampleBuiltins_standard rfl rfl rfl rfl (by decide) (by decide)
      (by decide) (Or.inr rfl)
    exact ⟨toEdit, after, h, hv rfl⟩
  · obtain ⟨toEdit, after, h, _, _, _, hv⟩ := C16_healthCheck_port_number sampleBuiltins
      (sampleClassicLoadBalancer ("TCP" ++ ":" ++ "" ++ ""))
      (sampleElb ("TCP" ++ ":" ++ "" ++ ""))
      (sampleHealthCheck ("TCP" ++ ":" ++ "" ++ ""))
      "TCP" "" "" sampleBuiltins_standard rfl rfl rfl rfl (by decide) (by decide)
      (by decide) (Or.inl rfl)
    exact ⟨toEdit, after, h, hv rfl⟩

/-- C16 (counterexample): the port text `9007199254740993` is a non-empty string of decimal
digits, and it denotes the integer `2 ^ 53 + 1`. A JavaScript number is a double, and the
double nearest to that integer is `2 ^ 53`: for the target `HTTP:9007199254740993/health`
the value of `healthCheckPort` is 9007199254740992, not the integer that the text denotes. -/
theorem C16_counterexample :
    parseDigits 0 "9007199254740993".data = some 9007199254740993 ∧
    (convertClassicLoadBalancerForEditing sampleBuiltins
        (sampleClassicLoadBalancer "HTTP:9007199254740993/health")).map
      (fun r => r.1.prop "healthCheckPort") = some (num 9007199254740992) := by
  constructor
  · rfl
  · rfl

theorem convertClassic_noTarget (js : Builtins) (loadBalancer elb : JVal)
    (hlb : loadBalancer.get? "elb" = some elb)
    (hl : (convertClassicListeners elb []).isSome)
    (hnt : ((elb.prop "healthCheck").truthy &&
      ((elb.prop "healthCheck").prop "target").truthy) = false) :
    ∃ toEdit after, convertClassicLoadBalancerForEditing js loadBalancer = some (toEdit, after) ∧
      ∀ k ∈ ["healthTimeout", "healthInterval", "healthyThreshold", "unhealthyThreshold",
        "healthCheckProtocol", "healthCheckPort", "healthCheckPath"], toEdit.hasKey k = false := by
  by_cases hT : elb.truthy = true
  · obtain ⟨te1, elb1, heq, _, hk2⟩ := convertClassicListeners_spec elb
      (withSecurityGroupsAndVpc elb (classicToEdit loadBalancer)) hl
    have hhc : convertClassicHealthCheck js elb1 te1 = some te1 := by
      unfold convertClassicHealthCheck
      simp only [hk2 "healthCheck" (by decide), hnt]
      rfl
    obtain ⟨after, hconv⟩ := convertClassic_of_steps js loadBalancer elb elb1 te1 te1 hlb hT
      heq hhc
    refine ⟨obj te1, after, hconv, ?_⟩
    · intro k hk
      have hne : k ≠ "listeners" := by
        intro e; subst e; simp at hk
      show hasField k te1 = false
      rw [(convertClassicListeners_keys elb _ te1 elb1 heq k hne).1]
      exact (hasField_initial elb loadBalancer k hk).1
  · refine ⟨obj (classicToEdit loadBalancer), loadBalancer, ?_, ?_⟩
    · unfold convertClassicLoadBalancerForEditing
      simp [hlb, hT]
    · intro k hk
      exact (hasField_initial elb loadBalancer k hk).2

/-- C17: for a classic load balancer whose listener block does not throw, (1) when
`elb.healthCheck.target` is a non-empty string without a colon,
`convertClassicLoadBalancerForEditing` copies `healthTimeout`, `healthInterval`,
`healthyThreshold` and `unhealthyThreshold` from `elb.healthCheck` and sets none of
`healthCheckProtocol`, `healthCheckPort` and `healthCheckPath`; (2) when `elb`,
`elb.healthCheck` or the target is absent, or the target is the empty string, none of these
seven fields is set. -/
theorem C17_healthCheck_without_colon (js : Builtins) (loadBalancer elb : JVal)
    (hlb : loadBalancer.get? "elb" = some elb)
    (hl : (convertClassicListeners elb []).isSome) :
    (∀ healthCheck target,
      elb.get? "healthCheck" = some healthCheck →
      healthCheck.get? "target" = some (str target) → target ≠ "" → ':' ∉ target.data →
      ∃ toEdit after,
        convertClassicLoadBalancerForEditing js loadBalancer = some (toEdit, after) ∧
        toEdit.get? "healthTimeout" = some (healthCheck.prop "timeout") ∧
        toEdit.get? "healthInterval" = some (healthCheck.prop "interval") ∧
        toEdit.get? "healthyThreshold" = some (healthCheck.prop "healthyThreshold") ∧
        toEdit.get? "unhealthyThreshold" = some (healthCheck.prop "unhealthyThreshold") ∧
        toEdit.hasKey "healthTimeout" = true ∧ toEdit.hasKey "healthInterval" = true ∧
        toEdit.hasKey "healthyThreshold" = true ∧ toEdit.hasKey "unhealthyThreshold" = true ∧
        toEdit.hasKey "healthCheckProtocol" = false ∧
        toEdit.hasKey "healthCheckPort" = false ∧
        toEdit.hasKey "healthCheckPath" = false) ∧
    ((elb = undefined ∨ elb.get? "healthCheck" = some undefined ∨
        ∃ healthCheck, elb.get? "healthCheck" = some healthCheck ∧
          (healthCheck.get? "target" = some undefined ∨
            healthCheck.get? "target" = some (str ""))) →
      ∃ toEdit after,
        convertClassicLoadBalancerForEditing js loadBalancer = some (toEdit, after) ∧
        ∀ k ∈ ["healthTimeout", "healthInterval", "healthyThreshold", "unhealthyThreshold",
          "healthCheckProtocol", "healthCheckPort", "healthCheckPath"],
          toEdit.hasKey k = false) := by
  constructor
  · intro healthCheck target helb hhc htne hcolon
    have e2 := prop_of_get? helb
    have e3 := prop_of_get? hhc
    have hT : elb.truthy = true :=
      truthy_of_isObject (isObject_of_prop_ne (k := "healthCheck") (by
        rw [e2]; intro e; rw [e] at hhc; simp [get?] at hhc))
    obtain ⟨te1, elb1, heq, _, hk2⟩ := convertClassicListeners_spec elb
      (withSecurityGroupsAndVpc elb (classicToEdit loadBalancer)) hl
    have hkeys := fun k hk => convertClassicListeners_keys elb _ te1 elb1 heq k hk
    have hhcT : healthCheck.truthy = true :=
      truthy_of_isObject (isObject_of_prop_ne (k := "target") (by rw [e3]; simp))
    have htt : (str target).truthy = true := by simpa [truthy] using htne
    have hres : convertClassicHealthCheck js elb1 te1
        = some (assign "unhealthyThreshold" (healthCheck.prop "unhealthyThreshold")
            (assign "healthyThreshold" (healthCheck.prop "healthyThreshold")
              (assign "healthInterval" (healthCheck.prop "interval")
                (assign "healthTimeout" (healthCheck.prop "timeout") te1)))) := by
      unfold convertClassicHealthCheck
      simp only [hk2 "healthCheck" (by decide), e2, e3, hhcT, htt, Bool.and_self, if_true,
        assignHealthCheckTarget, splitHealthCheckTarget_none target hcolon]
    obtain ⟨after, hconv⟩ := convertClassic_of_steps js loadBalancer elb elb1 te1 _ hlb hT
      heq hres
    refine ⟨_, after, hconv, ?_⟩
    · simp only [get?_obj, JVal.hasKey, JVal.props]
      have i1 := (hasField_initial elb loadBalancer "healthCheckProtocol" (by simp)).1
      have i2 := (hasField_initial elb loadBalancer "healthCheckPort" (by simp)).1
      have i3 := (hasField_initial elb loadBalancer "healthCheckPath" (by simp)).1
      rw [← (hkeys "healthCheckProtocol" (by decide)).1] at i1
      rw [← (hkeys "healthCheckPort" (by decide)).1] at i2
      rw [← (hkeys "healthCheckPath" (by decide)).1] at i3
      simp [lookup_assign_self, lookup_assign_ne, hasField_assign_self, hasField_assign_ne,
        i1, i2, i3]
  · intro h
    apply convertClassic_noTarget js loadBalancer elb hlb hl
    rcases h with h | h | ⟨healthCheck, h, h2 | h2⟩
    · subst h; rfl
    · rw [prop_of_get? h]; rfl
    · rw [prop_of_get? h, prop_of_get? h2]; simp [truthy]
    · rw [prop_of_get? h, prop_of_get? h2]; simp [truthy]

/-- C17 (witness): the sample load balancer with the target `TCP`, and with an empty
target. -/
theorem C17_healthCheck_without_colon_witness :
    (∃ toEdit after,
        convertClassicLoadBalancerForEditing sampleBuiltins (sampleClassicLoadBalancer "TCP")
          = some (toEdit, after) ∧
        toEdit.get? "healthTimeout" = some ((sampleHealthCheck "TCP").prop "timeout") ∧
        toEdit.get? "healthInterval" = some ((sampleHealthCheck "TCP").prop "interval") ∧
        toEdit.get? "healthyThreshold"
          = some ((sampleHealthCheck "TCP").prop "healthyThreshold") ∧
        toEdit.get? "unhealthyThreshold"
          = some ((sampleHealthCheck "TCP").prop "unhealthyThreshold") ∧
        toEdit.hasKey "healthTimeout" = true ∧ toEdit.hasKey "healthInterval" = true ∧
        toEdit.hasKey "healthyThreshold" = true ∧ toEdit.hasKey "unhealthyThreshold" = true ∧
        toEdit.hasKey "healthCheckProtocol" = false ∧
        toEdit.hasKey "healthCheckPort" = false ∧
        toEdit.hasKey "healthCheckPath" = false) ∧
    (∃ toEdit after,
        convertClassicLoadBalancerForEditing sampleBuiltins (sampleClassicLoadBalancer "")
          = some (toEdit, after) ∧
        ∀ k ∈ ["healthTimeout", "healthInterval", "healthyThreshold", "unhealthyThreshold",
          "healthCheckProtocol", "healthCheckPort", "healthCheckPath"],
          toEdit.hasKey k = false) :=
  ⟨(C17_healthCheck_without_colon sampleBuiltins (sampleClassicLoadBalancer "TCP")
      (sampleElb "TCP") rfl rfl).1 (sampleHealthCheck "TCP") "TCP" rfl rfl (by decide)
      (by decide),
    (C17_healthCheck_without_colon sampleBuiltins (sampleClassicLoadBalancer "")
      (sampleElb "") rfl rfl).2 (Or.inr (Or.inr ⟨sampleHealthCheck "", rfl, Or.inr rfl⟩))⟩

/-- C18: for every well-formed load balancer that has a list `targetGroups`,
`normalizeLoadBalancer` returns, and afterwards `loadBalancer.targetGroups` holds the
normalised target groups, and `loadBalancer.instances` and `loadBalancer.detachedInstances`
are the in-order concatenations of the `instances`, respectively `detachedInstances`, lists
of the non-disabled server groups nested in the target groups, in target-group order and then
server-group order. The server groups of the load balancer itself do not occur in them: with
an empty list `targetGroups` both fields are empty, whatever `serverGroups` holds. -/
theorem C18_instances_of_target_groups (vpcs : List JVal) (loadBalancer : JVal)
    (targetGroups : List JVal) (tps : Fields)
    (hwf : wellFormedLoadBalancer loadBalancer = true)
    (hv : ∀ v ∈ vpcs, v.isObject = true)
    (htg : loadBalancer.get? "targetGroups" = some (arr targetGroups tps)) :
    ∃ loadBalancer' targetGroups',
      normalizeLoadBalancer vpcs loadBalancer = some loadBalancer' ∧
      loadBalancer'.get? "targetGroups" = some (arr targetGroups' tps) ∧
      List.Forall₂ (fun tg tg' => normalizeTargetGroup vpcs tg = some tg')
        targetGroups targetGroups' ∧
      loadBalancer'.get? "instances" = some (arr
        (((targetGroups'.flatMap fun tg' => elemsOf (tg'.prop "serverGroups")).filter
          fun sg' => (sg'.prop "isDisabled").isBool false).flatMap
            fun sg' => elemsOf (sg'.prop "instances")) []) ∧
      loadBalancer'.get? "detachedInstances" = some (arr
        (((targetGroups'.flatMap fun tg' => elemsOf (tg'.prop "serverGroups")).filter
          fun sg' => (sg'.prop "isDisabled").isBool false).flatMap
            fun sg' => elemsOf (sg'.prop "detachedInstances")) []) ∧
      (targetGroups = [] →
        loadBalancer'.get? "instances" = some (arr [] []) ∧
        loadBalancer'.get? "detachedInstances" = some (arr [] [])) := by
  obtain ⟨lb', own, ps, gathered, hres, hobj, _, _, hi, hd, _, _, harr⟩ :=
    normalizeLoadBalancer_spec vpcs loadBalancer hwf hv
  obtain ⟨tgs', htgs', hforall, hg⟩ := harr targetGroups tps (prop_of_get? htg)
  subst hg
  refine ⟨lb', tgs', hres, by rw [get?_of_isObject hobj, htgs'], hforall,
    by rw [get?_of_isObject hobj, hi]; rfl, by rw [get?_of_isObject hobj, hd]; rfl, ?_⟩
  intro hnil
  subst hnil
  cases hforall
  exact ⟨by rw [get?_of_isObject hobj, hi]; rfl, by rw [get?_of_isObject hobj, hd]; rfl⟩

/-- C18 (witness): the sample application load balancer has one target group with an active
and a disabled server group of five instances each; its own server group adds nothing. -/
theorem C18_instances_of_target_groups_witness :
    ∃ loadBalancer' instances detached,
      normalizeLoadBalancer sampleVpcs sampleTargetGroupLoadBalancer = some loadBalancer' ∧
      loadBalancer'.get? "instances" = some (arr instances []) ∧ instances.length = 5 ∧
      loadBalancer'.get? "detachedInstances" = some (arr detached []) ∧
      detached.length = 1 := by
  obtain ⟨lb', tgs', h1, _, _, h4, h5, _⟩ :=
    C18_instances_of_target_groups sampleVpcs sampleTargetGroupLoadBalancer _ _ rfl
      (by intro v hv; simp [sampleVpcs] at hv; subst hv; rfl) rfl
  have hn : normalizeLoadBalancer sampleVpcs sampleTargetGroupLoadBalancer = some lb' := h1
  have hlen : ((normalizeLoadBalancer sampleVpcs sampleTargetGroupLoadBalancer).map fun lb =>
      ((elemsOf (lb.prop "instances")).length, (elemsOf (lb.prop "detachedInstances")).length))
      = some (5, 1) := by rfl
  rw [hn] at hlen
  simp only [Option.map_some', Option.some.injEq, Prod.mk.injEq] at hlen
  rw [prop_of_get? h4, prop_of_get? h5] at hlen
  exact ⟨lb', _, _, h1, h4, hlen.1, h5, hlen.2⟩

/-- C20 (amended): `populateAutoHealingPolicy` reduces the health-check reference to its last
segment, and the reduction is idempotent. For every health-check URL `dir ++ name`, where
`name` is the non-empty text after the last slash (`dir` is empty or ends with a slash, and
`name` holds no slash), and every command object with a `viewState`, the function returns and
`command.autoHealingPolicy.healthCheck` is `name`, with `initialDelaySec` copied from the
policy; applying the function to the policy that was stored, whose `healthCheck` is already
the name, stores the same name and the same `initialDelaySec`. -/
theorem C20_health_check_name (serverGroup command policy : JVal) (dir name : String)
    (hsg : serverGroup.get? "autoHealingPolicy" = some policy)
    (hhc : policy.get? "healthCheck" = some (str (dir ++ name)))
    (hdir : dir = "" ∨ ∃ d : String, dir = d ++ "/")
    (hname : '/' ∉ name.data) (hne : name ≠ "")
    (hcmd : command.isObject = true) (hvs : (command.prop "viewState").isObject = true) :
    ∃ command' stored,
      populateAutoHealingPolicy serverGroup command = some command' ∧
      command'.get? "autoHealingPolicy" = some stored ∧
      stored.get? "healthCheck" = some (str name) ∧
      stored.get? "initialDelaySec" = policy.get? "initialDelaySec" ∧
      ∃ command'' stored',
        populateAutoHealingPolicy (obj [("autoHealingPolicy", stored)]) command
          = some command'' ∧
        command''.get? "autoHealingPolicy" = some stored' ∧
        stored'.get? "healthCheck" = some (str name) ∧
        stored'.get? "initialDelaySec" = policy.get? "initialDelaySec" := by
  have hpo : policy.isObject = true :=
    isObject_of_prop_ne (k := "healthCheck") (by rw [prop_of_get? hhc]; simp)
  obtain ⟨command', stored, hres, hst, hso, hh, hi, _⟩ := populateAutoHealingPolicy_spec
    serverGroup command policy name hsg (truthy_of_isObject hpo)
    (by rw [prop_of_get? hhc]; exact lastSegment_name dir name hname hne hdir) hne hcmd hvs
  obtain ⟨command'', stored', hres', hst', _, hh', hi', _⟩ := populateAutoHealingPolicy_spec
    (obj [("autoHealingPolicy", stored)]) command stored name rfl (truthy_of_isObject hso)
    (by
      rw [prop_of_get? hh]
      have := lastSegment_name "" name hname hne (Or.inl rfl)
      rwa [show ("" : String) ++ name = name from String.ext (by simp [String.data_append])]
        at this) hne hcmd hvs
  refine ⟨command', stored, hres, hst, hh, ?_, command'', stored', hres', hst', hh', ?_⟩
  · rw [hi, get?_of_isObject hpo]
  · rw [hi', prop_of_get? hi, get?_of_isObject hpo]

/-- C20 (witness): the URL of an HTTP health check. -/
theorem C20_health_check_name_witness :
    ∃ command' stored,
      populateAutoHealingPolicy
        (obj [("autoHealingPolicy", obj [
          ("healthCheck", str ("https://www.googleapis.com/compute/v1/projects/p/global/httpHealthChecks/" ++ "hc-1")),
          ("initialDelaySec", num 30)])])
        (obj [("viewState", obj [])]) = some command' ∧
      command'.get? "autoHealingPolicy" = some stored ∧
      stored.get? "healthCheck" = some (str "hc-1") ∧
      stored.get? "initialDelaySec" = some (num 30) := by
  obtain ⟨command', stored, h1, h2, h3, h4, _⟩ := C20_health_check_name
    (obj [("autoHealingPolicy", obj [
      ("healthCheck", str ("https://www.googleapis.com/compute/v1/projects/p/global/httpHealthChecks/" ++ "hc-1")),
      ("initialDelaySec", num 30)])])
    (obj [("viewState", obj [])]) _
    "https://www.googleapis.com/compute/v1/projects/p/global/httpHealthChecks/" "hc-1"
    rfl rfl (Or.inr ⟨"https://www.googleapis.com/compute/v1/projects/p/global/httpHealthChecks",
      rfl⟩) (by decide) (by decide) rfl rfl
  exact ⟨command', stored, h1, h2, h3, h4⟩

/-- C20 (counterexample): for a health-check URL that ends with a slash the text after the
last slash is empty, and `populateAutoHealingPolicy` stores nothing: the command has no
`autoHealingPolicy` afterwards, so neither the name nor `initialDelaySec` is copied. -/
theorem C20_counterexample :
    populateAutoHealingPolicy
      (obj [("autoHealingPolicy", obj [
        ("healthCheck", str "projects/p/global/httpHealthChecks/hc-1/"),
        ("initialDelaySec", num 30)])])
      (obj [("viewState", obj [])])
    = some (obj [("viewState", obj [])]) := by
  rfl

/-- C21: for a well-formed server group whose instances have a health state that is a string
or missing, `normalizeServerGroups` returns, and over the instances of the server group
followed by its detached instances, `instanceCounts.up` is the number whose original state
was `InService` or `healthy`, `instanceCounts.down` the number whose state was
`OutOfService`, and `instanceCounts.outOfService` the number that had no health state, which
includes every detached instance. The three classes are disjoint: the sum of the counts is at
most the number of instances, and it is smaller whenever some instance has another state,
although that instance has the `healthState` `Down`. -/
theorem C21_instance_counts (container serverGroup : JVal) (containerType healthType : String)
    (hct : containerType = "loadBalancers" ∨ containerType = "targetGroups")
    (hcont : container.isObject = true)
    (hwf : wellFormedServerGroup serverGroup = true)
    (htext : statesAreText serverGroup = true) :
    ∃ serverGroup' normalized ps up down outOfService,
      normalizeServerGroup container containerType healthType serverGroup
        = some serverGroup' ∧
      serverGroup'.get? "instances" = some (arr normalized ps) ∧
      normalized.length
        = (elemsOf (serverGroup.prop "instances") ++ detachedObjects serverGroup).length ∧
      serverGroup'.get? "instanceCounts" = some (obj [("up", num (up : Nat)),
        ("down", num (down : Nat)), ("outOfService", num (outOfService : Nat))]) ∧
      up = (elemsOf (serverGroup.prop "instances") ++ detachedObjects serverGroup).countP
        (fun inst => isUpState (originalState inst)) ∧
      down = (elemsOf (serverGroup.prop "instances") ++ detachedObjects serverGroup).countP
        (fun inst => (originalState inst).isStr "OutOfService") ∧
      outOfService
        = (elemsOf (serverGroup.prop "instances") ++ detachedObjects serverGroup).countP
          (fun inst => hasNoState (originalState inst)) ∧
      (∀ inst ∈ detachedObjects serverGroup, hasNoState (originalState inst) = true) ∧
      (∀ inst, ¬ (isUpState (originalState inst) = true ∧
          (originalState inst).isStr "OutOfService" = true) ∧
        ¬ (isUpState (originalState inst) = true ∧ hasNoState (originalState inst) = true) ∧
        ¬ ((originalState inst).isStr "OutOfService" = true ∧
          hasNoState (originalState inst) = true)) ∧
      up + down + outOfService ≤ normalized.length ∧
      ((∃ inst ∈ elemsOf (serverGroup.prop "instances") ++ detachedObjects serverGroup,
          isOtherState (originalState inst) = true) →
        up + down + outOfService < normalized.length) ∧
      List.Forall₂ (fun inst inst' => isOtherState (originalState inst) = true →
          inst'.get? "healthState" = some (str "Down"))
        (elemsOf (serverGroup.prop "instances") ++ detachedObjects serverGroup) normalized := by
  have h1 : containerType ≠ "health" := by rcases hct with h | h <;> (subst h; decide)
  have h2 : containerType ≠ "healthState" := by rcases hct with h | h <;> (subst h; decide)
  obtain ⟨⟨instances, ps, hi, _⟩, _⟩ := wellFormedServerGroup_spec serverGroup hwf
  obtain ⟨sg', normalized, ps', hres, hforall, hinst, _, hcounts, _, hobj', _⟩ :=
    normalizeServerGroup_spec container containerType healthType serverGroup instances ps
      hcont h1 h2 hwf hi
  have he : elemsOf (serverGroup.prop "instances") = instances := by rw [hi]; rfl
  have htxt : ∀ inst ∈ instances ++ detachedObjects serverGroup,
      isTextOrAbsent (originalState inst) = true := by
    intro inst hm
    rcases List.mem_append.mp hm with h | h
    · unfold statesAreText at htext
      rw [he, List.all_eq_true] at htext
      exact htext inst h
    · rw [detachedObjects_state serverGroup inst h]; rfl
  have hfa : List.Forall₂ (fun inst inst' =>
      inst ∈ instances ++ detachedObjects serverGroup ∧
      normalizeInstance container containerType healthType inst = some inst')
      (instances ++ detachedObjects serverGroup) normalized :=
    forall₂_with_mem _ _ _ hforall
  have hup : normalized.countP countsAsUp = (instances ++ detachedObjects serverGroup).countP
      (fun inst => isUpState (originalState inst)) :=
    forall₂_countP _ _ _ _ _ hfa fun x y h =>
      (normalizeInstance_classes container containerType healthType x y h1 h2 h.2).1
  have hdown : normalized.countP countsAsDown
      = (instances ++ detachedObjects serverGroup).countP
        (fun inst => (originalState inst).isStr "OutOfService") :=
    forall₂_countP _ _ _ _ _ hfa fun x y h =>
      (normalizeInstance_classes container containerType healthType x y h1 h2 h.2).2.1
  have hoos : normalized.countP countsAsOutOfService
      = (instances ++ detachedObjects serverGroup).countP
        (fun inst => hasNoState (originalState inst)) :=
    forall₂_countP _ _ _ _ _ hfa fun x y h =>
      (normalizeInstance_classes container containerType healthType x y h1 h2 h.2).2.2
        (htxt x h.1)
  have hlen := forall₂_length _ _ _ hforall
  have hfour := countP_four (instances ++ detachedObjects serverGroup) originalState
  rw [he]
  refine ⟨sg', normalized, ps', _, _, _, hres, by rw [get?_of_isObject hobj', hinst], hlen,
    by rw [get?_of_isObject hobj', hcounts], hup, hdown, hoos, ?_, ?_, ?_, ?_, ?_⟩
  · intro inst hm
    rw [detachedObjects_state serverGroup inst hm]; rfl
  · intro inst
    have hd := states_disjoint (originalState inst)
    refine ⟨?_, ?_, ?_⟩
    · rintro ⟨a, b⟩; rw [(hd.1 a).1] at b; exact Bool.noConfusion b
    · rintro ⟨a, b⟩; rw [(hd.1 a).2] at b; exact Bool.noConfusion b
    · rintro ⟨a, b⟩; rw [hd.2 a] at b; exact Bool.noConfusion b
  · rw [hup, hdown, hoos, hlen]
    omega
  · rintro ⟨inst, hm, ho⟩
    have hpos : 0 < (instances ++ detachedObjects serverGroup).countP
        (fun i => isOtherState (originalState i)) :=
      List.countP_pos_iff.mpr ⟨inst, hm, ho⟩
    rw [hup, hdown, hoos, hlen]
    omega
  · refine hfa.imp ?_
    intro inst inst' h ho
    obtain ⟨hobj, _, hs, _⟩ :=
      normalizeInstance_result container containerType healthType inst inst' h1 h2 h.2
    rw [get?_of_isObject hobj, hs, renameHealthy_state]
    change some (healthStateOf (if (originalState inst).isStr "healthy" = true
      then str "InService" else originalState inst)) = _
    rw [healthStateOf_renamed _ (htxt inst h.1)]
    unfold isOtherState at ho
    simp only [Bool.and_eq_true, Bool.not_eq_true'] at ho
    simp [ho.1.1, ho.2]

/-- C21 (witness): the sample server group has one instance in each class, an instance with
the state `draining` and a detached instance: the counts are 1, 1 and 2 for 5 instances. -/
theorem C21_instance_counts_witness :
    ∃ serverGroup' normalized ps,
      normalizeServerGroup sampleLoadBalancer "loadBalancers" "LoadBalancer"
        (sampleServerGroup "app-v001" false) = some serverGroup' ∧
      serverGroup'.get? "instances" = some (arr normalized ps) ∧
      normalized.length = 5 ∧
      serverGroup'.get? "instanceCounts" = some (obj [("up", num 1),
        ("down", num 1), ("outOfService", num 2)]) := by
  obtain ⟨sg', normalized, ps, up, down, oos, h1, h2, h3, h4, h5, h6, h7, _⟩ :=
    C21_instance_counts sampleLoadBalancer (sampleServerGroup "app-v001" false)
      "loadBalancers" "LoadBalancer" (Or.inl rfl) rfl rfl rfl
  refine ⟨sg', normalized, ps, h1, h2, h3, ?_⟩
  rw [h4, h5, h6, h7]
  rfl

/-- C22: for every well-formed load balancer, `normalizeLoadBalancer` returns, and afterwards
`instanceCounts.up` and `instanceCounts.down` count the entries of `loadBalancer.instances`
whose `health[0].state` is `InService`, respectively `OutOfService`, whereas
`instanceCounts.outOfService` is the sum, over every entry of `loadBalancer.serverGroups`,
disabled or not, of the number of instances of that server group whose `healthState` is
`OutOfService`. For the sample load balancer, whose only server group is disabled and holds
a detached instance, `outOfService` is 1 and `loadBalancer.instances` is empty. -/
theorem C22_out_of_service_counts_all_server_groups (vpcs : List JVal) (loadBalancer : JVal)
    (hwf : wellFormedLoadBalancer loadBalancer = true)
    (hv : ∀ v ∈ vpcs, v.isObject = true) :
    (∃ loadBalancer' instances serverGroups' ps,
      normalizeLoadBalancer vpcs loadBalancer = some loadBalancer' ∧
      loadBalancer'.get? "instances" = some (arr instances []) ∧
      loadBalancer'.get? "serverGroups" = some (arr serverGroups' ps) ∧
      serverGroups'.length = (elemsOf (loadBalancer.prop "serverGroups")).length ∧
      loadBalancer'.get? "instanceCounts" = some (obj [
        ("up", num (instances.countP countsAsUp : Nat)),
        ("down", num (instances.countP countsAsDown : Nat)),
        ("outOfService", num ((serverGroups'.map fun sg =>
          (elemsOf (sg.prop "instances")).countP countsAsOutOfService).sum : Nat))])) ∧
    (normalizeLoadBalancer [] sampleDisabledLoadBalancer).map (fun loadBalancer' =>
        ((loadBalancer'.prop "instanceCounts").prop "outOfService",
          (elemsOf (loadBalancer'.prop "instances")).length))
      = some (num 1, 0) := by
  constructor
  · obtain ⟨lb', own, ps, gathered, hres, hobj, hown, hforall, hi, _, hc, _, _⟩ :=
      normalizeLoadBalancer_spec vpcs loadBalancer hwf hv
    exact ⟨lb', _, own, ps, hres, by rw [get?_of_isObject hobj, hi],
      by rw [get?_of_isObject hobj, hown], forall₂_length _ _ _ hforall,
      by rw [get?_of_isObject hobj, hc]⟩
  · rfl

/-- C22 (witness): the sample load balancer, with an active and a disabled server group. -/
theorem C22_out_of_service_counts_all_server_groups_witness :
    (∃ loadBalancer' instances serverGroups' ps,
      normalizeLoadBalancer sampleVpcs sampleLoadBalancer = some loadBalancer' ∧
      loadBalancer'.get? "instances" = some (arr instances []) ∧
      loadBalancer'.get? "serverGroups" = some (arr serverGroups' ps) ∧
      serverGroups'.length = (elemsOf (sampleLoadBalancer.prop "serverGroups")).length ∧
      loadBalancer'.get? "instanceCounts" = some (obj [
        ("up", num (instances.countP countsAsUp : Nat)),
        ("down", num (instances.countP countsAsDown : Nat)),
        ("outOfService", num ((serverGroups'.map fun sg =>
          (elemsOf (sg.prop "instances")).countP countsAsOutOfService).sum : Nat))])) ∧
    (normalizeLoadBalancer [] sampleDisabledLoadBalancer).map (fun loadBalancer' =>
        ((loadBalancer'.prop "instanceCounts").prop "outOfService",
          (elemsOf (loadBalancer'.prop "instances")).length))
      = some (num 1, 0) :=
  C22_out_of_service_counts_all_server_groups sampleVpcs sampleLoadBalancer rfl
    (by intro v hv; simp [sampleVpcs] at hv; subst hv; rfl)

/-- C23: for a well-formed server group of a load balancer or target group,
`normalizeServerGroups` returns, and every instance that it processes (the instances of the
server group followed by the objects made for its detached instances) ends with a `health`
list whose only element is the health record and on which the health type is recorded as the
property `type` of the list itself. The health record has exactly the fields of the original
health object, with the state `healthy` rewritten to `InService`: it gains no field `type`.
The field `loadBalancers` or `targetGroups` of the instance is the one-element list that
holds the name of the container. -/
theorem C23_health_type_on_list (container serverGroup : JVal)
    (containerType healthType : String)
    (hct : containerType = "loadBalancers" ∨ containerType = "targetGroups")
    (hcont : container.isObject = true)
    (hwf : wellFormedServerGroup serverGroup = true) :
    ∃ serverGroup' normalized ps,
      normalizeServerGroup container containerType healthType serverGroup
        = some serverGroup' ∧
      serverGroup'.get? "instances" = some (arr normalized ps) ∧
      List.Forall₂ (fun inst inst' =>
          ∃ record,
            inst'.get? "health" = some (arr [record] [("type", str healthType)]) ∧
            getIndex? (inst'.prop "health") 0 = some record ∧
            (inst'.prop "health").get? "type" = some (str healthType) ∧
            (∀ k, record.hasKey k = (originalHealth inst).hasKey k) ∧
            (∀ k, k ≠ "state" → record.prop k = (originalHealth inst).prop k) ∧
            record.prop "state" = (if (originalState inst).isStr "healthy" then str "InService"
              else originalState inst) ∧
            inst'.get? containerType = some (arr [container.prop "name"] []))
        (elemsOf (serverGroup.prop "instances") ++ detachedObjects serverGroup) normalized := by
  have h1 : containerType ≠ "health" := by rcases hct with h | h <;> (subst h; decide)
  have h2 : containerType ≠ "healthState" := by rcases hct with h | h <;> (subst h; decide)
  obtain ⟨⟨instances, ps, hi, _⟩, _⟩ := wellFormedServerGroup_spec serverGroup hwf
  obtain ⟨sg', normalized, ps', hres, hforall, hinst, _, _, _, hobj', _⟩ :=
    normalizeServerGroup_spec container containerType healthType serverGroup instances ps
      hcont h1 h2 hwf hi
  have he : elemsOf (serverGroup.prop "instances") = instances := by rw [hi]; rfl
  refine ⟨sg', normalized, ps', hres, by rw [get?_of_isObject hobj', hinst], ?_⟩
  rw [he]
  refine hforall.imp ?_
  intro inst inst' h
  obtain ⟨ho, hh, _, hc⟩ :=
    normalizeInstance_result container containerType healthType inst inst' h1 h2 h
  refine ⟨renameHealthy (originalHealth inst), by rw [get?_of_isObject ho, hh], by rw [hh]; rfl,
    by rw [hh]; rfl, renameHealthy_hasKey _, fun k hk => renameHealthy_prop_ne _ k hk,
    renameHealthy_state _, by rw [get?_of_isObject ho, hc]⟩

/-- C23 (witness): the first server group of the sample load balancer. -/
theorem C23_health_type_on_list_witness :
    ∃ serverGroup' normalized ps,
      normalizeServerGroup sampleLoadBalancer "loadBalancers" "LoadBalancer"
        (sampleServerGroup "app-v001" false) = some serverGroup' ∧
      serverGroup'.get? "instances" = some (arr normalized ps) ∧
      List.Forall₂ (fun inst inst' =>
          ∃ record,
            inst'.get? "health" = some (arr [record] [("type", str "LoadBalancer")]) ∧
            getIndex? (inst'.prop "health") 0 = some record ∧
            (inst'.prop "health").get? "type" = some (str "LoadBalancer") ∧
            (∀ k, record.hasKey k = (originalHealth inst).hasKey k) ∧
            (∀ k, k ≠ "state" → record.prop k = (originalHealth inst).prop k) ∧
            record.prop "state" = (if (originalState inst).isStr "healthy" then str "InService"
              else originalState inst) ∧
            inst'.get? "loadBalancers" = some (arr [sampleLoadBalancer.prop "name"] []))
        (elemsOf ((sampleServerGroup "app-v001" false).prop "instances")
          ++ detachedObjects (sampleServerGroup "app-v001" false)) normalized :=
  C23_health_type_on_list sampleLoadBalancer (sampleServerGroup "app-v001" false)
    "loadBalancers" "LoadBalancer" (Or.inl rfl) rfl rfl

/-- C24: the two certificate-ARN parsers agree. For an ARN with exactly six fields separated
by colons, whose first five fields hold no slash and whose sixth field holds a slash, the
type and the name that the listener callback of `convertClassicLoadBalancerForEditing`
derives from `listener.sslcertificateId` are the type and the name that the certificate
callback of `convertApplicationLoadBalancerForEditing` derives from the same string given as
`certificateArn`: the type is the third field and the name is a string. -/
theorem C24_certificate_parsers_agree (description listener cert : JVal)
    (f1 f2 f3 f4 f5 sixth : String)
    (hd : description.get? "listener" = some listener)
    (hc : listener.get? "sslcertificateId" = some (str
      (f1 ++ ":" ++ f2 ++ ":" ++ f3 ++ ":" ++ f4 ++ ":" ++ f5 ++ ":" ++ sixth)))
    (hcert : cert.get? "certificateArn" = some (str
      (f1 ++ ":" ++ f2 ++ ":" ++ f3 ++ ":" ++ f4 ++ ":" ++ f5 ++ ":" ++ sixth)))
    (c1 : ':' ∉ f1.data) (c2 : ':' ∉ f2.data) (c3 : ':' ∉ f3.data) (c4 : ':' ∉ f4.data)
    (c5 : ':' ∉ f5.data) (c6 : ':' ∉ sixth.data)
    (s1 : '/' ∉ f1.data) (s2 : '/' ∉ f2.data) (s3 : '/' ∉ f3.data) (s4 : '/' ∉ f4.data)
    (s5 : '/' ∉ f5.data) (s6 : '/' ∈ sixth.data) :
    ∃ edited after entry name,
      convertClassicListener description = some (edited, after) ∧
      convertCertificate cert = some entry ∧
      edited.get? "sslCertificateType" = entry.get? "type" ∧
      edited.get? "sslCertificateName" = entry.get? "name" ∧
      edited.get? "sslCertificateId" = entry.get? "name" ∧
      entry.get? "type" = some (str f3) ∧ entry.get? "name" = some (str name) := by
  obtain ⟨before, name, rest, hsix, hb, hn, hr, hsub⟩ := exists_pieces_of_mem '/' sixth s6
  have cb : ':' ∉ before.data := fun h => c6 (hsub _ h)
  -- the application parser
  have hfields : HasArnFields cert f3 sixth :=
    ⟨f1, f2, f4, f5, "", by rw [String.append_empty]; exact hcert, c1, c2, c3, c4, c5, c6,
      Or.inl rfl⟩
  have happ := convertCertificate_of_fields cert f3 sixth hfields
  have hname : (split sixth '/')[1]? = some name := by
    rw [hsix]
    exact split_second_piece before name rest hb hn hr
  rw [hname] at happ
  -- the classic parser
  have harn : f1 ++ ":" ++ f2 ++ ":" ++ f3 ++ ":" ++ f4 ++ ":" ++ f5 ++ ":" ++ sixth
      = (f1 ++ ":" ++ f2 ++ ":" ++ f3 ++ ":" ++ f4 ++ ":" ++ f5 ++ ":" ++ before)
        ++ String.singleton '/' ++ (name ++ rest) := by
    rw [hsix]
    apply String.ext
    simp [String.data_append, String.singleton]
  obtain ⟨tail, htail⟩ := split_head name rest '/' hn hr
  have hsplit : split (f1 ++ ":" ++ f2 ++ ":" ++ f3 ++ ":" ++ f4 ++ ":" ++ f5 ++ ":" ++ sixth) '/'
      = (f1 ++ ":" ++ f2 ++ ":" ++ f3 ++ ":" ++ f4 ++ ":" ++ f5 ++ ":" ++ before)
        :: name :: tail := by
    rw [harn, split_append_sep _ _ '/' (by simp [String.data_append, s1, s2, s3, s4, s5, hb]),
      htail]
  obtain ⟨tail', htail'⟩ := split_six_fields f1 f2 f3 f4 f5 before "" c1 c2 c3 c4 c5 cb
    (Or.inl rfl)
  rw [String.append_empty] at htail'
  have hne : f1 ++ ":" ++ f2 ++ ":" ++ f3 ++ ":" ++ f4 ++ ":" ++ f5 ++ ":" ++ sixth ≠ "" := by
    intro e
    have := congrArg String.data e
    simp [String.data_append] at this
  obtain ⟨edited, after, hconv, htype, hid, hnm⟩ :=
    convertClassicListener_pieces description listener _ _ _ hd hc hne hsplit
  rw [htail'] at htype
  refine ⟨edited, after, _, name, hconv, happ, ?_, ?_, ?_, ?_, ?_⟩
  · rw [htype]; simp [get?_obj, lookup, ofStr?]
  · rw [hnm]; simp [get?_obj, lookup, ofStr?]
  · rw [hid]; simp [get?_obj, lookup, ofStr?]
  · simp [get?_obj, lookup]
  · simp [get?_obj, lookup, ofStr?]

/-- C24 (witness): the ARN `arn:aws:iam::123456789012:server-certificate/my-cert`. -/
theorem C24_certificate_parsers_agree_witness :
    ∃ edited after entry name,
      convertClassicListener (obj [("listener", obj [("sslcertificateId", str
        ("arn" ++ ":" ++ "aws" ++ ":" ++ "iam" ++ ":" ++ "" ++ ":" ++ "123456789012" ++ ":"
          ++ "server-certificate/my-cert"))])]) = some (edited, after) ∧
      convertCertificate (obj [("certificateArn", str
        ("arn" ++ ":" ++ "aws" ++ ":" ++ "iam" ++ ":" ++ "" ++ ":" ++ "123456789012" ++ ":"
          ++ "server-certificate/my-cert"))]) = some entry ∧
      edited.get? "sslCertificateType" = entry.get? "type" ∧
      edited.get? "sslCertificateName" = entry.get? "name" ∧
      edited.get? "sslCertificateId" = entry.get? "name" ∧
      entry.get? "type" = some (str "iam") ∧ entry.get? "name" = some (str name) :=
  C24_certificate_parsers_agree _ _ _ "arn" "aws" "iam" "" "123456789012"
    "server-certificate/my-cert" rfl rfl rfl (by decide) (by decide) (by decide) (by decide)
    (by decide) (by decide) (by decide) (by decide) (by decide) (by decide) (by decide)
    (by decide)

/-- C25: the two load-balancer-name extractors agree through comma joining. For every pair of
lists of non-empty, comma-free names, `extractLoadBalancersFromMetadata`, applied to a
metadata object that holds each list joined with a comma under `load-balancer-names` and
`global-load-balancer-names`, returns the same list as `extractLoadBalancers` applied to an
object that holds the lists themselves: the names of the first list followed by the names of
the second. An empty list joins to the empty string, which is skipped. -/
theorem C25_extractors_agree (metadata asg : JVal) (first second : List String)
    (fp sp : Fields)
    (hm1 : metadata.get? "load-balancer-names" = some (str (joinWith "," first)))
    (hm2 : metadata.get? "global-load-balancer-names" = some (str (joinWith "," second)))
    (ha1 : asg.get? "load-balancer-names" = some (arr (first.map str) fp))
    (ha2 : asg.get? "global-load-balancer-names" = some (arr (second.map str) sp))
    (hnames : ∀ name ∈ first ++ second, ',' ∉ name.data ∧ name ≠ "") :
    extractLoadBalancersFromMetadata metadata = extractLoadBalancers asg ∧
    extractLoadBalancers asg = some (arr ((first ++ second).map str) []) := by
  have h2 : extractLoadBalancers asg = some (arr ((first ++ second).map str) []) := by
    rw [extractLoadBalancers_eq asg _ ha1, prop_of_get? ha2]
    simp [JVal.truthy, concatValue]
  refine ⟨?_, h2⟩
  rw [h2]
  exact extractLoadBalancersFromMetadata_joined metadata first second hm1 hm2 hnames

/-- C25 (witness): two regional load balancers and no global one. -/
theorem C25_extractors_agree_witness :
    extractLoadBalancersFromMetadata
        (obj [("load-balancer-names", str (joinWith "," ["lb-a", "lb-b"])),
          ("global-load-balancer-names", str (joinWith "," []))])
      = extractLoadBalancers
        (obj [("load-balancer-names", arr (["lb-a", "lb-b"].map str) []),
          ("global-load-balancer-names", arr (([] : List String).map str) [])]) ∧
    extractLoadBalancers
        (obj [("load-balancer-names", arr (["lb-a", "lb-b"].map str) []),
          ("global-load-balancer-names", arr (([] : List String).map str) [])])
      = some (arr ((["lb-a", "lb-b"] ++ []).map str) []) :=
  C25_extractors_agree _ _ ["lb-a", "lb-b"] [] [] [] rfl rfl rfl rfl (by decide)

end Deck
